import Mathlib

/-!
# Multi-tier cache and ID obfuscation of nuwa-kit: a shallow embedding

The Go package `pkg/cache` composes a process-local tier (L1, `RistrettoCache`)
and a shared remote tier (L2, `RedisCache`) behind one `Cache` interface
(`HybridCache`), and keeps the L1 tiers of several processes in step with an
invalidation listener (`L1Invalidator`).  This file embeds the interface, the
two concrete tiers as key-value stores, the coordinator and the listener, and
proves properties of them.  The store of L1 is the table of the ristretto
library together with its buffer of writes that are not processed yet; the
store of L2 is a table.  It also embeds the code validator of `pkg/auth`,
which reads the cache, and the Feistel cipher and ID ranges of `pkg/idutil`.

Conventions of the embedding.

* A Go `error` result is an `Option GoError`; `none` is Go's `nil`.
* A Go call that does not return normally (a panic, such as a failed type
  assertion, or a caller blocked on another goroutine) yields `none` in the
  outer `Option`; a normal return yields `some (result, state)`.
* A tier is an arbitrary implementation of the `Cache` interface over its own
  state type; the two tiers do not share state.
* The coordinator works on a `World`: the states of both tiers, the keys with a
  fetch in flight in the singleflight group, and the chronological trace of
  every call the coordinator issued to a tier or to the fetch function.
* `context.Context` arguments are dropped: whatever a context makes a tier do
  is covered by the tier being arbitrary.
* Machine integers are natural numbers or integers with the truncations of
  the source written out (`% 65536` for `uint16`, `uint32` for the conversion
  of an `int`); the hash function of crypto/sha256 is a parameter; a loop of
  the source without a bound takes fuel.
* The goroutine of the ristretto library that processes the buffer of L1 runs
  between the calls of the owner (`Ristretto.background`), any number of
  turns; what its policy admits and evicts is not fixed.
* Concurrent calls of `GetOrSet` are interleavings of atomic steps, one step
  per call of the source (`HybridCache.stepCall`); a goroutine that runs alone
  does what the method does (`HybridCache.runCalls_alone`).
-/

namespace NuwaKit

/-! ## Go values, errors, durations -/

/-- Go values of type `interface{}` that the cache is handed: strings and,
as a representative of every other dynamic type, integers. -/
inductive GoValue where
  | str (s : String)
  | int (n : Int)
  deriving DecidableEq, Repr

/-- Go `error` values met in the package.  `redisNil` is the sentinel
`redis.Nil`; `errorsNew msg` is a value built by `errors.New(msg)`, which is
never identical to a sentinel, whatever its message; `upstream msg` is a
transport or protocol failure reported by a tier. -/
inductive GoError where
  | redisNil
  | errorsNew (msg : String)
  | upstream (msg : String)
  deriving DecidableEq, Repr

/-- Go `time.Duration`: a count of nanoseconds. -/
abbrev Duration := Int

/-- Go constant `time.Second`, in nanoseconds. -/
def time.Second : Duration := 1000000000

/-- Go constant `time.Minute`, in nanoseconds. -/
def time.Minute : Duration := 60 * time.Second

/-! ## The `Cache` interface (cache.go) -/

/-- Interface `Cache` of cache.go, restricted to the key-value methods, as
operations on the state `σ` of the implementing tier.  `Get` returns Go's
`(string, error)` pair, `Exists` Go's `(bool, error)` pair, `Set` and `Del`
return Go's `error`. -/
structure Cache (σ : Type) where
  Get : String → σ → Option ((String × Option GoError) × σ)
  Exists : String → σ → Option ((Bool × Option GoError) × σ)
  Set : String → GoValue → Duration → σ → Option (Option GoError × σ)
  Del : String → σ → Option (Option GoError × σ)

/-- Interface `Cache` of cache.go, the Redis-specific methods: counter, list,
script and set commands.  A variadic `...interface{}` is a list of values, a
`[]string` a list (nil is the empty list), an `interface{}` result an
optional value (nil is `none`), an `int64` an integer. -/
structure CacheCommands (σ : Type) where
  Incr : String → σ → Option ((Int × Option GoError) × σ)
  RPush : String → List GoValue → σ → Option (Option GoError × σ)
  BLPop : Duration → List String → σ → Option ((List String × Option GoError) × σ)
  LTrim : String → Int → Int → σ → Option (Option GoError × σ)
  Eval : String → List String → List GoValue → σ →
    Option ((Option GoValue × Option GoError) × σ)
  SAdd : String → List GoValue → σ → Option (Option GoError × σ)
  SIsMember : String → GoValue → σ → Option ((Bool × Option GoError) × σ)

/-! ## Trace of the calls issued by the coordinator -/

/-- The two tiers of a `HybridCache`. -/
inductive Tier where
  | L1
  | L2
  deriving DecidableEq, Repr

/-- One call of a `Cache` method, with its arguments. -/
inductive Op where
  | get (key : String)
  | exists_ (key : String)
  | set (key : String) (value : GoValue) (expiration : Duration)
  | del (key : String)
  | incr (key : String)
  | rpush (key : String) (values : List GoValue)
  | blpop (timeout : Duration) (keys : List String)
  | ltrim (key : String) (start stop : Int)
  | eval (script : String) (keys : List String) (args : List GoValue)
  | sadd (key : String) (members : List GoValue)
  | sismember (key : String) (member : GoValue)
  deriving DecidableEq, Repr

/-- One observable action of the coordinator: a call issued to a tier, or an
invocation of the caller's fetch function. -/
inductive Event where
  | call (tier : Tier) (op : Op)
  | fetch
  deriving DecidableEq, Repr

/-! ## L1: RistrettoCache (ristretto.go) -/

/-- One entry of the in-process table: the stored value and the TTL it was
stored with. -/
structure Entry where
  value : GoValue
  ttl : Duration
  deriving DecidableEq, Repr

/-- One item of the library waiting in its set buffer, by its flag: a new key
to be admitted, an update of a key that is already stored, or a delete. -/
inductive Item where
  | itemNew (key : String) (entry : Entry)
  | itemUpdate (key : String) (entry : Entry)
  | itemDelete (key : String)
  deriving DecidableEq, Repr

/-- State of the `ristretto.Cache[string, any]` held by a `RistrettoCache`:
the table that `Get` reads (`storedItems`) and the buffer of items that the
goroutine `processItems` has not handled yet (`setBuf`, oldest first).  The
library is not part of the repository; the model follows its documented
behaviour: a write of a new key is buffered and becomes readable only once it
is processed and admitted, a write of a stored key and a delete act on the
table at once.  Keys stand for their hashes (no collision), and there is no
clock: an entry does not expire. -/
structure Ristretto where
  storedItems : List (String × Entry)
  setBuf : List Item
  deriving DecidableEq, Repr

/-- Capacity of the channel `setBuf` of the library (`setBufSize`). -/
def setBufSize : Nat := 32 * 1024

/-- Table of the library with `key` bound to `e`. -/
def storeSet (s : List (String × Entry)) (key : String) (e : Entry) : List (String × Entry) :=
  (key, e) :: s.filter (fun p => p.1 != key)

/-- Table of the library without `key`. -/
def storeDel (s : List (String × Entry)) (key : String) : List (String × Entry) :=
  s.filter (fun p => p.1 != key)

/-- Library call `ristretto.Cache.Get(key)`, returning `(val, found)` as an
option: it reads the table only, never the buffer. -/
def Ristretto.Get (c : Ristretto) (key : String) : Option GoValue :=
  (List.lookup key c.storedItems).map Entry.value

/-- Library call `ristretto.Cache.SetWithTTL(key, value, cost, ttl)`, with the
flag it returns.  A negative TTL is a no-op that returns false.  A key that
is in the table is updated there at once, the item is sent to the buffer if
there is room, and the call returns true.  A key that is not in the table is
only sent to the buffer, to be admitted or rejected when it is processed;
when the buffer is full the item is dropped and the call returns false. -/
def Ristretto.SetWithTTL (c : Ristretto) (key : String) (value : GoValue)
    (ttl : Duration) : Bool × Ristretto :=
  if ttl < 0 then (false, c)
  else
    let e : Entry := { value := value, ttl := ttl }
    if (List.lookup key c.storedItems).isSome then
      (true, { storedItems := storeSet c.storedItems key e
               setBuf := if c.setBuf.length < setBufSize
                 then c.setBuf ++ [.itemUpdate key e] else c.setBuf })
    else if c.setBuf.length < setBufSize then
      (true, { c with setBuf := c.setBuf ++ [.itemNew key e] })
    else (false, c)

/-- Library call `ristretto.Cache.Del(key)`: the key leaves the table at once
and a delete item is sent to the buffer, behind the writes that wait there.
The send blocks while the buffer is full; the item of the waiting sender is
kept at the end of the buffer. -/
def Ristretto.Del (c : Ristretto) (key : String) : Ristretto :=
  { storedItems := storeDel c.storedItems key, setBuf := c.setBuf ++ [.itemDelete key] }

/-- One turn of the library goroutine `processItems`: it takes the oldest item
of the buffer.  For a new key the policy decides whether it is admitted
(`added`) and which stored keys are evicted (`victims`); an admitted item is
written to the table and the victims are deleted from it.  An update item
changes the policy only.  A delete item deletes the key from the table.  The
decisions of the policy are arguments: the model does not fix them. -/
def Ristretto.processItem (added : Bool) (victims : List String) (c : Ristretto) :
    Ristretto :=
  match c.setBuf with
  | [] => c
  | .itemNew key e :: rest =>
    { storedItems :=
        victims.foldl storeDel (if added then storeSet c.storedItems key e else c.storedItems)
      setBuf := rest }
  | .itemUpdate _ _ :: rest => { c with setBuf := rest }
  | .itemDelete key :: rest => { storedItems := storeDel c.storedItems key, setBuf := rest }

/-- Progress of the goroutine `processItems` between two calls of the owner of
the cache: any number of turns, each with the decisions of the policy. -/
def Ristretto.background (turns : List (Bool × List String)) (c : Ristretto) : Ristretto :=
  turns.foldl (fun c t => c.processItem t.1 t.2) c

/-- Method `RistrettoCache.Get`: a miss returns `("", errors.New("redis: nil"))`;
a hit returns `val.(string)`, a type assertion that panics when the stored
value is not a string. -/
def RistrettoCache.Get (key : String) (c : Ristretto) :
    Option ((String × Option GoError) × Ristretto) :=
  match c.Get key with
  | none => some (("", some (GoError.errorsNew "redis: nil")), c)
  | some (GoValue.str s) => some ((s, none), c)
  | some _ => none

/-- Method `RistrettoCache.Exists`: whether `cache.Get(key)` finds the key,
with a `nil` error. -/
def RistrettoCache.Exists (key : String) (c : Ristretto) :
    Option ((Bool × Option GoError) × Ristretto) :=
  some (((c.Get key).isSome, none), c)

/-- Method `RistrettoCache.Set`: `SetWithTTL` with cost 1, whose flag is
discarded, then `nil`. -/
def RistrettoCache.Set (key : String) (value : GoValue) (expiration : Duration)
    (c : Ristretto) : Option (Option GoError × Ristretto) :=
  some (none, (c.SetWithTTL key value expiration).2)

/-- Method `RistrettoCache.Del`: delete, then `nil`. -/
def RistrettoCache.Del (key : String) (c : Ristretto) :
    Option (Option GoError × Ristretto) :=
  some (none, c.Del key)

/-- Method `RistrettoCache.Incr`: `return 0, errors.New("not supported")`. -/
def RistrettoCache.Incr (_key : String) (c : Ristretto) :
    Option ((Int × Option GoError) × Ristretto) :=
  some ((0, some (.errorsNew "not supported")), c)

/-- Method `RistrettoCache.RPush`: `return errors.New("not supported")`. -/
def RistrettoCache.RPush (_key : String) (_values : List GoValue) (c : Ristretto) :
    Option (Option GoError × Ristretto) :=
  some (some (.errorsNew "not supported"), c)

/-- Method `RistrettoCache.BLPop`: `return nil, errors.New("not supported")`. -/
def RistrettoCache.BLPop (_timeout : Duration) (_keys : List String) (c : Ristretto) :
    Option ((List String × Option GoError) × Ristretto) :=
  some (([], some (.errorsNew "not supported")), c)

/-- Method `RistrettoCache.LTrim`: `return errors.New("not supported")`. -/
def RistrettoCache.LTrim (_key : String) (_start _stop : Int) (c : Ristretto) :
    Option (Option GoError × Ristretto) :=
  some (some (.errorsNew "not supported"), c)

/-- Method `RistrettoCache.Eval`: `return nil, errors.New("not supported")`. -/
def RistrettoCache.Eval (_script : String) (_keys : List String) (_args : List GoValue)
    (c : Ristretto) : Option ((Option GoValue × Option GoError) × Ristretto) :=
  some ((none, some (.errorsNew "not supported")), c)

/-- Method `RistrettoCache.SAdd`: `return errors.New("not supported")`. -/
def RistrettoCache.SAdd (_key : String) (_members : List GoValue) (c : Ristretto) :
    Option (Option GoError × Ristretto) :=
  some (some (.errorsNew "not supported"), c)

/-- Method `RistrettoCache.SIsMember`: `return false, errors.New("not supported")`. -/
def RistrettoCache.SIsMember (_key : String) (_member : GoValue) (c : Ristretto) :
    Option ((Bool × Option GoError) × Ristretto) :=
  some ((false, some (.errorsNew "not supported")), c)

/-- The Redis-specific methods of `RistrettoCache`. -/
def RistrettoCache.commands : CacheCommands Ristretto where
  Incr := RistrettoCache.Incr
  RPush := RistrettoCache.RPush
  BLPop := RistrettoCache.BLPop
  LTrim := RistrettoCache.LTrim
  Eval := RistrettoCache.Eval
  SAdd := RistrettoCache.SAdd
  SIsMember := RistrettoCache.SIsMember

/-- The `RistrettoCache` as an implementation of the `Cache` interface. -/
def RistrettoCache : Cache Ristretto where
  Get := RistrettoCache.Get
  Exists := RistrettoCache.Exists
  Set := RistrettoCache.Set
  Del := RistrettoCache.Del

/-! ## L2: RedisCache (cache.go) over a key-value store -/

/-- State of the remote store seen through `redis.Client`, as a key-value
table of strings with the expiration each key was written with. -/
abbrev Redis := List (String × String × Duration)

/-- Text that the remote store keeps for a Go value handed to `SET`: a string
is stored as it is, an integer in decimal. -/
def GoValue.wire : GoValue → String
  | .str s => s
  | .int n => toString n

/-- Method `RedisCache.Get`: `client.Get(ctx, key).Result()`; an absent key
gives `("", redis.Nil)`. -/
def RedisCache.Get (key : String) (c : Redis) :
    Option ((String × Option GoError) × Redis) :=
  match List.lookup key c with
  | none => some (("", some GoError.redisNil), c)
  | some (v, _) => some ((v, none), c)

/-- Method `RedisCache.Exists`: `client.Exists(ctx, key).Result()` counts the
keys present; the method returns `val > 0` with a `nil` error. -/
def RedisCache.Exists (key : String) (c : Redis) :
    Option ((Bool × Option GoError) × Redis) :=
  some (((List.lookup key c).isSome, none), c)

/-- Method `RedisCache.Set`: `client.Set(ctx, key, value, expiration).Err()`. -/
def RedisCache.Set (key : String) (value : GoValue) (expiration : Duration)
    (c : Redis) : Option (Option GoError × Redis) :=
  some (none, (key, value.wire, expiration) :: c.filter (fun p => p.1 != key))

/-- Method `RedisCache.Del`: `client.Del(ctx, key).Err()`. -/
def RedisCache.Del (key : String) (c : Redis) :
    Option (Option GoError × Redis) :=
  some (none, c.filter (fun p => p.1 != key))

/-- The `RedisCache` over a reachable store as an implementation of the
`Cache` interface. -/
def RedisCache : Cache Redis where
  Get := RedisCache.Get
  Exists := RedisCache.Exists
  Set := RedisCache.Set
  Del := RedisCache.Del

/-- A tier in outage: every call returns the error `e` with a zero result
and stores nothing. -/
def downCache (e : GoError) : Cache Unit where
  Get := fun _ s => some (("", some e), s)
  Exists := fun _ s => some ((false, some e), s)
  Set := fun _ _ _ s => some (some e, s)
  Del := fun _ s => some (some e, s)

/-! ## HybridCache (hybrid.go) -/

/-- Struct `HybridCache`: the two tiers behind the `Cache` interface.  The Go
field names are `local` and `remote`; the singleflight group is state and
lives in the `World`. -/
structure HybridCache (σ₁ σ₂ : Type) where
  local_ : Cache σ₁
  remote : Cache σ₂

/-- What a `HybridCache` call runs on: the state of L1, the state of L2, the
keys that have a fetch in flight in the singleflight group, and the calls
issued so far, oldest first. -/
structure World (σ₁ σ₂ : Type) where
  l1 : σ₁
  l2 : σ₂
  group : List String
  trace : List Event

variable {σ₁ σ₂ : Type}

/-- Append one event to the trace. -/
def World.log (w : World σ₁ σ₂) (e : Event) : World σ₁ σ₂ :=
  { w with trace := w.trace ++ [e] }

/-- Call `c.local.Get(ctx, key)`. -/
def HybridCache.localGet (c : HybridCache σ₁ σ₂) (key : String) (w : World σ₁ σ₂) :
    Option ((String × Option GoError) × World σ₁ σ₂) :=
  match c.local_.Get key w.l1 with
  | none => none
  | some (r, s) => some (r, { w with l1 := s }.log (.call .L1 (.get key)))

/-- Call `c.local.Exists(ctx, key)`. -/
def HybridCache.localExists (c : HybridCache σ₁ σ₂) (key : String) (w : World σ₁ σ₂) :
    Option ((Bool × Option GoError) × World σ₁ σ₂) :=
  match c.local_.Exists key w.l1 with
  | none => none
  | some (r, s) => some (r, { w with l1 := s }.log (.call .L1 (.exists_ key)))

/-- Call `c.local.Set(ctx, key, value, expiration)`. -/
def HybridCache.localSet (c : HybridCache σ₁ σ₂) (key : String) (value : GoValue)
    (expiration : Duration) (w : World σ₁ σ₂) : Option (Option GoError × World σ₁ σ₂) :=
  match c.local_.Set key value expiration w.l1 with
  | none => none
  | some (r, s) => some (r, { w with l1 := s }.log (.call .L1 (.set key value expiration)))

/-- Call `c.local.Del(ctx, key)`. -/
def HybridCache.localDel (c : HybridCache σ₁ σ₂) (key : String) (w : World σ₁ σ₂) :
    Option (Option GoError × World σ₁ σ₂) :=
  match c.local_.Del key w.l1 with
  | none => none
  | some (r, s) => some (r, { w with l1 := s }.log (.call .L1 (.del key)))

/-- Call `c.remote.Get(ctx, key)`. -/
def HybridCache.remoteGet (c : HybridCache σ₁ σ₂) (key : String) (w : World σ₁ σ₂) :
    Option ((String × Option GoError) × World σ₁ σ₂) :=
  match c.remote.Get key w.l2 with
  | none => none
  | some (r, s) => some (r, { w with l2 := s }.log (.call .L2 (.get key)))

/-- Call `c.remote.Exists(ctx, key)`. -/
def HybridCache.remoteExists (c : HybridCache σ₁ σ₂) (key : String) (w : World σ₁ σ₂) :
    Option ((Bool × Option GoError) × World σ₁ σ₂) :=
  match c.remote.Exists key w.l2 with
  | none => none
  | some (r, s) => some (r, { w with l2 := s }.log (.call .L2 (.exists_ key)))

/-- Call `c.remote.Set(ctx, key, value, expiration)`. -/
def HybridCache.remoteSet (c : HybridCache σ₁ σ₂) (key : String) (value : GoValue)
    (expiration : Duration) (w : World σ₁ σ₂) : Option (Option GoError × World σ₁ σ₂) :=
  match c.remote.Set key value expiration w.l2 with
  | none => none
  | some (r, s) => some (r, { w with l2 := s }.log (.call .L2 (.set key value expiration)))

/-- Call `c.remote.Del(ctx, key)`. -/
def HybridCache.remoteDel (c : HybridCache σ₁ σ₂) (key : String) (w : World σ₁ σ₂) :
    Option (Option GoError × World σ₁ σ₂) :=
  match c.remote.Del key w.l2 with
  | none => none
  | some (r, s) => some (r, { w with l2 := s }.log (.call .L2 (.del key)))

/-- Method `HybridCache.Get` (hybrid.go, lines 27-46). -/
def HybridCache.Get (c : HybridCache σ₁ σ₂) (key : String) (w : World σ₁ σ₂) :
    Option ((String × Option GoError) × World σ₁ σ₂) :=
  -- 1. Try L1
  match c.localGet key w with
  | none => none
  | some ((val, none), w) => some ((val, none), w)
  | some ((_, some _), w) =>
    -- 2. Try L2
    match c.remoteGet key w with
    | none => none
    | some ((val, none), w) =>
      -- Populate L1 with 5 minutes; the error of the write is dropped
      match c.localSet key (.str val) (5 * time.Minute) w with
      | none => none
      | some (_, w) => some ((val, none), w)
    | some ((_, some err), w) => some (("", some err), w)

/-- Method `HybridCache.Exists` (hybrid.go, lines 48-54): the error of the
local call is dropped; a local `true` is returned with `nil`, otherwise the
result of the remote call. -/
def HybridCache.Exists (c : HybridCache σ₁ σ₂) (key : String) (w : World σ₁ σ₂) :
    Option ((Bool × Option GoError) × World σ₁ σ₂) :=
  match c.localExists key w with
  | none => none
  | some ((true, _), w) => some ((true, none), w)
  | some ((false, _), w) => c.remoteExists key w

/-- Method `HybridCache.Set` (hybrid.go, lines 56-64): the local write, whose
error is dropped, then the remote write, whose error is returned. -/
def HybridCache.Set (c : HybridCache σ₁ σ₂) (key : String) (value : GoValue)
    (expiration : Duration) (w : World σ₁ σ₂) : Option (Option GoError × World σ₁ σ₂) :=
  match c.localSet key value expiration w with
  | none => none
  | some (_, w) => c.remoteSet key value expiration w

/-- Method `HybridCache.Del` (hybrid.go, lines 66-69). -/
def HybridCache.Del (c : HybridCache σ₁ σ₂) (key : String) (w : World σ₁ σ₂) :
    Option (Option GoError × World σ₁ σ₂) :=
  match c.localDel key w with
  | none => none
  | some (_, w) => c.remoteDel key w

/-- Run one call of the remote tier on the world: the call acts on the state
of L2 and is recorded in the trace. -/
def World.onRemote {α : Type} (f : σ₂ → Option (α × σ₂)) (op : Op) (w : World σ₁ σ₂) :
    Option (α × World σ₁ σ₂) :=
  match f w.l2 with
  | none => none
  | some (r, s) => some (r, { w with l2 := s }.log (.call .L2 op))

/-- Method `HybridCache.Incr` (hybrid.go, line 137): `return c.remote.Incr(ctx, key)`.
In the passthrough methods `remote` is the Redis-specific part of `c.remote`,
the only field of `c` they use. -/
def HybridCache.Incr (remote : CacheCommands σ₂) (key : String) (w : World σ₁ σ₂) :
    Option ((Int × Option GoError) × World σ₁ σ₂) :=
  w.onRemote (remote.Incr key) (.incr key)

/-- Method `HybridCache.RPush` (hybrid.go, line 140). -/
def HybridCache.RPush (remote : CacheCommands σ₂) (key : String) (values : List GoValue)
    (w : World σ₁ σ₂) : Option (Option GoError × World σ₁ σ₂) :=
  w.onRemote (remote.RPush key values) (.rpush key values)

/-- Method `HybridCache.BLPop` (hybrid.go, line 143). -/
def HybridCache.BLPop (remote : CacheCommands σ₂) (timeout : Duration) (keys : List String)
    (w : World σ₁ σ₂) : Option ((List String × Option GoError) × World σ₁ σ₂) :=
  w.onRemote (remote.BLPop timeout keys) (.blpop timeout keys)

/-- Method `HybridCache.LTrim` (hybrid.go, line 146). -/
def HybridCache.LTrim (remote : CacheCommands σ₂) (key : String) (start stop : Int)
    (w : World σ₁ σ₂) : Option (Option GoError × World σ₁ σ₂) :=
  w.onRemote (remote.LTrim key start stop) (.ltrim key start stop)

/-- Method `HybridCache.Eval` (hybrid.go, line 149). -/
def HybridCache.Eval (remote : CacheCommands σ₂) (script : String) (keys : List String)
    (args : List GoValue) (w : World σ₁ σ₂) :
    Option ((Option GoValue × Option GoError) × World σ₁ σ₂) :=
  w.onRemote (remote.Eval script keys args) (.eval script keys args)

/-- Method `HybridCache.SAdd` (hybrid.go, line 152). -/
def HybridCache.SAdd (remote : CacheCommands σ₂) (key : String) (members : List GoValue)
    (w : World σ₁ σ₂) : Option (Option GoError × World σ₁ σ₂) :=
  w.onRemote (remote.SAdd key members) (.sadd key members)

/-- Method `HybridCache.SIsMember` (hybrid.go, line 155). -/
def HybridCache.SIsMember (remote : CacheCommands σ₂) (key : String) (member : GoValue)
    (w : World σ₁ σ₂) : Option ((Bool × Option GoError) × World σ₁ σ₂) :=
  w.onRemote (remote.SIsMember key member) (.sismember key member)

/-- Modelled from the spec: `singleflight.Group.Do` of the external package
golang.org/x/sync/singleflight (the Stampede Guard of the spec), for one
caller at a time.  When no fetch for the key is in flight the guard records
the key as in flight, executes the function once, clears the record and
returns the function's result.  When a fetch for the key is in flight the
caller would wait for another goroutine, which a single caller cannot
express: no result. -/
def Group.Do {α : Type} (key : String)
    (fn : World σ₁ σ₂ → Option (α × World σ₁ σ₂)) (w : World σ₁ σ₂) :
    Option (α × World σ₁ σ₂) :=
  if key ∈ w.group then none
  else
    match fn { w with group := key :: w.group } with
    | none => none
    | some (r, w) => some (r, { w with group := w.group.erase key })

/-- The closure handed to `group.Do` in `HybridCache.GetOrSet` (hybrid.go,
lines 86-101): fetch, and on success write L2 then L1, dropping both errors. -/
def HybridCache.fill (c : HybridCache σ₁ σ₂) (key : String) (expiration : Duration)
    (fetch : Unit → String × Option GoError) (w : World σ₁ σ₂) :
    Option ((String × Option GoError) × World σ₁ σ₂) :=
  -- Fetch
  match fetch (), w.log .fetch with
  | (_, some err), w => some (("", some err), w)
  | (data, none), w =>
    -- Set L2
    match c.remoteSet key (.str data) expiration w with
    | none => none
    | some (_, w) =>
      -- Set L1
      match c.localSet key (.str data) expiration w with
      | none => none
      | some (_, w) => some ((data, none), w)

/-- Method `HybridCache.GetOrSet` (hybrid.go, lines 71-107).  The fetch
function is a Go thunk `func() (string, error)`; it does not call back into
the cache. -/
def HybridCache.GetOrSet (c : HybridCache σ₁ σ₂) (key : String) (expiration : Duration)
    (fetch : Unit → String × Option GoError) (w : World σ₁ σ₂) :
    Option ((String × Option GoError) × World σ₁ σ₂) :=
  -- 1. Try L1
  match c.localGet key w with
  | none => none
  | some ((val, none), w) => some ((val, none), w)
  | some ((_, some _), w) =>
    -- 2. Try L2
    match c.remoteGet key w with
    | none => none
    | some ((val, none), w) =>
      match c.localSet key (.str val) expiration w with  -- Set L1
      | none => none
      | some (_, w) => some ((val, none), w)
    | some ((_, some _), w) =>
      -- 3. Miss or error in both, use SingleFlight
      match Group.Do key (c.fill key expiration fetch) w with
      | none => none
      | some ((_, some err), w) => some (("", some err), w)
      | some ((v, none), w) => some ((v, none), w)

/-- A world with the given tier states, no fetch in flight and an empty trace. -/
def World.init (s₁ : σ₁) (s₂ : σ₂) : World σ₁ σ₂ :=
  { l1 := s₁, l2 := s₂, group := [], trace := [] }

/-- The coordinator over the two key-value tiers, as built by
`NewHybridCache(ristrettoCache, redisCache)`. -/
def kvHybrid : HybridCache Ristretto Redis :=
  { local_ := RistrettoCache, remote := RedisCache }

/-! ## Concrete worlds used to evaluate the definitions -/

/-- The in-process cache with the given table and nothing buffered. -/
def Ristretto.ofTable (t : List (String × Entry)) : Ristretto :=
  { storedItems := t, setBuf := [] }

/-- Both key-value tiers empty. -/
def emptyWorld : World Ristretto Redis := World.init (.ofTable []) []

/-- The world left by `Set("user:42", "a", 5s)` on `emptyWorld`: L2 holds the
key, in L1 the write waits in the buffer. -/
def user42Queued : World Ristretto Redis :=
  { l1 := { storedItems := []
            setBuf := [.itemNew "user:42" { value := .str "a", ttl := 5 * time.Second }] }
    l2 := [("user:42", "a", 5 * time.Second)]
    group := []
    trace := [.call .L1 (.set "user:42" (.str "a") (5 * time.Second)),
              .call .L2 (.set "user:42" (.str "a") (5 * time.Second))] }

/-- The world of `user42Queued` once the buffered write has been processed and
admitted: both tiers hold user:42. -/
def user42World : World Ristretto Redis :=
  { l1 := .ofTable [("user:42", { value := .str "a", ttl := 5 * time.Second })]
    l2 := [("user:42", "a", 5 * time.Second)]
    group := []
    trace := [.call .L1 (.set "user:42" (.str "a") (5 * time.Second)),
              .call .L2 (.set "user:42" (.str "a") (5 * time.Second))] }

/-- A world where only L2 holds user:42 (L1 has dropped it). -/
def l2OnlyWorld : World Ristretto Redis :=
  World.init (.ofTable []) [("user:42", "a", 5 * time.Second)]

/-- The coordinator over the key-value L1 and an unreachable L2. -/
def l2DownHybrid : HybridCache Ristretto Unit :=
  { local_ := RistrettoCache, remote := downCache (.upstream "connection refused") }

/-- The coordinator over a failing L1 and the key-value L2. -/
def l1DownHybrid : HybridCache Unit Redis :=
  { local_ := downCache (.errorsNew "cache closed"), remote := RedisCache }

/-- A fetch function that succeeds with the report R1. -/
def fetchR1 : Unit → String × Option GoError := fun _ => ("R1", none)

/-- A fetch function that fails. -/
def fetchFail : Unit → String × Option GoError :=
  fun _ => ("", some (.errorsNew "db unavailable"))

/-- An L1 outage: every key-value call of the tier returns an error with a
zero result, and leaves the state of the tier as it was (stores nothing). -/
structure Cache.Outage {σ : Type} (l : Cache σ) : Prop where
  get : ∀ k s, ∃ e, l.Get k s = some (("", some e), s)
  exists_ : ∀ k s, ∃ e, l.Exists k s = some ((false, some e), s)
  set : ∀ k v t s, ∃ e, l.Set k v t s = some (some e, s)
  del : ∀ k s, ∃ e, l.Del k s = some (some e, s)

/-! ## L1Invalidator (l1_invalidator.go) -/

/-- Go constant `L1InvalidateChannel`. -/
def L1InvalidateChannel : String := "cache:l1:invalidate"

/-- Go `redis.Message`: the channel a message came from and its payload. -/
structure Message where
  Channel : String
  Payload : String
  deriving DecidableEq, Repr

/-- Go `strings.HasSuffix(s, suffix)`. -/
def strings.HasSuffix (s suffix : String) : Bool :=
  suffix.data.isSuffixOf s.data

/-- Struct `L1Invalidator`: the L1 cache it clears.  The lifecycle fields
(`isRunning`, `pubsub`, the context) are state, see `Lifecycle`. -/
structure L1Invalidator (σ₁ : Type) where
  l1 : Cache σ₁

/-- Method `L1Invalidator.handleMessage` (l1_invalidator.go, lines 87-108).
A nil message, an empty payload and a payload ending in `:*` return without
doing anything; any other payload is deleted as a key from L1, the error
of the delete being dropped. -/
def L1Invalidator.handleMessage (i : L1Invalidator σ₁) (msg : Option Message)
    (w : World σ₁ σ₂) : Option (World σ₁ σ₂) :=
  match msg with
  | none => some w
  | some m =>
    let key := m.Payload
    if key = "" then some w
    -- Handle wildcard pattern (e.g., "iam:result:123:*")
    else if strings.HasSuffix key ":*" then some w
    else
      -- Delete the specific key from L1
      match i.l1.Del key w.l1 with
      | none => none
      | some (_, s) => some ({ w with l1 := s }.log (.call .L1 (.del key)))

/-- The invalidator of the key-value L1, as built by `StartL1Invalidator`. -/
def kvInvalidator : L1Invalidator Ristretto := { l1 := RistrettoCache }

/-- A world where L1 holds a stale value and L2 the current one, under a key
that ends in `:*`. -/
def staleWildcardWorld : World Ristretto Redis :=
  World.init (.ofTable [("iam:result:123:*", { value := .str "old", ttl := time.Minute })])
    [("iam:result:123:*", "new", time.Minute)]

/-- A world where L1 holds a stale value of user:42 and another key, and L2
the current value of user:42. -/
def staleWorld : World Ristretto Redis :=
  World.init (.ofTable [("user:42", { value := .str "old", ttl := time.Minute }),
              ("user:7", { value := .str "b", ttl := time.Minute })])
    [("user:42", "new", time.Minute)]

/-- Go method `Error()` of an error value: its message.  The sentinel
`redis.Nil` has the message "redis: nil". -/
def GoError.Error : GoError → String
  | .redisNil => "redis: nil"
  | .errorsNew msg => msg
  | .upstream msg => msg

/-- Lifecycle state of an `L1Invalidator`: the field `isRunning`, whether
`pubsub` is set (`Subscribe` was called), whether the confirmation of the
subscription was received, whether the listen goroutine was launched and has
not been drained, and whether `cancel` was called. -/
structure Lifecycle where
  isRunning : Bool
  subscribed : Bool
  confirmed : Bool
  listening : Bool
  cancelled : Bool
  deriving DecidableEq, Repr

/-- The lifecycle state after `NewL1Invalidator`. -/
def Lifecycle.new : Lifecycle :=
  { isRunning := false, subscribed := false, confirmed := false, listening := false,
    cancelled := false }

/-- Method `L1Invalidator.Start` (l1_invalidator.go, lines 44-66).  `recv` is
what `i.pubsub.Receive(i.ctx)` returns, the error or `nil`. -/
def L1Invalidator.Start (recv : Option GoError) (s : Lifecycle) : Option GoError × Lifecycle :=
  if s.isRunning then (none, s)
  else
    let s := { s with isRunning := true }
    -- Subscribe to the invalidation channel
    let s := { s with subscribed := true, confirmed := false }
    -- Wait for subscription confirmation
    match recv with
    | some err => (some err, s)
    | none => (none, { s with confirmed := true, listening := true })

/-- Method `L1Invalidator.Stop` (l1_invalidator.go, lines 111-141).  `drained`
tells whether the listener exited before the 5 second timeout. -/
def L1Invalidator.Stop (drained : Bool) (s : Lifecycle) : Option GoError × Lifecycle :=
  if !s.isRunning then (none, s)
  else
    (none, { s with isRunning := false, cancelled := true,
                    listening := s.listening && !drained })

/-! ## Sequences of coordinator calls -/

/-- One call of a key-value method of `HybridCache` by a caller. -/
inductive Request where
  | get (key : String)
  | exists_ (key : String)
  | set (key : String) (value : GoValue) (expiration : Duration)
  | del (key : String)
  | getOrSet (key : String) (expiration : Duration) (fetch : Unit → String × Option GoError)

/-- Serve one request on the world; the result of the call is dropped, the
world it leaves is kept. -/
def HybridCache.serve (c : HybridCache σ₁ σ₂) : Request → World σ₁ σ₂ → Option (World σ₁ σ₂)
  | .get k, w => (c.Get k w).map Prod.snd
  | .exists_ k, w => (c.Exists k w).map Prod.snd
  | .set k v t, w => (c.Set k v t w).map Prod.snd
  | .del k, w => (c.Del k w).map Prod.snd
  | .getOrSet k t f, w => (c.GetOrSet k t f w).map Prod.snd

/-- Serve a sequence of requests, one after the other. -/
def HybridCache.serveAll (c : HybridCache σ₁ σ₂) :
    List Request → World σ₁ σ₂ → Option (World σ₁ σ₂)
  | [], w => some w
  | r :: rs, w =>
    match c.serve r w with
    | none => none
    | some w' => c.serveAll rs w'

/-- The key and the TTL of the L1 entries that serving a request may write:
the caller's key and TTL for `Set` and `GetOrSet`, the key and 5 minutes for
`Get`, none for `Exists` and `Del`. -/
def Request.l1Write : Request → Option (String × Duration)
  | .get k => some (k, 5 * time.Minute)
  | .exists_ _ => none
  | .set k _ t => some (k, t)
  | .del _ => none
  | .getOrSet k t _ => some (k, t)

/-! ## Concurrent GetOrSet calls: interleaving of atomic steps -/

/-- Where one goroutine stands in its call of `HybridCache.GetOrSet`
(hybrid.go, lines 71-107); each position names what it has done last, its
next step is the next call of the source. -/
inductive CallPc where
  /-- The call was issued; next is `c.local.Get` (line 73). -/
  | start
  /-- L1 returned an error; next is `c.remote.Get` (line 79). -/
  | l1Missed
  /-- L2 returned `val`; next is `c.local.Set` (line 81). -/
  | l2Hit (val : String)
  /-- L2 returned an error; next is `c.group.Do` (line 86). -/
  | l2Missed
  /-- The guard recorded this call as the fetch in flight; next is `fetch()`. -/
  | leading
  /-- The fetch returned `data`; next is `c.remote.Set` (line 94). -/
  | fetched (data : String)
  /-- L2 was written; next is `c.local.Set` (line 98). -/
  | l2Written (data : String)
  /-- The closure returned `r`; next the guard clears its record and releases
  the waiters. -/
  | finishing (r : String × Option GoError)
  /-- The guard found a fetch in flight: blocked until it completes. -/
  | waiting
  /-- `GetOrSet` returned `r`. -/
  | done (r : String × Option GoError)
  deriving DecidableEq, Repr

/-- A process in which goroutines call `GetOrSet` on one coordinator: the
shared world and the position of every goroutine, by goroutine number. -/
structure Process (σ₁ σ₂ : Type) where
  world : World σ₁ σ₂
  pcs : Nat → CallPc

/-- What `GetOrSet` returns for the result `(v, err)` of `group.Do` (hybrid.go,
lines 103-106). -/
def HybridCache.afterDo : String × Option GoError → String × Option GoError
  | (_, some err) => ("", some err)
  | (v, none) => (v, none)

/-- One atomic step of goroutine `i` in its call `GetOrSet(key, expiration,
fetch)`.  The steps are the calls of the source, one at a time; the guard
is the one of `Group.Do`: entering it is atomic (the goroutine becomes the
fetch in flight, or waits for the one in flight), and so is leaving it (the
record is cleared and every goroutine waiting on this fetch gets its
result).  A goroutine that waits or has returned does nothing. -/
def HybridCache.stepCall (c : HybridCache σ₁ σ₂) (key : String) (expiration : Duration)
    (fetch : Unit → String × Option GoError) (i : Nat) (s : Process σ₁ σ₂) :
    Option (Process σ₁ σ₂) :=
  match s.pcs i with
  | .start =>
    match c.localGet key s.world with
    | none => none
    | some ((val, none), w) => some ⟨w, Function.update s.pcs i (.done (val, none))⟩
    | some ((_, some _), w) => some ⟨w, Function.update s.pcs i .l1Missed⟩
  | .l1Missed =>
    match c.remoteGet key s.world with
    | none => none
    | some ((val, none), w) => some ⟨w, Function.update s.pcs i (.l2Hit val)⟩
    | some ((_, some _), w) => some ⟨w, Function.update s.pcs i .l2Missed⟩
  | .l2Hit val =>
    match c.localSet key (.str val) expiration s.world with
    | none => none
    | some (_, w) => some ⟨w, Function.update s.pcs i (.done (val, none))⟩
  | .l2Missed =>
    if key ∈ s.world.group then some ⟨s.world, Function.update s.pcs i .waiting⟩
    else some ⟨{ s.world with group := key :: s.world.group },
               Function.update s.pcs i .leading⟩
  | .leading =>
    match fetch () with
    | (_, some err) =>
      some ⟨s.world.log .fetch, Function.update s.pcs i (.finishing ("", some err))⟩
    | (data, none) => some ⟨s.world.log .fetch, Function.update s.pcs i (.fetched data)⟩
  | .fetched data =>
    match c.remoteSet key (.str data) expiration s.world with
    | none => none
    | some (_, w) => some ⟨w, Function.update s.pcs i (.l2Written data)⟩
  | .l2Written data =>
    match c.localSet key (.str data) expiration s.world with
    | none => none
    | some (_, w) => some ⟨w, Function.update s.pcs i (.finishing (data, none))⟩
  | .finishing r =>
    some ⟨{ s.world with group := s.world.group.erase key },
          fun j =>
            if j = i then .done (HybridCache.afterDo r)
            else match s.pcs j with
              | .waiting => .done (HybridCache.afterDo r)
              | p => p⟩
  | .waiting => some s
  | .done _ => some s

/-- Run a schedule: the goroutines take one step each in the order listed. -/
def HybridCache.runCalls (c : HybridCache σ₁ σ₂) (key : String) (expiration : Duration)
    (fetch : Unit → String × Option GoError) :
    List Nat → Process σ₁ σ₂ → Option (Process σ₁ σ₂)
  | [], s => some s
  | i :: is, s =>
    match c.stepCall key expiration fetch i s with
    | none => none
    | some s' => c.runCalls key expiration fetch is s'

/-- Every goroutine has issued its call and none has taken a step. -/
def Process.issued (w : World σ₁ σ₂) : Process σ₁ σ₂ := ⟨w, fun _ => .start⟩

/-- Number of invocations of the fetch function recorded in a trace. -/
def fetchCount (trace : List Event) : Nat := trace.count Event.fetch

/-- Schedule in which goroutines 0 to n-1, one after the other, read L1 and
then L2. -/
def readsSchedule : Nat → List Nat
  | 0 => []
  | n + 1 => readsSchedule n ++ [n, n]

/-- Schedule in which goroutines 0 to n-1, one after the other, enter the
guard. -/
def enterSchedule : Nat → List Nat
  | 0 => []
  | n + 1 => enterSchedule n ++ [n]

/-- Schedule that brings n calls into the guard together: all read both
tiers, then all enter the guard, goroutine 0 first. -/
def guardSchedule (n : Nat) : List Nat :=
  readsSchedule n ++ enterSchedule n

/-- Schedule of two calls that do not coalesce: goroutine 1 reads both tiers,
goroutine 0 runs its whole call, then goroutine 1 enters the guard and runs
the rest of its call. -/
def lateEntrySchedule : List Nat := [1, 1, 0, 0, 0, 0, 0, 0, 0, 1, 1, 1, 1, 1]

/-- The goroutine has not reached the guard yet. -/
def CallPc.beforeGuard : CallPc → Bool
  | .start => true
  | .l1Missed => true
  | .l2Missed => true
  | _ => false

/-- The goroutine is inside the guard: it is the fetch in flight, or waits
for it. -/
def CallPc.inGuard : CallPc → Bool
  | .leading => true
  | .fetched _ => true
  | .l2Written _ => true
  | .finishing _ => true
  | .waiting => true
  | _ => false

/-- The goroutine got a value from a tier, or has returned. -/
def CallPc.served : CallPc → Bool
  | .l2Hit _ => true
  | .done _ => true
  | _ => false

/-- What is known of the goroutine whose fetch is in flight, given the number
of fetch invocations so far: before its fetch none was added to `base`;
afterwards exactly one was, and the data it carries is what fetch returned. -/
def LeaderOk (fetch : Unit → String × Option GoError) (base : Nat) : CallPc → Nat → Prop
  | .leading, n => n = base
  | .fetched d, n => fetch () = (d, none) ∧ n = base + 1
  | .l2Written d, n => fetch () = (d, none) ∧ n = base + 1
  | .finishing r, n => HybridCache.afterDo r = HybridCache.afterDo (fetch ()) ∧ n = base + 1
  | _, _ => False

/-- Invariant of every interleaving of the first `N` goroutines, started
with `base` fetch invocations in the trace and no fetch for `K` in flight:
either some goroutine was served by a tier or has returned; or no goroutine
has entered the guard and no fetch was invoked; or exactly one goroutine is
the fetch in flight, known as `LeaderOk` says, and every other one is before
the guard or waits. -/
def Coalescing (K : String) (fetch : Unit → String × Option GoError) (N base : Nat)
    (s : Process σ₁ σ₂) : Prop :=
  (∃ j, j < N ∧ (s.pcs j).served = true) ∨
  (K ∉ s.world.group ∧ fetchCount s.world.trace = base ∧
    ∀ j, j < N → (s.pcs j).beforeGuard = true) ∨
  (∃ l, l < N ∧ K ∈ s.world.group ∧ LeaderOk fetch base (s.pcs l) (fetchCount s.world.trace) ∧
    ∀ j, j < N → j ≠ l → (s.pcs j).beforeGuard = true ∨ s.pcs j = .waiting)

/-! ## RedisCache.GetOrSet (cache.go) -/

/-- The closure handed to `group.Do` in `RedisCache.GetOrSet` (cache.go, lines
110-122): fetch, and on success write the store, dropping the error. -/
def RedisCache.fill (c : Cache σ₂) (key : String) (expiration : Duration)
    (fetch : Unit → String × Option GoError) (w : World σ₁ σ₂) :
    Option ((String × Option GoError) × World σ₁ σ₂) :=
  -- Fetch Data
  match fetch (), w.log .fetch with
  | (_, some err), w => some (("", some err), w)
  | (data, none), w =>
    -- Set Cache
    match w.onRemote (c.Set key (.str data) expiration) (.set key (.str data) expiration) with
    | none => none
    | some (_, w) => some ((data, none), w)

/-- Method `RedisCache.GetOrSet` (cache.go, lines 99-128).  The receiver is
given by its own methods `Get` and `Set` (any behaviour of the client behind
them); it is the remote tier of the world, and the group of the world is its
own singleflight group. -/
def RedisCache.GetOrSet (c : Cache σ₂) (key : String) (expiration : Duration)
    (fetch : Unit → String × Option GoError) (w : World σ₁ σ₂) :
    Option ((String × Option GoError) × World σ₁ σ₂) :=
  -- 1. Try Cache
  match w.onRemote (c.Get key) (.get key) with
  | none => none
  | some ((val, none), w) => some ((val, none), w)
  | some ((_, some err), w) =>
    if err ≠ GoError.redisNil then some (("", some err), w)
    else
      -- 2. Cache Miss: Use SingleFlight
      match Group.Do key (RedisCache.fill c key expiration fetch) w with
      | none => none
      | some ((_, some err), w) => some (("", some err), w)
      | some ((v, none), w) => some ((v, none), w)

/-! ## RedisValidator (auth/validator.go) -/

/-- Method `RedisValidator.Validate` (validator.go, lines 28-50) over the cache
it holds.  The key is `fmt.Sprintf("verify:%s:%s", purpose, target)`; the
cache is read first, the mock code "123456" is accepted next, then the
stored code is compared and deleted when it matches. -/
def RedisValidator.Validate {σ : Type} (cache : Cache σ) (target code purpose : String)
    (s : σ) : Option (Bool × σ) :=
  let key := "verify:" ++ purpose ++ ":" ++ target
  match cache.Get key s with
  | none => none
  | some ((storedCode, err), s) =>
    -- For MVP/Dev, support specialized mock code "123456" ALWAYS
    if code = "123456" then some (true, s)
    else if err ≠ none ∨ storedCode = "" then some (false, s)
    else if storedCode = code then
      -- Invalidate code after use
      match cache.Del key s with
      | none => none
      | some (_, s) => some (true, s)
    else some (false, s)

/-! ## idutil: the Feistel cipher (idutil/feistel.go) -/

/-- Go `[]byte`: a list of bytes. -/
abbrev Bytes := List Nat

/-- Go variable `DefaultKey`: the bytes of "arrow2012-secret-key-salt". -/
def DefaultKey : Bytes := "arrow2012-secret-key-salt".data.map Char.toNat

/-- Struct `FeistelCipher`. -/
structure FeistelCipher where
  rounds : Nat
  key : Bytes

/-- Function `NewFeistelCipher`: three rounds; an empty key is replaced by
`DefaultKey`. -/
def NewFeistelCipher (key : Bytes) : FeistelCipher :=
  { rounds := 3, key := if key.length = 0 then DefaultKey else key }

/-- Go `binary.BigEndian.PutUint32`: the four bytes of a uint32, most
significant first. -/
def BigEndian.PutUint32 (v : Nat) : Bytes :=
  [(v >>> 24) % 256, (v >>> 16) % 256, (v >>> 8) % 256, v % 256]

/-- Go `binary.BigEndian.Uint32`: the uint32 read from the first four bytes. -/
def BigEndian.Uint32 (b : Bytes) : Nat :=
  ((b.getD 0 0 % 256) <<< 24) ||| ((b.getD 1 0 % 256) <<< 16) |||
    ((b.getD 2 0 % 256) <<< 8) ||| (b.getD 3 0 % 256)

/-- Method `FeistelCipher.roundFunc` (feistel.go, lines 30-42): the first four
bytes of the SHA-256 hash of the key followed by the input and the round
number.  `sha256` is the hash function of the Go package crypto/sha256, a
parameter here. -/
def FeistelCipher.roundFunc (sha256 : Bytes → Bytes) (fc : FeistelCipher)
    (input : Nat) (round : Nat) : Nat :=
  let data := BigEndian.PutUint32 input ++ BigEndian.PutUint32 (round % 4294967296)
  -- Mix with key
  let hash := sha256 (fc.key ++ data)
  BigEndian.Uint32 (hash.take 4)

/-- Body of the loop of `Encrypt` on the two uint16 halves:
`Li+1 = Ri`, `Ri+1 = Li ^ F(Ri, Ki)`, with `uint16(...)` of the round value. -/
def FeistelCipher.encRound (sha256 : Bytes → Bytes) (fc : FeistelCipher)
    (lr : Nat × Nat) (i : Nat) : Nat × Nat :=
  (lr.2, lr.1 ^^^ (fc.roundFunc sha256 lr.2 i % 65536))

/-- Body of the loop of `Decrypt`: `Ri = Li+1`, `Li = Ri+1 ^ F(Li+1, Ki)`. -/
def FeistelCipher.decRound (sha256 : Bytes → Bytes) (fc : FeistelCipher)
    (lr : Nat × Nat) (i : Nat) : Nat × Nat :=
  (lr.2 ^^^ (fc.roundFunc sha256 lr.1 i % 65536), lr.1)

/-- Method `FeistelCipher.Encrypt` (feistel.go, lines 45-61) on a uint32. -/
def FeistelCipher.Encrypt (sha256 : Bytes → Bytes) (fc : FeistelCipher) (id : Nat) : Nat :=
  let left := (id >>> 16) % 65536
  let right := (id &&& 0xFFFF) % 65536
  let lr := (List.range fc.rounds).foldl (fc.encRound sha256) (left, right)
  (lr.1 <<< 16) ||| lr.2

/-- Method `FeistelCipher.Decrypt` (feistel.go, lines 64-80) on a uint32: the
rounds run from `rounds - 1` down to 0. -/
def FeistelCipher.Decrypt (sha256 : Bytes → Bytes) (fc : FeistelCipher) (id : Nat) : Nat :=
  let left := (id >>> 16) % 65536
  let right := (id &&& 0xFFFF) % 65536
  let lr := (List.range fc.rounds).reverse.foldl (fc.decRound sha256) (left, right)
  (lr.1 <<< 16) ||| lr.2

/-! ## idutil: ID ranges (idutil/id.go) -/

/-- Go variable `cipher`: `NewFeistelCipher(DefaultKey)`. -/
def cipher : FeistelCipher := NewFeistelCipher DefaultKey

/-- Go variable `MinUserID`. -/
def MinUserID : Int := 10000000

/-- Go variable `MaxUserID`. -/
def MaxUserID : Int := 99999999

/-- Go conversion `uint32(v)` of an `int`. -/
def uint32 (v : Int) : Nat := (v % 4294967296).toNat

/-- The cycle-walking loop of `EncryptRange` and `DecryptRange` (id.go, lines
38-44 and 50-56): apply the cipher, return the result when `int(current)` is
within `[min, max]`, otherwise go round again.  The `for` of the source has
no bound; `fuel` is the number of rounds the model may take, and the
result is `none` when it is used up. -/
def cycleWalk (step : Nat → Nat) (min max : Int) : Nat → Nat → Option Int
  | 0, _ => none
  | fuel + 1, current =>
    let current := step current
    if (current : Int) ≥ min ∧ (current : Int) ≤ max then some (current : Int)
    else cycleWalk step min max fuel current

/-- Function `EncryptRange` (id.go, lines 36-45).  Go's `int` is taken to be
64 bits wide, so that `int(current)` of a uint32 is never negative. -/
def EncryptRange (sha256 : Bytes → Bytes) (fuel : Nat) (val min max : Int) : Option Int :=
  cycleWalk (cipher.Encrypt sha256) min max fuel (uint32 val)

/-- Function `DecryptRange` (id.go, lines 48-57). -/
def DecryptRange (sha256 : Bytes → Bytes) (fuel : Nat) (val min max : Int) : Option Int :=
  cycleWalk (cipher.Decrypt sha256) min max fuel (uint32 val)

/-- Function `EncodeUserID` (id.go, lines 60-70); the warning printed on the
fallback path is dropped. -/
def EncodeUserID (sha256 : Bytes → Bytes) (fuel : Nat) (id : Int) : Option Int :=
  -- Offset input to be inside range
  let input := id + MinUserID
  if input > MaxUserID then some id
  else EncryptRange sha256 fuel input MinUserID MaxUserID

/-- Function `DecodeUserID` (id.go, lines 73-79). -/
def DecodeUserID (sha256 : Bytes → Bytes) (fuel : Nat) (publicID : Int) : Option Int :=
  if publicID < MinUserID ∨ publicID > MaxUserID then some 0
  else (DecryptRange sha256 fuel publicID MinUserID MaxUserID).map (fun d => d - MinUserID)

/-- A stand-in for the hash function, used to evaluate the definitions: four
bytes computed from the sum and the length of the input. -/
def sumHash (b : Bytes) : Bytes :=
  [(b.sum * 31) % 256, (b.sum / 7) % 256, (b.sum * b.length) % 256, b.sum % 256]

/-! ## Lemmas on the key-value tables -/

theorem lookup_filter_ne {β : Type} (key : String) (c : List (String × β)) :
    List.lookup key (c.filter (fun p => p.1 != key)) = none := by
  induction c with
  | nil => rfl
  | cons p c ih =>
    obtain ⟨k, v⟩ := p
    rw [List.filter_cons]
    by_cases h : k = key
    · have hb : (k != key) = false := by simp [h]
      simp only [hb, Bool.false_eq_true, if_false]
      exact ih
    · have hb : (k != key) = true := by simpa using h
      have hk : (key == k) = false := by
        simp only [beq_eq_false_iff_ne, ne_eq]
        exact fun e => h e.symm
      simp only [hb, if_true, List.lookup_cons, hk]
      exact ih

theorem lookup_filter_of_ne {β : Type} (key k : String) (hk : k ≠ key)
    (c : List (String × β)) :
    List.lookup k (c.filter (fun p => p.1 != key)) = List.lookup k c := by
  induction c with
  | nil => rfl
  | cons p c ih =>
    obtain ⟨a, v⟩ := p
    rw [List.filter_cons]
    by_cases h : a = key
    · have hb : (a != key) = false := by simp [h]
      have hka : (k == a) = false := by
        simp only [beq_eq_false_iff_ne, ne_eq]
        exact fun e => hk (e.trans h)
      simp only [hb, Bool.false_eq_true, if_false, List.lookup_cons, hka]
      exact ih
    · have hb : (a != key) = true := by simpa using h
      simp only [hb, if_true, List.lookup_cons, ih]

/-! ## Lemmas on the in-process cache -/

/-- A write of a key that is not in the table leaves the table as it was: the
key is still not readable. -/
theorem Ristretto.get_setWithTTL_of_new (c : Ristretto) (key : String) (value : GoValue)
    (ttl : Duration) (hk : c.Get key = none) :
    (c.SetWithTTL key value ttl).2.storedItems = c.storedItems ∧
    (c.SetWithTTL key value ttl).2.Get key = none := by
  have hs : (List.lookup key c.storedItems).isSome = false := by
    cases hl : List.lookup key c.storedItems with
    | none => rfl
    | some e => simp [Ristretto.Get, hl] at hk
  unfold Ristretto.SetWithTTL
  by_cases h0 : ttl < 0
  · simp [h0, hk]
  · by_cases hr : c.setBuf.length < setBufSize
    · simp [h0, hs, hr, Ristretto.Get] at hk ⊢
      exact hk
    · simp [h0, hs, hr, Ristretto.Get] at hk ⊢
      exact hk

theorem Ristretto.get_del (c : Ristretto) (key : String) : (c.Del key).Get key = none := by
  simp only [Ristretto.Del, Ristretto.Get, storeDel, lookup_filter_ne, Option.map_none']

theorem Ristretto.get_del_of_ne (c : Ristretto) (key k : String) (hk : k ≠ key) :
    (c.Del key).Get k = c.Get k := by
  simp only [Ristretto.Del, Ristretto.Get, storeDel, lookup_filter_of_ne key k hk]

/-- L1 hit: the value of L1, one L1 read, nothing else. -/
theorem HybridCache.get_of_l1_hit (c : HybridCache σ₁ σ₂) (K : String) (w : World σ₁ σ₂)
    {v₁ : String} {s₁ : σ₁} (h₁ : c.local_.Get K w.l1 = some ((v₁, none), s₁)) :
    c.Get K w = some ((v₁, none),
      { w with l1 := s₁, trace := w.trace ++ [.call .L1 (.get K)] }) := by
  simp [HybridCache.Get, HybridCache.localGet, h₁, World.log]

/-- L1 miss, L2 hit: the value of L2, written to L1 for five minutes. -/
theorem HybridCache.get_of_l2_hit (c : HybridCache σ₁ σ₂) (K : String) (w : World σ₁ σ₂)
    {v₁ v₂ : String} {e₁ : GoError} {s₁ t₁ : σ₁} {s₂ : σ₂} {r : Option GoError}
    (h₁ : c.local_.Get K w.l1 = some ((v₁, some e₁), s₁))
    (h₂ : c.remote.Get K w.l2 = some ((v₂, none), s₂))
    (h₃ : c.local_.Set K (.str v₂) (5 * time.Minute) s₁ = some (r, t₁)) :
    c.Get K w = some ((v₂, none),
      { w with l1 := t₁, l2 := s₂,
               trace := w.trace ++ [.call .L1 (.get K), .call .L2 (.get K),
                 .call .L1 (.set K (.str v₂) (5 * time.Minute))] }) := by
  simp [HybridCache.Get, HybridCache.localGet, HybridCache.remoteGet, HybridCache.localSet,
    h₁, h₂, h₃, World.log]

/-- Double miss: the empty string and the error of L2. -/
theorem HybridCache.get_of_miss (c : HybridCache σ₁ σ₂) (K : String) (w : World σ₁ σ₂)
    {v₁ v₂ : String} {e₁ e₂ : GoError} {s₁ : σ₁} {s₂ : σ₂}
    (h₁ : c.local_.Get K w.l1 = some ((v₁, some e₁), s₁))
    (h₂ : c.remote.Get K w.l2 = some ((v₂, some e₂), s₂)) :
    c.Get K w = some (("", some e₂),
      { w with l1 := s₁, l2 := s₂,
               trace := w.trace ++ [.call .L1 (.get K), .call .L2 (.get K)] }) := by
  simp [HybridCache.Get, HybridCache.localGet, HybridCache.remoteGet, h₁, h₂, World.log]

/-! ## Set then Get, Del then Get -/

/-- Set on the two key-value tiers returns nil; it leaves L1 as the library
call left it and K bound to the text of the value in L2. -/
theorem kvHybrid_set (K : String) (V : GoValue) (ttl : Duration) (w w' : World Ristretto Redis)
    (hset : kvHybrid.Set K V ttl w = some (none, w')) :
    w'.l1 = (w.l1.SetWithTTL K V ttl).2 ∧ List.lookup K w'.l2 = some (V.wire, ttl) ∧
    w'.trace = w.trace ++ [.call .L1 (.set K V ttl), .call .L2 (.set K V ttl)] := by
  simp only [HybridCache.Set, HybridCache.localSet, HybridCache.remoteSet, kvHybrid,
    RistrettoCache, RistrettoCache.Set, RedisCache, RedisCache.Set, World.log,
    Option.some.injEq, Prod.mk.injEq, true_and] at hset
  subst hset
  simp [List.lookup_cons]

/-- C3. HybridCache.Get(K), given what L1's Get returns.  On an L1 hit it
returns L1's value with a nil error, L2 is left as it was and the only
call issued is the L1 read.  On an L1 miss it returns what L2's Get returns:
on an L2 hit the value with a nil error (the L1 write it issues returning),
on a double miss the empty string with L2's error unmodified. -/
theorem hybrid_get_result (c : HybridCache σ₁ σ₂) (K : String) (w : World σ₁ σ₂)
    (v₁ : String) (e₁ : Option GoError) (s₁ : σ₁)
    (h₁ : c.local_.Get K w.l1 = some ((v₁, e₁), s₁)) :
    (e₁ = none → ∃ w', c.Get K w = some ((v₁, none), w') ∧ w'.l2 = w.l2 ∧
        w'.trace = w.trace ++ [.call .L1 (.get K)]) ∧
    (e₁ ≠ none → ∀ (v₂ : String) (e₂ : Option GoError) (s₂ : σ₂),
      c.remote.Get K w.l2 = some ((v₂, e₂), s₂) →
        (e₂ = none →
          (∃ r t₁, c.local_.Set K (.str v₂) (5 * time.Minute) s₁ = some (r, t₁)) →
          ∃ w', c.Get K w = some ((v₂, none), w')) ∧
        (e₂ ≠ none → ∃ w', c.Get K w = some (("", e₂), w'))) := by
  refine ⟨?_, ?_⟩
  · rintro rfl
    exact ⟨_, c.get_of_l1_hit K w h₁, rfl, rfl⟩
  · intro he₁ v₂ e₂ s₂ h₂
    obtain ⟨x₁, rfl⟩ := Option.ne_none_iff_exists'.mp he₁
    refine ⟨?_, ?_⟩
    · rintro rfl ⟨r, t₁, h₃⟩
      exact ⟨_, c.get_of_l2_hit K w h₁ h₂ h₃⟩
    · intro he₂
      obtain ⟨x₂, rfl⟩ := Option.ne_none_iff_exists'.mp he₂
      exact ⟨_, c.get_of_miss K w h₁ h₂⟩

/-- Witness of C3 on the key-value tiers: an L1 hit, an L2 hit after an L1
miss, and a double miss. -/
theorem hybrid_get_result_witness :
    (∃ w', kvHybrid.Get "user:42" user42World = some (("a", none), w') ∧
        w'.l2 = user42World.l2 ∧
        w'.trace = user42World.trace ++ [.call .L1 (.get "user:42")]) ∧
    (∃ w', kvHybrid.Get "user:42" l2OnlyWorld = some (("a", none), w')) ∧
    (∃ w', kvHybrid.Get "user:42" emptyWorld = some (("", some GoError.redisNil), w')) :=
  ⟨(hybrid_get_result kvHybrid "user:42" user42World
      "a" none user42World.l1 rfl).1 rfl,
   ((hybrid_get_result kvHybrid "user:42" l2OnlyWorld
      "" (some (GoError.errorsNew "redis: nil")) l2OnlyWorld.l1 rfl).2
      (by simp) "a" none l2OnlyWorld.l2 rfl).1 rfl ⟨_, _, rfl⟩,
   ((hybrid_get_result kvHybrid "user:42" emptyWorld
      "" (some (GoError.errorsNew "redis: nil")) emptyWorld.l1 rfl).2
      (by simp) "" (some GoError.redisNil) [] rfl).2 (by simp)⟩

/-- C4. What HybridCache.Get(K) issues to the tiers, given what L1's Get
returns.  On an L1 hit: the L1 read alone, so no write and no TTL refresh.
On an L1 miss with an L2 hit: the two reads, then exactly one write, to L1,
of the value read from L2 under K with 5 minutes (300000000000 ns), whatever
TTL the entry has in L2.  On a double miss: the two reads alone.  In no case
is a Set or a Del issued to L2. -/
theorem hybrid_get_writes (c : HybridCache σ₁ σ₂) (K : String) (w : World σ₁ σ₂)
    (v₁ : String) (e₁ : Option GoError) (s₁ : σ₁)
    (h₁ : c.local_.Get K w.l1 = some ((v₁, e₁), s₁)) :
    (e₁ = none → ∃ r w', c.Get K w = some (r, w') ∧
        w'.trace = w.trace ++ [.call .L1 (.get K)] ∧ w'.l1 = s₁ ∧ w'.l2 = w.l2) ∧
    (e₁ ≠ none → ∀ (v₂ : String) (e₂ : Option GoError) (s₂ : σ₂),
      c.remote.Get K w.l2 = some ((v₂, e₂), s₂) →
        (e₂ = none → ∀ (x : Option GoError) (t₁ : σ₁),
          c.local_.Set K (.str v₂) (5 * time.Minute) s₁ = some (x, t₁) →
          ∃ r w', c.Get K w = some (r, w') ∧
            w'.trace = w.trace ++ [.call .L1 (.get K), .call .L2 (.get K),
              .call .L1 (.set K (.str v₂) 300000000000)] ∧
            w'.l1 = t₁ ∧ w'.l2 = s₂) ∧
        (e₂ ≠ none → ∃ r w', c.Get K w = some (r, w') ∧
            w'.trace = w.trace ++ [.call .L1 (.get K), .call .L2 (.get K)] ∧
            w'.l1 = s₁ ∧ w'.l2 = s₂)) := by
  refine ⟨?_, ?_⟩
  · rintro rfl
    exact ⟨_, _, c.get_of_l1_hit K w h₁, rfl, rfl, rfl⟩
  · intro he₁ v₂ e₂ s₂ h₂
    obtain ⟨x₁, rfl⟩ := Option.ne_none_iff_exists'.mp he₁
    refine ⟨?_, ?_⟩
    · rintro rfl x t₁ h₃
      exact ⟨_, _, c.get_of_l2_hit K w h₁ h₂ h₃, rfl, rfl, rfl⟩
    · intro he₂
      obtain ⟨x₂, rfl⟩ := Option.ne_none_iff_exists'.mp he₂
      exact ⟨_, _, c.get_of_miss K w h₁ h₂, rfl, rfl, rfl⟩

/-- Witness of C4 on the key-value tiers: user:42 is held by L2 alone with
5 seconds; Get writes it to L1 with 5 minutes (the write is handed to the
library, where it waits in the buffer). -/
theorem hybrid_get_writes_witness :
    ∃ r w', kvHybrid.Get "user:42" l2OnlyWorld = some (r, w') ∧
      w'.trace = l2OnlyWorld.trace ++ [.call .L1 (.get "user:42"), .call .L2 (.get "user:42"),
        .call .L1 (.set "user:42" (.str "a") 300000000000)] ∧
      w'.l1 = { storedItems := []
                setBuf := [.itemNew "user:42" { value := .str "a", ttl := 300000000000 }] } ∧
      w'.l2 = [("user:42", "a", 5 * time.Second)] :=
  ((hybrid_get_writes kvHybrid "user:42" l2OnlyWorld
      "" (some (GoError.errorsNew "redis: nil")) l2OnlyWorld.l1 rfl).2
      (by simp) "a" none l2OnlyWorld.l2 rfl).1 rfl none _ rfl

/-! ## HybridCache.Set and HybridCache.Del -/

/-- Set: the L1 write, then the L2 write, whose result is returned. -/
theorem HybridCache.set_eq (c : HybridCache σ₁ σ₂) (K : String) (V : GoValue) (ttl : Duration)
    (w : World σ₁ σ₂) {x e : Option GoError} {t₁ : σ₁} {t₂ : σ₂}
    (h₁ : c.local_.Set K V ttl w.l1 = some (x, t₁))
    (h₂ : c.remote.Set K V ttl w.l2 = some (e, t₂)) :
    c.Set K V ttl w = some (e,
      { w with l1 := t₁, l2 := t₂,
               trace := w.trace ++ [.call .L1 (.set K V ttl), .call .L2 (.set K V ttl)] }) := by
  simp [HybridCache.Set, HybridCache.localSet, HybridCache.remoteSet, h₁, h₂, World.log]

/-- Del: the L1 delete, then the L2 delete, whose result is returned. -/
theorem HybridCache.del_eq (c : HybridCache σ₁ σ₂) (K : String)
    (w : World σ₁ σ₂) {x e : Option GoError} {t₁ : σ₁} {t₂ : σ₂}
    (h₁ : c.local_.Del K w.l1 = some (x, t₁))
    (h₂ : c.remote.Del K w.l2 = some (e, t₂)) :
    c.Del K w = some (e,
      { w with l1 := t₁, l2 := t₂,
               trace := w.trace ++ [.call .L1 (.del K), .call .L2 (.del K)] }) := by
  simp [HybridCache.Del, HybridCache.localDel, HybridCache.remoteDel, h₁, h₂, World.log]

/-- C5 as stated fails.  With the key-value L1 empty and L2 unreachable,
Set("user:42", "a", 5s) returns the error of L2, yet the write to L1 was
issued before the write to L2: L1 has taken user:42 into its buffer, and
holds it once the buffer is processed. -/
theorem hybrid_set_l2_first_counterexample :
    ∃ w', l2DownHybrid.Set "user:42" (.str "a") (5 * time.Second) (World.init (.ofTable []) ())
        = some (some (GoError.upstream "connection refused"), w') ∧
      w'.trace = [.call .L1 (.set "user:42" (.str "a") (5 * time.Second)),
                  .call .L2 (.set "user:42" (.str "a") (5 * time.Second))] ∧
      w'.l1 = { storedItems := []
                setBuf := [.itemNew "user:42" { value := .str "a", ttl := 5 * time.Second }] } ∧
      w'.l1 ≠ (World.init (.ofTable []) () : World Ristretto Unit).l1 ∧
      (w'.l1.background [(true, [])]).Get "user:42" = some (.str "a") :=
  ⟨_, rfl, rfl, rfl, by decide, rfl⟩

/-- C5, amended.  HybridCache.Set(K, V, ttl) writes L1 first and L2
afterwards: when the L2 write fails with an error, Set returns that error,
the calls issued are the L1 write of (K, V, ttl) followed by the L2 write of
(K, V, ttl), and L1 is in the state its write left. -/
theorem hybrid_set_order (c : HybridCache σ₁ σ₂) (K : String) (V : GoValue) (ttl : Duration)
    (w : World σ₁ σ₂) (x : Option GoError) (t₁ : σ₁) (e : GoError) (t₂ : σ₂)
    (h₁ : c.local_.Set K V ttl w.l1 = some (x, t₁))
    (h₂ : c.remote.Set K V ttl w.l2 = some (some e, t₂)) :
    ∃ w', c.Set K V ttl w = some (some e, w') ∧
      w'.trace = w.trace ++ [.call .L1 (.set K V ttl), .call .L2 (.set K V ttl)] ∧
      w'.l1 = t₁ ∧ w'.l2 = t₂ :=
  ⟨_, c.set_eq K V ttl w h₁ h₂, rfl, rfl, rfl⟩

/-- Witness of the amended C5: the key-value L1 and an unreachable L2. -/
theorem hybrid_set_order_witness :
    ∃ w', l2DownHybrid.Set "k" (.str "v") 7 (World.init (.ofTable [("k", ⟨.str "old", 9⟩)]) ())
        = some (some (GoError.upstream "connection refused"), w') ∧
      w'.trace = [] ++ [.call .L1 (.set "k" (.str "v") 7), .call .L2 (.set "k" (.str "v") 7)] ∧
      w'.l1 = ⟨[("k", ⟨.str "v", 7⟩)], [.itemUpdate "k" ⟨.str "v", 7⟩]⟩ ∧ w'.l2 = () :=
  hybrid_set_order l2DownHybrid "k" (.str "v") 7 (World.init (.ofTable [("k", ⟨.str "old", 9⟩)]) ())
    none ⟨[("k", ⟨.str "v", 7⟩)], [.itemUpdate "k" ⟨.str "v", 7⟩]⟩
    (.upstream "connection refused") () (by decide) rfl

/-- C6. The result of HybridCache.Set(K, V, ttl) is exactly the result of
the L2 write of (K, V, ttl): whatever the L1 write returned, an error
included, Set returns the error value the L2 write returns, so Set returns
nil if and only if the L2 write returns nil. -/
theorem hybrid_set_result (c : HybridCache σ₁ σ₂) (K : String) (V : GoValue) (ttl : Duration)
    (w : World σ₁ σ₂) (x : Option GoError) (t₁ : σ₁)
    (h₁ : c.local_.Set K V ttl w.l1 = some (x, t₁)) :
    (c.Set K V ttl w).map Prod.fst = (c.remote.Set K V ttl w.l2).map Prod.fst ∧
    ((∃ w', c.Set K V ttl w = some (none, w')) ↔
      (∃ t₂, c.remote.Set K V ttl w.l2 = some (none, t₂))) := by
  cases h₂ : c.remote.Set K V ttl w.l2 with
  | none =>
    simp [HybridCache.Set, HybridCache.localSet, HybridCache.remoteSet, h₁, h₂, World.log]
  | some p =>
    obtain ⟨e, t₂⟩ := p
    have h := c.set_eq K V ttl w h₁ h₂
    refine ⟨by rw [h]; rfl, ?_, ?_⟩
    · rintro ⟨w', hw⟩
      rw [h] at hw
      simp only [Option.some.injEq, Prod.mk.injEq] at hw
      exact ⟨t₂, by rw [hw.1]⟩
    · rintro ⟨t, ht⟩
      simp only [Option.some.injEq, Prod.mk.injEq] at ht
      exact ⟨_, by rw [h, ht.1]⟩

/-- Witness of C6: the L1 write fails with an error, the L2 write returns
nil, and Set returns nil. -/
theorem hybrid_set_result_witness :
    (l1DownHybrid.Set "k" (.str "v") 7 (World.init () [])).map Prod.fst
        = (RedisCache.Set "k" (.str "v") 7 []).map Prod.fst ∧
    ((∃ w', l1DownHybrid.Set "k" (.str "v") 7 (World.init () []) = some (none, w')) ↔
      (∃ t₂, RedisCache.Set "k" (.str "v") 7 [] = some (none, t₂))) :=
  hybrid_set_result l1DownHybrid "k" (.str "v") 7 (World.init () [])
    (some (.errorsNew "cache closed")) () rfl

/-- C7. HybridCache.Del(K) issues the L1 delete of K, then the L2 delete of
K, and returns exactly what the L2 delete returns: whatever the L1 delete
returned is ignored, and L1 is in the state its delete left also when the
L2 delete fails. -/
theorem hybrid_del_order (c : HybridCache σ₁ σ₂) (K : String) (w : World σ₁ σ₂)
    (x : Option GoError) (t₁ : σ₁) (e : Option GoError) (t₂ : σ₂)
    (h₁ : c.local_.Del K w.l1 = some (x, t₁))
    (h₂ : c.remote.Del K w.l2 = some (e, t₂)) :
    ∃ w', c.Del K w = some (e, w') ∧
      w'.trace = w.trace ++ [.call .L1 (.del K), .call .L2 (.del K)] ∧
      w'.l1 = t₁ ∧ w'.l2 = t₂ :=
  ⟨_, c.del_eq K w h₁ h₂, rfl, rfl, rfl⟩

/-- Witness of C7: L1 holds the key, L2 is unreachable; Del returns the error
of L2 and L1 no longer holds the key (its table is empty, the delete item
waits in the buffer). -/
theorem hybrid_del_order_witness :
    ∃ w', l2DownHybrid.Del "k" (World.init (.ofTable [("k", ⟨.str "old", 9⟩)]) ())
        = some (some (GoError.upstream "connection refused"), w') ∧
      w'.trace = [] ++ [.call .L1 (.del "k"), .call .L2 (.del "k")] ∧
      w'.l1 = ⟨[], [.itemDelete "k"]⟩ ∧ w'.l2 = () :=
  hybrid_del_order l2DownHybrid "k" (World.init (.ofTable [("k", ⟨.str "old", 9⟩)]) ())
    none ⟨[], [.itemDelete "k"]⟩ (some (.upstream "connection refused")) () (by decide) rfl

/-! ## HybridCache.GetOrSet -/

/-- L1 hit: the value of L1, one L1 read, nothing else. -/
theorem HybridCache.getOrSet_of_l1_hit (c : HybridCache σ₁ σ₂) (K : String) (ttl : Duration)
    (fetch : Unit → String × Option GoError) (w : World σ₁ σ₂)
    {v₁ : String} {s₁ : σ₁} (h₁ : c.local_.Get K w.l1 = some ((v₁, none), s₁)) :
    c.GetOrSet K ttl fetch w = some ((v₁, none),
      { w with l1 := s₁, trace := w.trace ++ [.call .L1 (.get K)] }) := by
  simp [HybridCache.GetOrSet, HybridCache.localGet, h₁, World.log]

/-- L1 miss, L2 hit: the value of L2, written to L1 with the caller's ttl. -/
theorem HybridCache.getOrSet_of_l2_hit (c : HybridCache σ₁ σ₂) (K : String) (ttl : Duration)
    (fetch : Unit → String × Option GoError) (w : World σ₁ σ₂)
    {v₁ v₂ : String} {e₁ : GoError} {s₁ t₁ : σ₁} {s₂ : σ₂} {x : Option GoError}
    (h₁ : c.local_.Get K w.l1 = some ((v₁, some e₁), s₁))
    (h₂ : c.remote.Get K w.l2 = some ((v₂, none), s₂))
    (h₃ : c.local_.Set K (.str v₂) ttl s₁ = some (x, t₁)) :
    c.GetOrSet K ttl fetch w = some ((v₂, none),
      { w with l1 := t₁, l2 := s₂,
               trace := w.trace ++ [.call .L1 (.get K), .call .L2 (.get K),
                 .call .L1 (.set K (.str v₂) ttl)] }) := by
  simp [HybridCache.GetOrSet, HybridCache.localGet, HybridCache.remoteGet,
    HybridCache.localSet, h₁, h₂, h₃, World.log]

/-- Double miss, fetch succeeds: the fetched data, written to L2 then L1. -/
theorem HybridCache.getOrSet_of_fetch_ok (c : HybridCache σ₁ σ₂) (K : String) (ttl : Duration)
    (fetch : Unit → String × Option GoError) (w : World σ₁ σ₂)
    {v₁ v₂ data : String} {e₁ e₂ : GoError} {s₁ t₁ : σ₁} {s₂ t₂ : σ₂} {x₁ x₂ : Option GoError}
    (hk : K ∉ w.group)
    (h₁ : c.local_.Get K w.l1 = some ((v₁, some e₁), s₁))
    (h₂ : c.remote.Get K w.l2 = some ((v₂, some e₂), s₂))
    (hf : fetch () = (data, none))
    (h₃ : c.remote.Set K (.str data) ttl s₂ = some (x₂, t₂))
    (h₄ : c.local_.Set K (.str data) ttl s₁ = some (x₁, t₁)) :
    c.GetOrSet K ttl fetch w = some ((data, none),
      { w with l1 := t₁, l2 := t₂,
               trace := w.trace ++ [.call .L1 (.get K), .call .L2 (.get K), .fetch,
                 .call .L2 (.set K (.str data) ttl), .call .L1 (.set K (.str data) ttl)] }) := by
  simp [HybridCache.GetOrSet, HybridCache.localGet, HybridCache.remoteGet, Group.Do,
    HybridCache.fill, HybridCache.localSet, HybridCache.remoteSet, h₁, h₂, h₃, h₄, hf, hk,
    World.log]

/-- Double miss, fetch fails: the empty string and the error of fetch, no
write. -/
theorem HybridCache.getOrSet_of_fetch_err (c : HybridCache σ₁ σ₂) (K : String) (ttl : Duration)
    (fetch : Unit → String × Option GoError) (w : World σ₁ σ₂)
    {v₁ v₂ data : String} {e₁ e₂ e : GoError} {s₁ : σ₁} {s₂ : σ₂}
    (hk : K ∉ w.group)
    (h₁ : c.local_.Get K w.l1 = some ((v₁, some e₁), s₁))
    (h₂ : c.remote.Get K w.l2 = some ((v₂, some e₂), s₂))
    (hf : fetch () = (data, some e)) :
    c.GetOrSet K ttl fetch w = some (("", some e),
      { w with l1 := s₁, l2 := s₂,
               trace := w.trace ++ [.call .L1 (.get K), .call .L2 (.get K), .fetch] }) := by
  simp [HybridCache.GetOrSet, HybridCache.localGet, HybridCache.remoteGet, Group.Do,
    HybridCache.fill, h₁, h₂, hf, hk, World.log]

/-- C8. HybridCache.GetOrSet(K, ttl, fetch) when a tier holds K, given what
L1's Get returns.  On an L1 hit it returns L1's value and issues the L1 read
alone: no fetch, no write, L2 untouched.  On an L1 miss with an L2 hit it
returns L2's value and issues the two reads and one write, of that value
under K to L1 with the caller's ttl: no fetch, no write to L2. -/
theorem hybrid_getOrSet_hit (c : HybridCache σ₁ σ₂) (K : String) (ttl : Duration)
    (fetch : Unit → String × Option GoError) (w : World σ₁ σ₂)
    (v₁ : String) (e₁ : Option GoError) (s₁ : σ₁)
    (h₁ : c.local_.Get K w.l1 = some ((v₁, e₁), s₁)) :
    (e₁ = none → ∃ w', c.GetOrSet K ttl fetch w = some ((v₁, none), w') ∧
        w'.trace = w.trace ++ [.call .L1 (.get K)] ∧ w'.l1 = s₁ ∧ w'.l2 = w.l2) ∧
    (e₁ ≠ none → ∀ (v₂ : String) (s₂ : σ₂) (x : Option GoError) (t₁ : σ₁),
      c.remote.Get K w.l2 = some ((v₂, none), s₂) →
      c.local_.Set K (.str v₂) ttl s₁ = some (x, t₁) →
      ∃ w', c.GetOrSet K ttl fetch w = some ((v₂, none), w') ∧
        w'.trace = w.trace ++ [.call .L1 (.get K), .call .L2 (.get K),
          .call .L1 (.set K (.str v₂) ttl)] ∧
        w'.l1 = t₁ ∧ w'.l2 = s₂) := by
  refine ⟨?_, ?_⟩
  · rintro rfl
    exact ⟨_, c.getOrSet_of_l1_hit K ttl fetch w h₁, rfl, rfl, rfl⟩
  · intro he₁ v₂ s₂ x t₁ h₂ h₃
    obtain ⟨x₁, rfl⟩ := Option.ne_none_iff_exists'.mp he₁
    exact ⟨_, c.getOrSet_of_l2_hit K ttl fetch w h₁ h₂ h₃, rfl, rfl, rfl⟩

/-- Witness of C8 on the key-value tiers: an L1 hit, and an L2 hit after an
L1 miss, with a fetch function that would return another value. -/
theorem hybrid_getOrSet_hit_witness :
    (∃ w', kvHybrid.GetOrSet "user:42" time.Minute fetchR1 user42World
        = some (("a", none), w') ∧
      w'.trace = user42World.trace ++ [.call .L1 (.get "user:42")] ∧
      w'.l1 = user42World.l1 ∧ w'.l2 = user42World.l2) ∧
    (∃ w', kvHybrid.GetOrSet "user:42" time.Minute fetchR1 l2OnlyWorld
        = some (("a", none), w') ∧
      w'.trace = l2OnlyWorld.trace ++ [.call .L1 (.get "user:42"), .call .L2 (.get "user:42"),
        .call .L1 (.set "user:42" (.str "a") time.Minute)] ∧
      w'.l1 = ⟨[], [.itemNew "user:42" ⟨.str "a", time.Minute⟩]⟩ ∧ w'.l2 = l2OnlyWorld.l2) :=
  ⟨(hybrid_getOrSet_hit kvHybrid "user:42" time.Minute fetchR1 user42World
      "a" none user42World.l1 rfl).1 rfl,
   (hybrid_getOrSet_hit kvHybrid "user:42" time.Minute fetchR1 l2OnlyWorld
      "" (some (.errorsNew "redis: nil")) l2OnlyWorld.l1 rfl).2 (by simp)
      "a" l2OnlyWorld.l2 none ⟨[], [.itemNew "user:42" ⟨.str "a", time.Minute⟩]⟩ rfl
      (by decide)⟩

/-- C9. When neither tier returns a value for K, no fetch for K is in flight
and fetch returns (data, nil), HybridCache.GetOrSet(K, ttl, fetch) returns
(data, nil) and issues, after the two reads, one invocation of fetch, then
the write of data under K with the caller's ttl to L2, then the same write
to L1; this holds whatever the L2 write returned, an error included. -/
theorem hybrid_getOrSet_fill (c : HybridCache σ₁ σ₂) (K : String) (ttl : Duration)
    (fetch : Unit → String × Option GoError) (w : World σ₁ σ₂)
    (v₁ v₂ data : String) (e₁ e₂ : GoError) (s₁ t₁ : σ₁) (s₂ t₂ : σ₂) (x₁ x₂ : Option GoError)
    (hk : K ∉ w.group)
    (h₁ : c.local_.Get K w.l1 = some ((v₁, some e₁), s₁))
    (h₂ : c.remote.Get K w.l2 = some ((v₂, some e₂), s₂))
    (hf : fetch () = (data, none))
    (h₃ : c.remote.Set K (.str data) ttl s₂ = some (x₂, t₂))
    (h₄ : c.local_.Set K (.str data) ttl s₁ = some (x₁, t₁)) :
    ∃ w', c.GetOrSet K ttl fetch w = some ((data, none), w') ∧
      w'.trace = w.trace ++ [.call .L1 (.get K), .call .L2 (.get K), .fetch,
        .call .L2 (.set K (.str data) ttl), .call .L1 (.set K (.str data) ttl)] ∧
      w'.l1 = t₁ ∧ w'.l2 = t₂ ∧ w'.group = w.group :=
  ⟨_, c.getOrSet_of_fetch_ok K ttl fetch w hk h₁ h₂ hf h₃ h₄, rfl, rfl, rfl, rfl⟩

/-- Witness of C9: L1 empty, L2 unreachable, so the L2 write fails; the call
returns the fetched report and L1 has taken it into its buffer. -/
theorem hybrid_getOrSet_fill_witness :
    ∃ w', l2DownHybrid.GetOrSet "report:2024" time.Minute fetchR1 (World.init (.ofTable []) ())
        = some (("R1", none), w') ∧
      w'.trace = [] ++ [.call .L1 (.get "report:2024"), .call .L2 (.get "report:2024"), .fetch,
        .call .L2 (.set "report:2024" (.str "R1") time.Minute),
        .call .L1 (.set "report:2024" (.str "R1") time.Minute)] ∧
      w'.l1 = ⟨[], [.itemNew "report:2024" ⟨.str "R1", time.Minute⟩]⟩ ∧ w'.l2 = () ∧
      w'.group = [] :=
  hybrid_getOrSet_fill l2DownHybrid "report:2024" time.Minute fetchR1 (World.init (.ofTable []) ())
    "" "" "R1" (.errorsNew "redis: nil") (.upstream "connection refused")
    (.ofTable []) ⟨[], [.itemNew "report:2024" ⟨.str "R1", time.Minute⟩]⟩ () () none
    (some (.upstream "connection refused"))
    (by simp [World.init]) rfl rfl rfl rfl (by decide)

/-- Double miss, fetch succeeds: whatever the two writes do, GetOrSet does
not return an error. -/
theorem HybridCache.getOrSet_fetch_ok_no_error (c : HybridCache σ₁ σ₂) (K : String)
    (ttl : Duration) (fetch : Unit → String × Option GoError) (w : World σ₁ σ₂)
    {v₁ v₂ data v : String} {e₁ e₂ e : GoError} {s₁ : σ₁} {s₂ : σ₂} {w' : World σ₁ σ₂}
    (h₁ : c.local_.Get K w.l1 = some ((v₁, some e₁), s₁))
    (h₂ : c.remote.Get K w.l2 = some ((v₂, some e₂), s₂))
    (hf : fetch () = (data, none)) :
    c.GetOrSet K ttl fetch w ≠ some ((v, some e), w') := by
  intro h
  by_cases hk : K ∈ w.group
  · simp [HybridCache.GetOrSet, HybridCache.localGet, HybridCache.remoteGet, Group.Do,
      h₁, h₂, hk, World.log] at h
  · cases h₃ : c.remote.Set K (.str data) ttl s₂ with
    | none =>
      simp [HybridCache.GetOrSet, HybridCache.localGet, HybridCache.remoteGet, Group.Do,
        HybridCache.fill, HybridCache.remoteSet, h₁, h₂, h₃, hf, hk, World.log] at h
    | some p₃ =>
      obtain ⟨x₂, t₂⟩ := p₃
      cases h₄ : c.local_.Set K (.str data) ttl s₁ with
      | none =>
        simp [HybridCache.GetOrSet, HybridCache.localGet, HybridCache.remoteGet, Group.Do,
          HybridCache.fill, HybridCache.remoteSet, HybridCache.localSet, h₁, h₂, h₃, h₄, hf, hk,
          World.log] at h
      | some p₄ =>
        obtain ⟨x₁, t₁⟩ := p₄
        rw [c.getOrSet_of_fetch_ok K ttl fetch w hk h₁ h₂ hf h₃ h₄] at h
        simp at h

/-- C10. With no fetch for K in flight, HybridCache.GetOrSet(K, ttl, fetch)
returns an error if and only if neither tier returned a value for K and
fetch returned an error.  Whenever it returns an error e, both reads had
failed, e is the error fetch returned, the returned value is empty and the
calls issued are the two reads and the fetch, so no write to L1 or L2.
Conversely, when both reads fail and fetch returns the error e, the call
returns the empty string with e and issues those three calls only. -/
theorem hybrid_getOrSet_error (c : HybridCache σ₁ σ₂) (K : String) (ttl : Duration)
    (fetch : Unit → String × Option GoError) (w : World σ₁ σ₂) (hk : K ∉ w.group) :
    (∀ (v : String) (e : GoError) (w' : World σ₁ σ₂),
      c.GetOrSet K ttl fetch w = some ((v, some e), w') →
      ∃ v₁ e₁ s₁ v₂ e₂ s₂,
        c.local_.Get K w.l1 = some ((v₁, some e₁), s₁) ∧
        c.remote.Get K w.l2 = some ((v₂, some e₂), s₂) ∧
        (fetch ()).2 = some e ∧ v = "" ∧
        w'.trace = w.trace ++ [.call .L1 (.get K), .call .L2 (.get K), .fetch] ∧
        w'.l1 = s₁ ∧ w'.l2 = s₂) ∧
    (∀ (v₁ v₂ : String) (e₁ e₂ e : GoError) (s₁ : σ₁) (s₂ : σ₂),
      c.local_.Get K w.l1 = some ((v₁, some e₁), s₁) →
      c.remote.Get K w.l2 = some ((v₂, some e₂), s₂) →
      (fetch ()).2 = some e →
      ∃ w', c.GetOrSet K ttl fetch w = some (("", some e), w') ∧
        w'.trace = w.trace ++ [.call .L1 (.get K), .call .L2 (.get K), .fetch] ∧
        w'.l1 = s₁ ∧ w'.l2 = s₂) := by
  refine ⟨?_, ?_⟩
  · intro v e w' h
    cases h₁ : c.local_.Get K w.l1 with
    | none => simp [HybridCache.GetOrSet, HybridCache.localGet, h₁] at h
    | some p₁ =>
      obtain ⟨⟨v₁, e₁⟩, s₁⟩ := p₁
      cases e₁ with
      | none =>
        rw [c.getOrSet_of_l1_hit K ttl fetch w h₁] at h
        simp at h
      | some e₁ =>
        cases h₂ : c.remote.Get K w.l2 with
        | none =>
          simp [HybridCache.GetOrSet, HybridCache.localGet, HybridCache.remoteGet, h₁, h₂,
            World.log] at h
        | some p₂ =>
          obtain ⟨⟨v₂, e₂⟩, s₂⟩ := p₂
          cases e₂ with
          | none =>
            cases h₃ : c.local_.Set K (.str v₂) ttl s₁ with
            | none =>
              simp [HybridCache.GetOrSet, HybridCache.localGet, HybridCache.remoteGet,
                HybridCache.localSet, h₁, h₂, h₃, World.log] at h
            | some p₃ =>
              obtain ⟨x, t₁⟩ := p₃
              rw [c.getOrSet_of_l2_hit K ttl fetch w h₁ h₂ h₃] at h
              simp at h
          | some e₂ =>
            cases hf : fetch () with
            | mk data ef =>
              cases ef with
              | none => exact absurd h (c.getOrSet_fetch_ok_no_error K ttl fetch w h₁ h₂ hf)
              | some e' =>
                rw [c.getOrSet_of_fetch_err K ttl fetch w hk h₁ h₂ hf] at h
                simp only [Option.some.injEq, Prod.mk.injEq] at h
                obtain ⟨⟨hv, he⟩, hw⟩ := h
                subst hw
                exact ⟨v₁, e₁, s₁, v₂, e₂, s₂, rfl, rfl, by rw [he], hv.symm, rfl, rfl, rfl⟩
  · intro v₁ v₂ e₁ e₂ e s₁ s₂ h₁ h₂ hf
    have hf' : fetch () = ((fetch ()).1, some e) := by rw [← hf]
    exact ⟨_, c.getOrSet_of_fetch_err K ttl fetch w hk h₁ h₂ hf', rfl, rfl, rfl⟩

/-- Witness of C10 on the key-value tiers: both tiers empty and a failing
fetch; the error of fetch comes back and nothing is written. -/
theorem hybrid_getOrSet_error_witness :
    ∃ w', kvHybrid.GetOrSet "report:2024" time.Minute fetchFail emptyWorld
        = some (("", some (GoError.errorsNew "db unavailable")), w') ∧
      w'.trace = emptyWorld.trace ++
        [.call .L1 (.get "report:2024"), .call .L2 (.get "report:2024"), .fetch] ∧
      w'.l1 = emptyWorld.l1 ∧ w'.l2 = [] :=
  (hybrid_getOrSet_error kvHybrid "report:2024" time.Minute fetchFail emptyWorld
    (by simp [emptyWorld, World.init])).2
    "" "" (.errorsNew "redis: nil") .redisNil (.errorsNew "db unavailable") emptyWorld.l1 []
    rfl rfl rfl

/-! ## A healthy L2 behind an L1 in outage -/

theorem downCache_outage (e : GoError) : (downCache e).Outage :=
  ⟨fun _ _ => ⟨e, rfl⟩, fun _ _ => ⟨e, rfl⟩, fun _ _ _ _ => ⟨e, rfl⟩, fun _ _ => ⟨e, rfl⟩⟩

/-- C18. With L1 in outage (every L1 call returns an error and stores
nothing) and an L2 that returns the empty string whenever its Get returns
an error (as RedisCache does), for every key, value and ttl the result of
HybridCache.Get, Exists, Set and Del is exactly the result of the same call
on L2 alone, a call of L2 that does not return included. -/
theorem hybrid_l1_outage_masked (c : HybridCache σ₁ σ₂) (hout : c.local_.Outage)
    (hconv : ∀ k s v e s', c.remote.Get k s = some ((v, some e), s') → v = "")
    (K : String) (V : GoValue) (ttl : Duration) (w : World σ₁ σ₂) :
    (c.Get K w).map Prod.fst = (c.remote.Get K w.l2).map Prod.fst ∧
    (c.Exists K w).map Prod.fst = (c.remote.Exists K w.l2).map Prod.fst ∧
    (c.Set K V ttl w).map Prod.fst = (c.remote.Set K V ttl w.l2).map Prod.fst ∧
    (c.Del K w).map Prod.fst = (c.remote.Del K w.l2).map Prod.fst := by
  obtain ⟨eg, hg⟩ := hout.get K w.l1
  obtain ⟨ee, he⟩ := hout.exists_ K w.l1
  obtain ⟨es, hs⟩ := hout.set K V ttl w.l1
  obtain ⟨ed, hd⟩ := hout.del K w.l1
  refine ⟨?_, ?_, ?_, ?_⟩
  · cases h₂ : c.remote.Get K w.l2 with
    | none =>
      simp [HybridCache.Get, HybridCache.localGet, HybridCache.remoteGet, hg, h₂, World.log]
    | some p =>
      obtain ⟨⟨v₂, e₂⟩, s₂⟩ := p
      cases e₂ with
      | none =>
        obtain ⟨ep, hp⟩ := hout.set K (.str v₂) (5 * time.Minute) w.l1
        rw [c.get_of_l2_hit K w hg h₂ hp]
        rfl
      | some e₂ =>
        rw [c.get_of_miss K w hg h₂, hconv K w.l2 v₂ e₂ s₂ h₂]
        rfl
  · cases h₂ : c.remote.Exists K w.l2 with
    | none =>
      simp [HybridCache.Exists, HybridCache.localExists, HybridCache.remoteExists, he, h₂,
        World.log]
    | some p =>
      simp [HybridCache.Exists, HybridCache.localExists, HybridCache.remoteExists, he, h₂,
        World.log]
  · cases h₂ : c.remote.Set K V ttl w.l2 with
    | none =>
      simp [HybridCache.Set, HybridCache.localSet, HybridCache.remoteSet, hs, h₂, World.log]
    | some p =>
      rw [c.set_eq K V ttl w hs h₂]
      rfl
  · cases h₂ : c.remote.Del K w.l2 with
    | none =>
      simp [HybridCache.Del, HybridCache.localDel, HybridCache.remoteDel, hd, h₂, World.log]
    | some p =>
      rw [c.del_eq K w hd h₂]
      rfl

/-- Witness of C18: the failing L1 in front of the key-value L2 that holds
user:42. -/
theorem hybrid_l1_outage_masked_witness :
    (l1DownHybrid.Get "user:42" (World.init () [("user:42", "a", 7)])).map Prod.fst
        = (RedisCache.Get "user:42" [("user:42", "a", 7)]).map Prod.fst ∧
    (l1DownHybrid.Exists "user:42" (World.init () [("user:42", "a", 7)])).map Prod.fst
        = (RedisCache.Exists "user:42" [("user:42", "a", 7)]).map Prod.fst ∧
    (l1DownHybrid.Set "user:42" (.str "b") 9 (World.init () [("user:42", "a", 7)])).map Prod.fst
        = (RedisCache.Set "user:42" (.str "b") 9 [("user:42", "a", 7)]).map Prod.fst ∧
    (l1DownHybrid.Del "user:42" (World.init () [("user:42", "a", 7)])).map Prod.fst
        = (RedisCache.Del "user:42" [("user:42", "a", 7)]).map Prod.fst :=
  hybrid_l1_outage_masked l1DownHybrid (downCache_outage _)
    (by
      intro k s v e s' h
      simp only [l1DownHybrid, RedisCache, RedisCache.Get] at h
      split at h <;> simp at h
      exact h.1.1.symm)
    "user:42" (.str "b") 9 (World.init () [("user:42", "a", 7)])

/-! ## Redis-specific methods -/

/-- A call run on the remote tier returns what the tier returns, leaves L1
alone and records one L2 call. -/
theorem World.onRemote_eq {α : Type} (f : σ₂ → Option (α × σ₂)) (op : Op) (w : World σ₁ σ₂) :
    w.onRemote f op
      = (f w.l2).map
          (fun p => (p.1, { w with l2 := p.2, trace := w.trace ++ [.call .L2 op] })) := by
  unfold World.onRemote
  cases f w.l2 with
  | none => rfl
  | some p => rfl

/-- C19. Each of HybridCache.Incr, RPush, BLPop, LTrim, Eval, SAdd and
SIsMember returns exactly what the same method of L2 returns for the same
arguments on the state of L2 (no result when L2's call does not return);
the world afterwards differs from the world before only in the state of
L2, which is the one L2's call left, and in the trace, which gained that
single L2 call: the state of L1 is unchanged and no L1 call is issued. -/
theorem hybrid_passthrough (remote : CacheCommands σ₂) (w : World σ₁ σ₂)
    (key script : String) (values : List GoValue) (timeout : Duration) (keys : List String)
    (start stop : Int) (member : GoValue) :
    HybridCache.Incr remote key w
      = (remote.Incr key w.l2).map (fun p =>
          (p.1, { w with l2 := p.2, trace := w.trace ++ [.call .L2 (.incr key)] })) ∧
    HybridCache.RPush remote key values w
      = (remote.RPush key values w.l2).map (fun p =>
          (p.1, { w with l2 := p.2, trace := w.trace ++ [.call .L2 (.rpush key values)] })) ∧
    HybridCache.BLPop remote timeout keys w
      = (remote.BLPop timeout keys w.l2).map (fun p =>
          (p.1, { w with l2 := p.2, trace := w.trace ++ [.call .L2 (.blpop timeout keys)] })) ∧
    HybridCache.LTrim remote key start stop w
      = (remote.LTrim key start stop w.l2).map (fun p =>
          (p.1, { w with l2 := p.2,
                         trace := w.trace ++ [.call .L2 (.ltrim key start stop)] })) ∧
    HybridCache.Eval remote script keys values w
      = (remote.Eval script keys values w.l2).map (fun p =>
          (p.1, { w with l2 := p.2,
                         trace := w.trace ++ [.call .L2 (.eval script keys values)] })) ∧
    HybridCache.SAdd remote key values w
      = (remote.SAdd key values w.l2).map (fun p =>
          (p.1, { w with l2 := p.2, trace := w.trace ++ [.call .L2 (.sadd key values)] })) ∧
    HybridCache.SIsMember remote key member w
      = (remote.SIsMember key member w.l2).map (fun p =>
          (p.1, { w with l2 := p.2,
                         trace := w.trace ++ [.call .L2 (.sismember key member)] })) :=
  ⟨World.onRemote_eq _ _ w, World.onRemote_eq _ _ w, World.onRemote_eq _ _ w,
   World.onRemote_eq _ _ w, World.onRemote_eq _ _ w, World.onRemote_eq _ _ w,
   World.onRemote_eq _ _ w⟩

/-- C20. On the in-process tier, for every input and every content of the
cache, Incr, RPush, BLPop, LTrim, Eval, SAdd and SIsMember of RistrettoCache
return the non-nil error errors.New("not supported") with the zero result
(0, a nil slice, a nil value, false) and leave the content as it was. -/
theorem ristretto_unsupported (c : Ristretto)
    (key script : String) (values : List GoValue) (timeout : Duration) (keys : List String)
    (start stop : Int) (member : GoValue) :
    RistrettoCache.commands.Incr key c
      = some ((0, some (GoError.errorsNew "not supported")), c) ∧
    RistrettoCache.commands.RPush key values c
      = some (some (GoError.errorsNew "not supported"), c) ∧
    RistrettoCache.commands.BLPop timeout keys c
      = some (([], some (GoError.errorsNew "not supported")), c) ∧
    RistrettoCache.commands.LTrim key start stop c
      = some (some (GoError.errorsNew "not supported"), c) ∧
    RistrettoCache.commands.Eval script keys values c
      = some ((none, some (GoError.errorsNew "not supported")), c) ∧
    RistrettoCache.commands.SAdd key values c
      = some (some (GoError.errorsNew "not supported"), c) ∧
    RistrettoCache.commands.SIsMember key member c
      = some ((false, some (GoError.errorsNew "not supported")), c) :=
  ⟨rfl, rfl, rfl, rfl, rfl, rfl, rfl⟩

/-! ## L1Invalidator.handleMessage -/

/-- A literal payload: one L1 delete of the payload, whatever it returns. -/
theorem L1Invalidator.handleMessage_literal (i : L1Invalidator σ₁) (ch key : String)
    (w : World σ₁ σ₂) (hne : key ≠ "") (hlit : strings.HasSuffix key ":*" = false)
    {x : Option GoError} {t : σ₁} (hd : i.l1.Del key w.l1 = some (x, t)) :
    i.handleMessage (some { Channel := ch, Payload := key }) w
      = some { w with l1 := t, trace := w.trace ++ [.call .L1 (.del key)] } := by
  simp [L1Invalidator.handleMessage, hne, hlit, hd, World.log]

/-- C14. For every message whose payload is a literal key (non-empty, not
ending in ":*"), on whatever channel, handleMessage on the key-value L1
returns and issues exactly one call, the L1 delete of that key: L1 is left
without the key, every other key of L1 reads as before, and L2 is not
called and keeps its state. -/
theorem handleMessage_literal_key (ch key : String) (w : World Ristretto σ₂)
    (hne : key ≠ "") (hlit : strings.HasSuffix key ":*" = false) :
    ∃ w', kvInvalidator.handleMessage (some { Channel := ch, Payload := key }) w = some w' ∧
      w'.trace = w.trace ++ [.call .L1 (.del key)] ∧
      w'.l2 = w.l2 ∧
      w'.l1.Get key = none ∧
      ∀ k, k ≠ key → w'.l1.Get k = w.l1.Get k := by
  refine ⟨_, kvInvalidator.handleMessage_literal ch key w hne hlit rfl, rfl, rfl, ?_, ?_⟩
  · exact Ristretto.get_del w.l1 key
  · intro k hk
    exact Ristretto.get_del_of_ne w.l1 key k hk

/-- Witness of C14: user:42 is invalidated, user:7 stays. -/
theorem handleMessage_literal_key_witness :
    ∃ w', kvInvalidator.handleMessage
        (some { Channel := L1InvalidateChannel, Payload := "user:42" }) staleWorld = some w' ∧
      w'.trace = staleWorld.trace ++ [.call .L1 (.del "user:42")] ∧
      w'.l2 = staleWorld.l2 ∧
      w'.l1.Get "user:42" = none ∧
      ∀ k, k ≠ "user:42" → w'.l1.Get k = staleWorld.l1.Get k :=
  handleMessage_literal_key L1InvalidateChannel "user:42" staleWorld (by decide) (by decide)

/-- C15. For every message whose payload ends with ":*", on whatever channel
and whatever tier L1 is, handleMessage returns normally and leaves the world
exactly as it was: the state of L1 is unchanged (no key is deleted, neither
the payload itself nor a key that starts with its stem), no call is issued
to any tier. -/
theorem handleMessage_wildcard (i : L1Invalidator σ₁) (ch key : String) (w : World σ₁ σ₂)
    (hwild : strings.HasSuffix key ":*" = true) :
    i.handleMessage (some { Channel := ch, Payload := key }) w = some w := by
  by_cases hne : key = ""
  · simp [L1Invalidator.handleMessage, hne]
  · simp [L1Invalidator.handleMessage, hne, hwild]

/-- Witness of C15: the payload iam:result:123:* with L1 holding that very
key. -/
theorem handleMessage_wildcard_witness :
    kvInvalidator.handleMessage
        (some { Channel := L1InvalidateChannel, Payload := "iam:result:123:*" })
        staleWildcardWorld
      = some staleWildcardWorld :=
  handleMessage_wildcard kvInvalidator L1InvalidateChannel "iam:result:123:*"
    staleWildcardWorld (by decide)

/-! ## Invalidation, then Get -/

/-- C13, the code at the failing input.  For every key, Get on an empty
RistrettoCache returns the empty string with the value built by
errors.New("redis: nil"), Get on an empty RedisCache returns the empty string
with the sentinel redis.Nil; the two errors carry the same message and are
not equal, so err == redis.Nil is false for a miss of L1. -/
theorem ristretto_miss_is_not_redis_nil (K : String) :
    RistrettoCache.Get K (.ofTable [])
      = some (("", some (GoError.errorsNew "redis: nil")), .ofTable []) ∧
    RedisCache.Get K [] = some (("", some GoError.redisNil), []) ∧
    (GoError.errorsNew "redis: nil").Error = GoError.redisNil.Error ∧
    GoError.errorsNew "redis: nil" ≠ GoError.redisNil :=
  ⟨rfl, rfl, rfl, by decide⟩

/-! ## Lifecycle of the listener -/

/-- C17, the code at the failing input.  On a fresh invalidator a Start whose
subscription is not confirmed returns the error and leaves isRunning set;
the next Start returns nil, whatever the store would answer, although no
confirmation was received and no listen loop was launched. -/
theorem start_after_failed_start (e : GoError) (recv : Option GoError) :
    ∃ s₁, L1Invalidator.Start (some e) Lifecycle.new = (some e, s₁) ∧
      s₁.isRunning = true ∧
      L1Invalidator.Start recv s₁ = (none, s₁) ∧
      s₁.confirmed = false ∧ s₁.listening = false :=
  ⟨_, rfl, rfl, rfl, rfl, rfl⟩

/-! ## Traces of the coordinator calls -/

theorem HybridCache.localGet_trace (c : HybridCache σ₁ σ₂) {K : String} {w w' : World σ₁ σ₂}
    {r : String × Option GoError} (h : c.localGet K w = some (r, w')) :
    w'.trace = w.trace ++ [.call .L1 (.get K)] := by
  unfold HybridCache.localGet at h
  split at h
  · exact absurd h (by simp)
  · simp only [Option.some.injEq, Prod.mk.injEq] at h
    rw [← h.2]; rfl

theorem HybridCache.remoteGet_trace (c : HybridCache σ₁ σ₂) {K : String} {w w' : World σ₁ σ₂}
    {r : String × Option GoError} (h : c.remoteGet K w = some (r, w')) :
    w'.trace = w.trace ++ [.call .L2 (.get K)] := by
  unfold HybridCache.remoteGet at h
  split at h
  · exact absurd h (by simp)
  · simp only [Option.some.injEq, Prod.mk.injEq] at h
    rw [← h.2]; rfl

theorem HybridCache.localExists_trace (c : HybridCache σ₁ σ₂) {K : String}
    {w w' : World σ₁ σ₂} {r : Bool × Option GoError} (h : c.localExists K w = some (r, w')) :
    w'.trace = w.trace ++ [.call .L1 (.exists_ K)] := by
  unfold HybridCache.localExists at h
  split at h
  · exact absurd h (by simp)
  · simp only [Option.some.injEq, Prod.mk.injEq] at h
    rw [← h.2]; rfl

theorem HybridCache.remoteExists_trace (c : HybridCache σ₁ σ₂) {K : String}
    {w w' : World σ₁ σ₂} {r : Bool × Option GoError} (h : c.remoteExists K w = some (r, w')) :
    w'.trace = w.trace ++ [.call .L2 (.exists_ K)] := by
  unfold HybridCache.remoteExists at h
  split at h
  · exact absurd h (by simp)
  · simp only [Option.some.injEq, Prod.mk.injEq] at h
    rw [← h.2]; rfl

theorem HybridCache.localSet_trace (c : HybridCache σ₁ σ₂) {K : String} {V : GoValue}
    {t : Duration} {w w' : World σ₁ σ₂} {r : Option GoError}
    (h : c.localSet K V t w = some (r, w')) :
    w'.trace = w.trace ++ [.call .L1 (.set K V t)] ∧ w'.group = w.group := by
  unfold HybridCache.localSet at h
  split at h
  · exact absurd h (by simp)
  · simp only [Option.some.injEq, Prod.mk.injEq] at h
    rw [← h.2]; exact ⟨rfl, rfl⟩

theorem HybridCache.remoteSet_trace (c : HybridCache σ₁ σ₂) {K : String} {V : GoValue}
    {t : Duration} {w w' : World σ₁ σ₂} {r : Option GoError}
    (h : c.remoteSet K V t w = some (r, w')) :
    w'.trace = w.trace ++ [.call .L2 (.set K V t)] ∧ w'.group = w.group := by
  unfold HybridCache.remoteSet at h
  split at h
  · exact absurd h (by simp)
  · simp only [Option.some.injEq, Prod.mk.injEq] at h
    rw [← h.2]; exact ⟨rfl, rfl⟩

theorem HybridCache.localDel_trace (c : HybridCache σ₁ σ₂) {K : String} {w w' : World σ₁ σ₂}
    {r : Option GoError} (h : c.localDel K w = some (r, w')) :
    w'.trace = w.trace ++ [.call .L1 (.del K)] := by
  unfold HybridCache.localDel at h
  split at h
  · exact absurd h (by simp)
  · simp only [Option.some.injEq, Prod.mk.injEq] at h
    rw [← h.2]; rfl

theorem HybridCache.remoteDel_trace (c : HybridCache σ₁ σ₂) {K : String} {w w' : World σ₁ σ₂}
    {r : Option GoError} (h : c.remoteDel K w = some (r, w')) :
    w'.trace = w.trace ++ [.call .L2 (.del K)] := by
  unfold HybridCache.remoteDel at h
  split at h
  · exact absurd h (by simp)
  · simp only [Option.some.injEq, Prod.mk.injEq] at h
    rw [← h.2]; rfl

/-- Whatever Get returns, the events it issued hold L1 writes only under the
key it was called with and with 5 minutes. -/
theorem HybridCache.get_trace (c : HybridCache σ₁ σ₂) {K : String} {w w' : World σ₁ σ₂}
    {r : String × Option GoError} (h : c.Get K w = some (r, w')) :
    ∃ evs, w'.trace = w.trace ++ evs ∧
      ∀ k v t, Event.call .L1 (.set k v t) ∈ evs → k = K ∧ t = 5 * time.Minute := by
  cases h₁ : c.localGet K w with
  | none => simp [HybridCache.Get, h₁] at h
  | some p₁ =>
    obtain ⟨⟨v₁, e₁⟩, w₁⟩ := p₁
    have t₁ := c.localGet_trace h₁
    cases e₁ with
    | none =>
      simp only [HybridCache.Get, h₁, Option.some.injEq, Prod.mk.injEq] at h
      refine ⟨[.call .L1 (.get K)], by rw [← h.2, t₁], by simp⟩
    | some e₁ =>
      cases h₂ : c.remoteGet K w₁ with
      | none => simp [HybridCache.Get, h₁, h₂] at h
      | some p₂ =>
        obtain ⟨⟨v₂, e₂⟩, w₂⟩ := p₂
        have t₂ := c.remoteGet_trace h₂
        cases e₂ with
        | none =>
          cases h₃ : c.localSet K (.str v₂) (5 * time.Minute) w₂ with
          | none => simp [HybridCache.Get, h₁, h₂, h₃] at h
          | some p₃ =>
            obtain ⟨x, w₃⟩ := p₃
            have t₃ := (c.localSet_trace h₃).1
            simp only [HybridCache.Get, h₁, h₂, h₃, Option.some.injEq, Prod.mk.injEq] at h
            refine ⟨[.call .L1 (.get K), .call .L2 (.get K),
              .call .L1 (.set K (.str v₂) (5 * time.Minute))], ?_, ?_⟩
            · rw [← h.2, t₃, t₂, t₁]; simp
            · intro k v t hm
              simp at hm
              exact ⟨hm.1, hm.2.2⟩
        | some e₂ =>
          simp only [HybridCache.Get, h₁, h₂, Option.some.injEq, Prod.mk.injEq] at h
          refine ⟨[.call .L1 (.get K), .call .L2 (.get K)], ?_, by simp⟩
          rw [← h.2, t₂, t₁]; simp
/-- Exists issues no write. -/
theorem HybridCache.exists_trace (c : HybridCache σ₁ σ₂) {K : String} {w w' : World σ₁ σ₂}
    {r : Bool × Option GoError} (h : c.Exists K w = some (r, w')) :
    ∃ evs, w'.trace = w.trace ++ evs ∧
      ∀ k v t, Event.call .L1 (.set k v t) ∉ evs := by
  cases h₁ : c.localExists K w with
  | none => simp [HybridCache.Exists, h₁] at h
  | some p₁ =>
    obtain ⟨⟨b, e₁⟩, w₁⟩ := p₁
    have t₁ := c.localExists_trace h₁
    cases b with
    | true =>
      simp only [HybridCache.Exists, h₁, Option.some.injEq, Prod.mk.injEq] at h
      exact ⟨[.call .L1 (.exists_ K)], by rw [← h.2, t₁], by simp⟩
    | false =>
      simp only [HybridCache.Exists, h₁] at h
      have t₂ := c.remoteExists_trace h
      exact ⟨[.call .L1 (.exists_ K), .call .L2 (.exists_ K)], by rw [t₂, t₁]; simp, by simp⟩

/-- Set writes L1 once, under the caller's key with the caller's TTL. -/
theorem HybridCache.set_trace (c : HybridCache σ₁ σ₂) {K : String} {V : GoValue}
    {ttl : Duration} {w w' : World σ₁ σ₂} {r : Option GoError}
    (h : c.Set K V ttl w = some (r, w')) :
    ∃ evs, w'.trace = w.trace ++ evs ∧
      ∀ k v t, Event.call .L1 (.set k v t) ∈ evs → k = K ∧ t = ttl := by
  cases h₁ : c.localSet K V ttl w with
  | none => simp [HybridCache.Set, h₁] at h
  | some p₁ =>
    obtain ⟨x, w₁⟩ := p₁
    have t₁ := (c.localSet_trace h₁).1
    simp only [HybridCache.Set, h₁] at h
    have t₂ := (c.remoteSet_trace h).1
    refine ⟨[.call .L1 (.set K V ttl), .call .L2 (.set K V ttl)], by rw [t₂, t₁]; simp, ?_⟩
    intro k v t hm
    simp at hm
    exact ⟨hm.1, hm.2.2⟩

/-- Del issues no write. -/
theorem HybridCache.del_trace (c : HybridCache σ₁ σ₂) {K : String} {w w' : World σ₁ σ₂}
    {r : Option GoError} (h : c.Del K w = some (r, w')) :
    ∃ evs, w'.trace = w.trace ++ evs ∧
      ∀ k v t, Event.call .L1 (.set k v t) ∉ evs := by
  cases h₁ : c.localDel K w with
  | none => simp [HybridCache.Del, h₁] at h
  | some p₁ =>
    obtain ⟨x, w₁⟩ := p₁
    have t₁ := c.localDel_trace h₁
    simp only [HybridCache.Del, h₁] at h
    have t₂ := c.remoteDel_trace h
    exact ⟨[.call .L1 (.del K), .call .L2 (.del K)], by rw [t₂, t₁]; simp, by simp⟩

/-- The guarded fill writes L1 at most once, under the caller's key with the
caller's TTL. -/
theorem HybridCache.fill_trace (c : HybridCache σ₁ σ₂) {K : String} {ttl : Duration}
    {fetch : Unit → String × Option GoError} {w w' : World σ₁ σ₂}
    {r : String × Option GoError} (h : c.fill K ttl fetch w = some (r, w')) :
    ∃ evs, w'.trace = w.trace ++ evs ∧
      ∀ k v t, Event.call .L1 (.set k v t) ∈ evs → k = K ∧ t = ttl := by
  cases hf : fetch () with
  | mk data ef =>
    cases ef with
    | some e =>
      simp only [HybridCache.fill, hf, Option.some.injEq, Prod.mk.injEq] at h
      exact ⟨[.fetch], by rw [← h.2]; rfl, by simp⟩
    | none =>
      cases h₃ : c.remoteSet K (.str data) ttl (w.log .fetch) with
      | none => simp [HybridCache.fill, hf, h₃] at h
      | some p₃ =>
        obtain ⟨x₂, w₃⟩ := p₃
        have t₃ := (c.remoteSet_trace h₃).1
        cases h₄ : c.localSet K (.str data) ttl w₃ with
        | none => simp [HybridCache.fill, hf, h₃, h₄] at h
        | some p₄ =>
          obtain ⟨x₁, w₄⟩ := p₄
          have t₄ := (c.localSet_trace h₄).1
          simp only [HybridCache.fill, hf, h₃, h₄, Option.some.injEq, Prod.mk.injEq] at h
          refine ⟨[.fetch, .call .L2 (.set K (.str data) ttl),
            .call .L1 (.set K (.str data) ttl)], ?_, ?_⟩
          · rw [← h.2, t₄, t₃]; simp [World.log]
          · intro k v t hm
            simp at hm
            exact ⟨hm.1, hm.2.2⟩

/-- The guard adds nothing to the trace of the function it runs. -/
theorem Group.do_trace {α : Type} {K : String}
    {fn : World σ₁ σ₂ → Option (α × World σ₁ σ₂)} {w w' : World σ₁ σ₂} {r : α}
    (h : Group.Do K fn w = some (r, w')) :
    ∃ w'', fn { w with group := K :: w.group } = some (r, w'') ∧ w'.trace = w''.trace := by
  unfold Group.Do at h
  split at h
  · exact absurd h (by simp)
  · split at h
    · exact absurd h (by simp)
    · rename_i r₀ w₀ hfn
      simp only [Option.some.injEq, Prod.mk.injEq] at h
      exact ⟨w₀, by rw [hfn, h.1], by rw [← h.2]⟩

/-- GetOrSet writes L1 at most once, under the caller's key with the caller's
TTL. -/
theorem HybridCache.getOrSet_trace (c : HybridCache σ₁ σ₂) {K : String} {ttl : Duration}
    {fetch : Unit → String × Option GoError} {w w' : World σ₁ σ₂}
    {r : String × Option GoError} (h : c.GetOrSet K ttl fetch w = some (r, w')) :
    ∃ evs, w'.trace = w.trace ++ evs ∧
      ∀ k v t, Event.call .L1 (.set k v t) ∈ evs → k = K ∧ t = ttl := by
  cases h₁ : c.localGet K w with
  | none => simp [HybridCache.GetOrSet, h₁] at h
  | some p₁ =>
    obtain ⟨⟨v₁, e₁⟩, w₁⟩ := p₁
    have t₁ := c.localGet_trace h₁
    cases e₁ with
    | none =>
      simp only [HybridCache.GetOrSet, h₁, Option.some.injEq, Prod.mk.injEq] at h
      refine ⟨[.call .L1 (.get K)], by rw [← h.2, t₁], by simp⟩
    | some e₁ =>
      cases h₂ : c.remoteGet K w₁ with
      | none => simp [HybridCache.GetOrSet, h₁, h₂] at h
      | some p₂ =>
        obtain ⟨⟨v₂, e₂⟩, w₂⟩ := p₂
        have t₂ := c.remoteGet_trace h₂
        cases e₂ with
        | none =>
          cases h₃ : c.localSet K (.str v₂) ttl w₂ with
          | none => simp [HybridCache.GetOrSet, h₁, h₂, h₃] at h
          | some p₃ =>
            obtain ⟨x, w₃⟩ := p₃
            have t₃ := (c.localSet_trace h₃).1
            simp only [HybridCache.GetOrSet, h₁, h₂, h₃, Option.some.injEq, Prod.mk.injEq] at h
            refine ⟨[.call .L1 (.get K), .call .L2 (.get K),
              .call .L1 (.set K (.str v₂) ttl)], ?_, ?_⟩
            · rw [← h.2, t₃, t₂, t₁]; simp
            · intro k v t hm
              simp at hm
              exact ⟨hm.1, hm.2.2⟩
        | some e₂ =>
          cases h₃ : Group.Do K (c.fill K ttl fetch) w₂ with
          | none => simp [HybridCache.GetOrSet, h₁, h₂, h₃] at h
          | some p₃ =>
            obtain ⟨⟨v₃, e₃⟩, w₃⟩ := p₃
            obtain ⟨w₄, hfill, t₃⟩ := Group.do_trace h₃
            obtain ⟨evs, t₄, hev⟩ := c.fill_trace hfill
            have hw : w' = w₃ := by
              cases e₃ <;>
                simp only [HybridCache.GetOrSet, h₁, h₂, h₃, Option.some.injEq,
                  Prod.mk.injEq] at h <;> exact h.2.symm
            refine ⟨[.call .L1 (.get K), .call .L2 (.get K)] ++ evs, ?_, ?_⟩
            · rw [hw, t₃, t₄]
              simp only [t₂, t₁, List.append_assoc, List.singleton_append, List.cons_append,
                List.nil_append]
            · intro k v t hm
              simp only [List.mem_append, List.mem_cons, List.mem_singleton] at hm
              rcases hm with hm | hm
              · simp at hm
              · exact hev k v t hm
theorem map_snd_eq_some {α β : Type} {x : Option (α × β)} {b : β}
    (h : x.map Prod.snd = some b) : ∃ a, x = some (a, b) := by
  cases x with
  | none => simp at h
  | some p =>
    obtain ⟨a, b'⟩ := p
    simp only [Option.map_some', Option.some.injEq] at h
    exact ⟨a, by rw [h]⟩

/-- Serving one request issues L1 writes only with the key and TTL that
`Request.l1Write` gives for it. -/
theorem HybridCache.serve_trace (c : HybridCache σ₁ σ₂) {r : Request} {w w' : World σ₁ σ₂}
    (h : c.serve r w = some w') :
    ∃ evs, w'.trace = w.trace ++ evs ∧
      ∀ k v t, Event.call .L1 (.set k v t) ∈ evs → r.l1Write = some (k, t) := by
  cases r with
  | get K =>
    obtain ⟨res, h⟩ := map_snd_eq_some h
    obtain ⟨evs, ht, hev⟩ := c.get_trace h
    refine ⟨evs, ht, fun k v t hm => ?_⟩
    obtain ⟨rfl, rfl⟩ := hev k v t hm
    rfl
  | exists_ K =>
    obtain ⟨res, h⟩ := map_snd_eq_some h
    obtain ⟨evs, ht, hev⟩ := c.exists_trace h
    exact ⟨evs, ht, fun k v t hm => absurd hm (hev k v t)⟩
  | set K V ttl =>
    obtain ⟨res, h⟩ := map_snd_eq_some h
    obtain ⟨evs, ht, hev⟩ := c.set_trace h
    refine ⟨evs, ht, fun k v t hm => ?_⟩
    obtain ⟨rfl, rfl⟩ := hev k v t hm
    rfl
  | del K =>
    obtain ⟨res, h⟩ := map_snd_eq_some h
    obtain ⟨evs, ht, hev⟩ := c.del_trace h
    exact ⟨evs, ht, fun k v t hm => absurd hm (hev k v t)⟩
  | getOrSet K ttl fetch =>
    obtain ⟨res, h⟩ := map_snd_eq_some h
    obtain ⟨evs, ht, hev⟩ := c.getOrSet_trace h
    refine ⟨evs, ht, fun k v t hm => ?_⟩
    obtain ⟨rfl, rfl⟩ := hev k v t hm
    rfl

/-! ## TTL of the entries written to L1 -/

/-- C12 as stated fails.  user:42 is set with 5 seconds and L1 admits it;
the invalidation listener drops it from L1; the next Get reads it from L2 and
writes it to L1 with 5 minutes, more than the 5 seconds the caller requested:
that is the write issued to L1, and the entry L1 holds once its buffer is
processed. -/
theorem l1_ttl_repopulated_counterexample :
    kvHybrid.Set "user:42" (.str "a") (5 * time.Second) emptyWorld = some (none, user42Queued) ∧
    user42World = { user42Queued with l1 := user42Queued.l1.background [(true, [])] } ∧
    ∃ w₁ w₂, kvInvalidator.handleMessage
        (some { Channel := L1InvalidateChannel, Payload := "user:42" }) user42World = some w₁ ∧
      w₁.l1.storedItems = [] ∧
      kvHybrid.Get "user:42" w₁ = some (("a", none), w₂) ∧
      w₂.trace = user42World.trace ++ [.call .L1 (.del "user:42"), .call .L1 (.get "user:42"),
        .call .L2 (.get "user:42"), .call .L1 (.set "user:42" (.str "a") (5 * time.Minute))] ∧
      (w₂.l1.background [(true, []), (true, [])]).storedItems
        = [("user:42", { value := .str "a", ttl := 5 * time.Minute })] ∧
      ¬ (5 * time.Minute ≤ 5 * time.Second) :=
  ⟨by rfl, rfl, _, _, rfl, rfl, rfl, rfl, rfl, by decide⟩

/-- C12, amended.  In every sequence of HybridCache calls (Get, Exists, Set,
Del, GetOrSet) over any two tiers, the calls issued are the blocks issued by
the requests one after the other, and every write to L1 in the block of a
request carries the key of that request and: the TTL the caller requested in
it, when the request is a Set or a GetOrSet; 5 minutes, when it is a Get
(the re-population from L2), whatever TTL the key was stored with.  Exists
and Del write nothing to L1. -/
theorem l1_write_ttls (c : HybridCache σ₁ σ₂) (reqs : List Request) (w w' : World σ₁ σ₂)
    (h : c.serveAll reqs w = some w') :
    ∃ blocks : List (List Event), w'.trace = w.trace ++ blocks.flatten ∧
      List.Forall₂
        (fun r evs => ∀ k v t, Event.call .L1 (.set k v t) ∈ evs → r.l1Write = some (k, t))
        reqs blocks := by
  induction reqs generalizing w with
  | nil =>
    simp only [HybridCache.serveAll, Option.some.injEq] at h
    exact ⟨[], by simp [h], List.Forall₂.nil⟩
  | cons r rs ih =>
    cases h₁ : c.serve r w with
    | none => simp [HybridCache.serveAll, h₁] at h
    | some w₁ =>
      simp only [HybridCache.serveAll, h₁] at h
      obtain ⟨evs, ht, hev⟩ := c.serve_trace h₁
      obtain ⟨blocks, hts, hall⟩ := ih w₁ h
      exact ⟨evs :: blocks, by rw [hts, ht]; simp, List.Forall₂.cons hev hall⟩

/-- Witness of the amended C12: Set with 5 seconds, then GetOrSet of another
key with one minute, then Get of the first key, which L2 answers while the
write to L1 waits in the buffer, on the key-value tiers. -/
theorem l1_write_ttls_witness :
    ∃ blocks : List (List Event),
      [Event.call .L1 (.set "user:42" (.str "a") (5 * time.Second)),
       .call .L2 (.set "user:42" (.str "a") (5 * time.Second)),
       .call .L1 (.get "report:2024"), .call .L2 (.get "report:2024"), .fetch,
       .call .L2 (.set "report:2024" (.str "R1") time.Minute),
       .call .L1 (.set "report:2024" (.str "R1") time.Minute),
       .call .L1 (.get "user:42"), .call .L2 (.get "user:42"),
       .call .L1 (.set "user:42" (.str "a") (5 * time.Minute))]
        = emptyWorld.trace ++ blocks.flatten ∧
      List.Forall₂
        (fun r evs => ∀ k v t, Event.call .L1 (.set k v t) ∈ evs → r.l1Write = some (k, t))
        [Request.set "user:42" (.str "a") (5 * time.Second),
         Request.getOrSet "report:2024" time.Minute fetchR1,
         Request.get "user:42"] blocks :=
  l1_write_ttls kvHybrid
    [Request.set "user:42" (.str "a") (5 * time.Second),
     Request.getOrSet "report:2024" time.Minute fetchR1,
     Request.get "user:42"] emptyWorld
    { l1 := { storedItems := []
              setBuf := [.itemNew "user:42" { value := .str "a", ttl := 5 * time.Second },
                         .itemNew "report:2024" { value := .str "R1", ttl := time.Minute },
                         .itemNew "user:42" { value := .str "a", ttl := 5 * time.Minute }] }
      l2 := [("report:2024", "R1", time.Minute), ("user:42", "a", 5 * time.Second)]
      group := []
      trace := [Event.call .L1 (.set "user:42" (.str "a") (5 * time.Second)),
       .call .L2 (.set "user:42" (.str "a") (5 * time.Second)),
       .call .L1 (.get "report:2024"), .call .L2 (.get "report:2024"), .fetch,
       .call .L2 (.set "report:2024" (.str "R1") time.Minute),
       .call .L1 (.set "report:2024" (.str "R1") time.Minute),
       .call .L1 (.get "user:42"), .call .L2 (.get "user:42"),
       .call .L1 (.set "user:42" (.str "a") (5 * time.Minute))] }
    (by rfl)

/-! ## Concurrent GetOrSet calls -/

theorem HybridCache.runCalls_append (c : HybridCache σ₁ σ₂) (K : String) (ttl : Duration)
    (fetch : Unit → String × Option GoError) (a b : List Nat) (s : Process σ₁ σ₂) :
    c.runCalls K ttl fetch (a ++ b) s
      = (c.runCalls K ttl fetch a s).bind (c.runCalls K ttl fetch b) := by
  induction a generalizing s with
  | nil => rfl
  | cons i is ih =>
    simp only [List.cons_append, HybridCache.runCalls]
    cases c.stepCall K ttl fetch i s with
    | none => rfl
    | some s' => exact ih s'

theorem fetchCount_append_call (t : List Event) (tier : Tier) (op : Op) :
    fetchCount (t ++ [.call tier op]) = fetchCount t := by
  simp [fetchCount, List.count_append]

theorem fetchCount_append_fetch (t : List Event) :
    fetchCount (t ++ [.fetch]) = fetchCount t + 1 := by
  simp [fetchCount, List.count_append]

/-- Reads of n goroutines on a key that is cold in the two key-value tiers:
all of them miss both tiers and stand before the guard; the tiers and the
guard are as before and no fetch was invoked. -/
theorem reads_of_cold_key (K : String) (ttl : Duration)
    (fetch : Unit → String × Option GoError) (w : World Ristretto Redis)
    (h₁ : w.l1.Get K = none) (h₂ : List.lookup K w.l2 = none) (n : Nat) :
    ∃ s, kvHybrid.runCalls K ttl fetch (readsSchedule n) (Process.issued w) = some s ∧
      s.world.l1 = w.l1 ∧ s.world.l2 = w.l2 ∧ s.world.group = w.group ∧
      fetchCount s.world.trace = fetchCount w.trace ∧
      (∀ j, j < n → s.pcs j = .l2Missed) ∧ (∀ j, n ≤ j → s.pcs j = .start) := by
  induction n with
  | zero =>
    exact ⟨_, rfl, rfl, rfl, rfl, rfl, fun j hj => absurd hj (Nat.not_lt_zero j),
      fun j _ => rfl⟩
  | succ n ih =>
    obtain ⟨s, hrun, hl1, hl2, hg, hf, hlt, hge⟩ := ih
    have hpc : s.pcs n = .start := hge n (Nat.le_refl n)
    have hm₁ : s.world.l1.Get K = none := by rw [hl1]; exact h₁
    have hm₂ : List.lookup K s.world.l2 = none := by rw [hl2]; exact h₂
    refine ⟨⟨(s.world.log (.call .L1 (.get K))).log (.call .L2 (.get K)),
      Function.update (Function.update s.pcs n .l1Missed) n .l2Missed⟩, ?_, hl1, hl2, hg, ?_,
      ?_, ?_⟩
    · rw [readsSchedule, HybridCache.runCalls_append, hrun]
      simp [HybridCache.runCalls, HybridCache.stepCall, hpc, HybridCache.localGet,
        HybridCache.remoteGet, kvHybrid, RistrettoCache, RistrettoCache.Get, RedisCache,
        RedisCache.Get, hm₁, hm₂, World.log]
    · simp only [World.log, fetchCount_append_call]
      exact hf
    · intro j hj
      by_cases hjn : j = n
      · subst hjn; simp
      · have : j < n := by omega
        simp [Function.update, hjn, hlt j this]
    · intro j hj
      have hjn : j ≠ n := by omega
      simp [Function.update, hjn, hge j (by omega)]
theorem HybridCache.localGet_group (c : HybridCache σ₁ σ₂) {K : String} {w w' : World σ₁ σ₂}
    {r : String × Option GoError} (h : c.localGet K w = some (r, w')) :
    w'.group = w.group := by
  unfold HybridCache.localGet at h
  split at h
  · exact absurd h (by simp)
  · simp only [Option.some.injEq, Prod.mk.injEq] at h
    rw [← h.2]; rfl

theorem HybridCache.remoteGet_group (c : HybridCache σ₁ σ₂) {K : String} {w w' : World σ₁ σ₂}
    {r : String × Option GoError} (h : c.remoteGet K w = some (r, w')) :
    w'.group = w.group := by
  unfold HybridCache.remoteGet at h
  split at h
  · exact absurd h (by simp)
  · simp only [Option.some.injEq, Prod.mk.injEq] at h
    rw [← h.2]; rfl

/-- What one step of goroutine `i` does to the positions, the guard and the
number of fetch invocations, by the position of `i`. -/
theorem HybridCache.stepCall_spec (c : HybridCache σ₁ σ₂) (K : String) (ttl : Duration)
    (fetch : Unit → String × Option GoError) (i : Nat) (s s' : Process σ₁ σ₂)
    (h : c.stepCall K ttl fetch i s = some s') :
    match s.pcs i with
    | .start =>
      s'.world.group = s.world.group ∧
      fetchCount s'.world.trace = fetchCount s.world.trace ∧
      ((∃ v, s'.pcs = Function.update s.pcs i (.done (v, none))) ∨
        s'.pcs = Function.update s.pcs i .l1Missed)
    | .l1Missed =>
      s'.world.group = s.world.group ∧
      fetchCount s'.world.trace = fetchCount s.world.trace ∧
      ((∃ v, s'.pcs = Function.update s.pcs i (.l2Hit v)) ∨
        s'.pcs = Function.update s.pcs i .l2Missed)
    | .l2Hit v =>
      s'.world.group = s.world.group ∧
      fetchCount s'.world.trace = fetchCount s.world.trace ∧
      s'.pcs = Function.update s.pcs i (.done (v, none))
    | .l2Missed =>
      fetchCount s'.world.trace = fetchCount s.world.trace ∧
      ((K ∈ s.world.group ∧ s'.world.group = s.world.group ∧
          s'.pcs = Function.update s.pcs i .waiting) ∨
       (K ∉ s.world.group ∧ s'.world.group = K :: s.world.group ∧
          s'.pcs = Function.update s.pcs i .leading))
    | .leading =>
      s'.world.group = s.world.group ∧
      fetchCount s'.world.trace = fetchCount s.world.trace + 1 ∧
      ((∃ d e, fetch () = (d, some e) ∧
          s'.pcs = Function.update s.pcs i (.finishing ("", some e))) ∨
       (∃ d, fetch () = (d, none) ∧ s'.pcs = Function.update s.pcs i (.fetched d)))
    | .fetched d =>
      s'.world.group = s.world.group ∧
      fetchCount s'.world.trace = fetchCount s.world.trace ∧
      s'.pcs = Function.update s.pcs i (.l2Written d)
    | .l2Written d =>
      s'.world.group = s.world.group ∧
      fetchCount s'.world.trace = fetchCount s.world.trace ∧
      s'.pcs = Function.update s.pcs i (.finishing (d, none))
    | .finishing r =>
      s'.world.group = s.world.group.erase K ∧
      fetchCount s'.world.trace = fetchCount s.world.trace ∧
      s'.pcs = fun j =>
        if j = i then .done (HybridCache.afterDo r)
        else match s.pcs j with
          | .waiting => .done (HybridCache.afterDo r)
          | p => p
    | .waiting => s' = s
    | .done _ => s' = s := by
  unfold HybridCache.stepCall at h
  cases hpc : s.pcs i with
  | start =>
    simp only [hpc] at h ⊢
    cases h₁ : c.localGet K s.world with
    | none => simp [h₁] at h
    | some p =>
      obtain ⟨⟨v, e⟩, w⟩ := p
      have hg := c.localGet_group h₁
      have ht := c.localGet_trace h₁
      cases e with
      | none =>
        simp only [h₁, Option.some.injEq] at h
        subst h
        exact ⟨hg, by simp only [ht, fetchCount_append_call], Or.inl ⟨v, rfl⟩⟩
      | some e =>
        simp only [h₁, Option.some.injEq] at h
        subst h
        exact ⟨hg, by simp only [ht, fetchCount_append_call], Or.inr rfl⟩
  | l1Missed =>
    simp only [hpc] at h ⊢
    cases h₁ : c.remoteGet K s.world with
    | none => simp [h₁] at h
    | some p =>
      obtain ⟨⟨v, e⟩, w⟩ := p
      have hg := c.remoteGet_group h₁
      have ht := c.remoteGet_trace h₁
      cases e with
      | none =>
        simp only [h₁, Option.some.injEq] at h
        subst h
        exact ⟨hg, by simp only [ht, fetchCount_append_call], Or.inl ⟨v, rfl⟩⟩
      | some e =>
        simp only [h₁, Option.some.injEq] at h
        subst h
        exact ⟨hg, by simp only [ht, fetchCount_append_call], Or.inr rfl⟩
  | l2Hit v =>
    simp only [hpc] at h ⊢
    cases h₁ : c.localSet K (.str v) ttl s.world with
    | none => simp [h₁] at h
    | some p =>
      obtain ⟨x, w⟩ := p
      have ht := c.localSet_trace h₁
      simp only [h₁, Option.some.injEq] at h
      subst h
      exact ⟨ht.2, by simp only [ht.1, fetchCount_append_call], rfl⟩
  | l2Missed =>
    simp only [hpc] at h ⊢
    by_cases hk : K ∈ s.world.group
    · simp only [hk, if_true, Option.some.injEq] at h
      subst h
      exact ⟨rfl, Or.inl ⟨hk, rfl, rfl⟩⟩
    · simp only [hk, if_false, Option.some.injEq] at h
      subst h
      exact ⟨rfl, Or.inr ⟨hk, rfl, rfl⟩⟩
  | leading =>
    simp only [hpc] at h ⊢
    cases hf : fetch () with
    | mk d ef =>
      cases ef with
      | some e =>
        simp only [hf, Option.some.injEq] at h
        subst h
        exact ⟨rfl, by simp only [World.log, fetchCount_append_fetch], Or.inl ⟨d, e, rfl, rfl⟩⟩
      | none =>
        simp only [hf, Option.some.injEq] at h
        subst h
        exact ⟨rfl, by simp only [World.log, fetchCount_append_fetch], Or.inr ⟨d, rfl, rfl⟩⟩
  | fetched d =>
    simp only [hpc] at h ⊢
    cases h₁ : c.remoteSet K (.str d) ttl s.world with
    | none => simp [h₁] at h
    | some p =>
      obtain ⟨x, w⟩ := p
      have ht := c.remoteSet_trace h₁
      simp only [h₁, Option.some.injEq] at h
      subst h
      exact ⟨ht.2, by simp only [ht.1, fetchCount_append_call], rfl⟩
  | l2Written d =>
    simp only [hpc] at h ⊢
    cases h₁ : c.localSet K (.str d) ttl s.world with
    | none => simp [h₁] at h
    | some p =>
      obtain ⟨x, w⟩ := p
      have ht := c.localSet_trace h₁
      simp only [h₁, Option.some.injEq] at h
      subst h
      exact ⟨ht.2, by simp only [ht.1, fetchCount_append_call], rfl⟩
  | finishing r =>
    simp only [hpc, Option.some.injEq] at h ⊢
    subst h
    exact ⟨rfl, rfl, rfl⟩
  | waiting =>
    simp only [hpc, Option.some.injEq] at h ⊢
    exact h.symm
  | done r =>
    simp only [hpc, Option.some.injEq] at h ⊢
    exact h.symm
/-- Goroutines 0 to n enter the guard one after the other with no fetch in
flight before: goroutine 0 becomes the fetch in flight, the others wait for
it; no tier is called. -/
theorem enter_guard (c : HybridCache σ₁ σ₂) (K : String) (ttl : Duration)
    (fetch : Unit → String × Option GoError) (s₀ : Process σ₁ σ₂)
    (hk : K ∉ s₀.world.group) (n : Nat) (hpc : ∀ j, j ≤ n → s₀.pcs j = .l2Missed) :
    ∃ s, c.runCalls K ttl fetch (enterSchedule (n + 1)) s₀ = some s ∧
      s.world = { s₀.world with group := K :: s₀.world.group } ∧
      s.pcs 0 = .leading ∧ (∀ j, 1 ≤ j → j ≤ n → s.pcs j = .waiting) ∧
      (∀ j, n < j → s.pcs j = s₀.pcs j) := by
  induction n with
  | zero =>
    refine ⟨⟨{ s₀.world with group := K :: s₀.world.group },
      Function.update s₀.pcs 0 .leading⟩, ?_, rfl, by simp, ?_, ?_⟩
    · simp [enterSchedule, HybridCache.runCalls, HybridCache.stepCall, hpc 0 (Nat.le_refl 0), hk]
    · intro j h1 h0
      omega
    · intro j hj
      have : j ≠ 0 := by omega
      simp [Function.update, this]
  | succ n ih =>
    obtain ⟨s, hrun, hw, h0, hwait, hrest⟩ := ih (fun j hj => hpc j (by omega))
    have hpcn : s.pcs (n + 1) = .l2Missed := by
      rw [hrest (n + 1) (by omega)]; exact hpc (n + 1) (Nat.le_refl _)
    have hin : K ∈ s.world.group := by rw [hw]; simp
    refine ⟨⟨s.world, Function.update s.pcs (n + 1) .waiting⟩, ?_, hw, ?_, ?_, ?_⟩
    · rw [enterSchedule, HybridCache.runCalls_append, hrun]
      simp [HybridCache.runCalls, HybridCache.stepCall, hpcn, hin]
    · simp [Function.update, h0]
    · intro j h1 hj
      by_cases hjn : j = n + 1
      · subst hjn; simp
      · simp [Function.update, hjn, hwait j h1 (by omega)]
    · intro j hj
      have : j ≠ n + 1 := by omega
      simp [Function.update, this, hrest j (by omega)]

/-- A goroutine that runs its call alone, step by step, does what the method
`HybridCache.GetOrSet` does: same result, same world. -/
theorem HybridCache.runCalls_alone (c : HybridCache σ₁ σ₂) (K : String) (ttl : Duration)
    (fetch : Unit → String × Option GoError) (w : World σ₁ σ₂) (hk : K ∉ w.group) :
    (c.runCalls K ttl fetch [0, 0, 0, 0, 0, 0, 0] (Process.issued w)).map
        (fun s => (s.pcs 0, s.world))
      = (c.GetOrSet K ttl fetch w).map (fun p => (CallPc.done p.1, p.2)) := by
  cases h₁ : c.localGet K w with
  | none => simp [HybridCache.runCalls, HybridCache.stepCall, Process.issued,
      HybridCache.GetOrSet, h₁]
  | some p₁ =>
    obtain ⟨⟨v₁, e₁⟩, w₁⟩ := p₁
    cases e₁ with
    | none => simp [HybridCache.runCalls, HybridCache.stepCall, Process.issued,
        HybridCache.GetOrSet, h₁]
    | some e₁ =>
      cases h₂ : c.remoteGet K w₁ with
      | none => simp [HybridCache.runCalls, HybridCache.stepCall, Process.issued,
          HybridCache.GetOrSet, h₁, h₂]
      | some p₂ =>
        obtain ⟨⟨v₂, e₂⟩, w₂⟩ := p₂
        cases e₂ with
        | none =>
          cases h₃ : c.localSet K (.str v₂) ttl w₂ with
          | none => simp [HybridCache.runCalls, HybridCache.stepCall, Process.issued,
              HybridCache.GetOrSet, h₁, h₂, h₃]
          | some p₃ => simp [HybridCache.runCalls, HybridCache.stepCall, Process.issued,
              HybridCache.GetOrSet, h₁, h₂, h₃]
        | some e₂ =>
          have hk₂ : K ∉ w₂.group := by
            rw [c.remoteGet_group h₂, c.localGet_group h₁]; exact hk
          cases hf : fetch () with
          | mk data ef =>
            cases ef with
            | some e =>
              simp [HybridCache.runCalls, HybridCache.stepCall, Process.issued,
                HybridCache.GetOrSet, Group.Do, HybridCache.fill, HybridCache.afterDo,
                h₁, h₂, hk₂, hf, World.log]
            | none =>
              cases h₃ : c.remoteSet K (.str data) ttl
                  ({ w₂ with group := K :: w₂.group }.log .fetch) with
              | none =>
                simp [HybridCache.runCalls, HybridCache.stepCall, Process.issued,
                  HybridCache.GetOrSet, Group.Do, HybridCache.fill, h₁, h₂, hk₂, hf, h₃,
                  World.log] 
                simp [World.log] at h₃
                simp [h₃]
              | some p₃ =>
                obtain ⟨x₂, w₃⟩ := p₃
                cases h₄ : c.localSet K (.str data) ttl w₃ with
                | none =>
                  simp [World.log] at h₃
                  simp [HybridCache.runCalls, HybridCache.stepCall, Process.issued,
                    HybridCache.GetOrSet, Group.Do, HybridCache.fill, h₁, h₂, hk₂, hf, h₃, h₄,
                    World.log]
                | some p₄ =>
                  obtain ⟨x₁, w₄⟩ := p₄
                  simp [World.log] at h₃
                  simp [HybridCache.runCalls, HybridCache.stepCall, Process.issued,
                    HybridCache.GetOrSet, Group.Do, HybridCache.fill, HybridCache.afterDo,
                    h₁, h₂, hk₂, hf, h₃, h₄, World.log]

/-- A step of one of the first N goroutines keeps the invariant. -/
theorem HybridCache.coalescing_step (c : HybridCache σ₁ σ₂) (K : String) (ttl : Duration)
    (fetch : Unit → String × Option GoError) (N base i : Nat) (hi : i < N)
    (s s' : Process σ₁ σ₂) (h : c.stepCall K ttl fetch i s = some s')
    (hJ : Coalescing K fetch N base s) : Coalescing K fetch N base s' := by
  have spec := c.stepCall_spec K ttl fetch i s s' h
  rcases hJ with ⟨j, hj, hp⟩ | ⟨hk, hc, hall⟩ | ⟨l, hl, hk, hok, hall⟩
  · -- some goroutine was served: it stays served
    refine Or.inl ⟨j, hj, ?_⟩
    by_cases hji : j = i
    · subst hji
      cases hpc : s.pcs j with
      | l2Hit v =>
        simp only [hpc] at spec
        rw [spec.2.2]; simp [CallPc.served]
      | done r =>
        simp only [hpc] at spec
        rw [spec, hpc]; rfl
      | start => rw [hpc] at hp; exact absurd hp (by decide)
      | l1Missed => rw [hpc] at hp; exact absurd hp (by decide)
      | l2Missed => rw [hpc] at hp; exact absurd hp (by decide)
      | leading => rw [hpc] at hp; exact absurd hp (by decide)
      | fetched d => rw [hpc] at hp; exact absurd hp (by simp [CallPc.served])
      | l2Written d => rw [hpc] at hp; exact absurd hp (by simp [CallPc.served])
      | finishing r => rw [hpc] at hp; exact absurd hp (by simp [CallPc.served])
      | waiting => rw [hpc] at hp; exact absurd hp (by decide)
    · cases hpc : s.pcs i with
      | start =>
        simp only [hpc] at spec
        rcases spec.2.2 with ⟨v, hv⟩ | hv <;> simp [hv, Function.update, hji, hp]
      | l1Missed =>
        simp only [hpc] at spec
        rcases spec.2.2 with ⟨v, hv⟩ | hv <;> simp [hv, Function.update, hji, hp]
      | l2Hit v =>
        simp only [hpc] at spec
        simp [spec.2.2, Function.update, hji, hp]
      | l2Missed =>
        simp only [hpc] at spec
        rcases spec.2 with ⟨-, -, hv⟩ | ⟨-, -, hv⟩ <;> simp [hv, Function.update, hji, hp]
      | leading =>
        simp only [hpc] at spec
        rcases spec.2.2 with ⟨d, e, -, hv⟩ | ⟨d, -, hv⟩ <;>
          simp [hv, Function.update, hji, hp]
      | fetched d =>
        simp only [hpc] at spec
        simp [spec.2.2, Function.update, hji, hp]
      | l2Written d =>
        simp only [hpc] at spec
        simp [spec.2.2, Function.update, hji, hp]
      | finishing r =>
        simp only [hpc] at spec
        rw [spec.2.2]
        simp only [hji, if_false]
        cases hpj : s.pcs j <;> simp_all [CallPc.served]
      | waiting =>
        simp only [hpc] at spec
        rw [spec]; exact hp
      | done r =>
        simp only [hpc] at spec
        rw [spec]; exact hp
  · -- nobody has entered the guard
    have hbi := hall i hi
    cases hpc : s.pcs i with
    | start =>
      simp only [hpc] at spec
      obtain ⟨hg, hcount, hv⟩ := spec
      rcases hv with ⟨v, hv⟩ | hv
      · exact Or.inl ⟨i, hi, by simp [hv, CallPc.served]⟩
      · refine Or.inr (Or.inl ⟨by rw [hg]; exact hk, by rw [hcount]; exact hc, fun j hj => ?_⟩)
        by_cases hji : j = i
        · simp [hv, hji, CallPc.beforeGuard]
        · simp [hv, Function.update, hji, hall j hj]
    | l1Missed =>
      simp only [hpc] at spec
      obtain ⟨hg, hcount, hv⟩ := spec
      rcases hv with ⟨v, hv⟩ | hv
      · exact Or.inl ⟨i, hi, by simp [hv, CallPc.served]⟩
      · refine Or.inr (Or.inl ⟨by rw [hg]; exact hk, by rw [hcount]; exact hc, fun j hj => ?_⟩)
        by_cases hji : j = i
        · simp [hv, hji, CallPc.beforeGuard]
        · simp [hv, Function.update, hji, hall j hj]
    | l2Missed =>
      simp only [hpc] at spec
      obtain ⟨hcount, hv⟩ := spec
      rcases hv with ⟨hin, -, -⟩ | ⟨-, hg, hv⟩
      · exact absurd hin hk
      · refine Or.inr (Or.inr ⟨i, hi, by rw [hg]; simp, ?_, fun j hj hji => ?_⟩)
        · simp [hv, LeaderOk, hcount, hc]
        · exact Or.inl (by simp [hv, Function.update, hji, hall j hj])
    | l2Hit v => rw [hpc] at hbi; exact absurd hbi (by simp [CallPc.beforeGuard])
    | leading => rw [hpc] at hbi; exact absurd hbi (by decide)
    | fetched d => rw [hpc] at hbi; exact absurd hbi (by simp [CallPc.beforeGuard])
    | l2Written d => rw [hpc] at hbi; exact absurd hbi (by simp [CallPc.beforeGuard])
    | finishing r => rw [hpc] at hbi; exact absurd hbi (by simp [CallPc.beforeGuard])
    | waiting => rw [hpc] at hbi; exact absurd hbi (by decide)
    | done r => rw [hpc] at hbi; exact absurd hbi (by simp [CallPc.beforeGuard])
  · -- one fetch is in flight
    by_cases hil : i = l
    · subst hil
      have hothers : ∀ (p : CallPc) (j : Nat), j < N → j ≠ i →
          (Function.update s.pcs i p j).beforeGuard = true ∨
            Function.update s.pcs i p j = .waiting := by
        intro p j hj hji
        simpa [Function.update, hji] using hall j hj hji
      cases hpc : s.pcs i with
      | leading =>
        simp only [hpc] at spec
        obtain ⟨hg, hcount, hv⟩ := spec
        rw [hpc] at hok
        simp only [LeaderOk] at hok
        rcases hv with ⟨d, e, hf, hv⟩ | ⟨d, hf, hv⟩
        · refine Or.inr (Or.inr ⟨i, hi, by rw [hg]; exact hk, ?_, ?_⟩)
          · simp [hv, LeaderOk, hf, HybridCache.afterDo, hcount, hok]
          · rw [hv]; exact hothers _
        · refine Or.inr (Or.inr ⟨i, hi, by rw [hg]; exact hk, ?_, ?_⟩)
          · simp [hv, LeaderOk, hf, hcount, hok]
          · rw [hv]; exact hothers _
      | fetched d =>
        simp only [hpc] at spec
        obtain ⟨hg, hcount, hv⟩ := spec
        rw [hpc] at hok
        simp only [LeaderOk] at hok
        refine Or.inr (Or.inr ⟨i, hi, by rw [hg]; exact hk, ?_, ?_⟩)
        · simp [hv, LeaderOk, hok.1, hcount, hok.2]
        · rw [hv]; exact hothers _
      | l2Written d =>
        simp only [hpc] at spec
        obtain ⟨hg, hcount, hv⟩ := spec
        rw [hpc] at hok
        simp only [LeaderOk] at hok
        refine Or.inr (Or.inr ⟨i, hi, by rw [hg]; exact hk, ?_, ?_⟩)
        · simp [hv, LeaderOk, hok.1, hcount, hok.2, HybridCache.afterDo]
        · rw [hv]; exact hothers _
      | finishing r =>
        simp only [hpc] at spec
        exact Or.inl ⟨i, hi, by simp [spec.2.2, CallPc.served]⟩
      | start => rw [hpc] at hok; exact absurd hok (by simp [LeaderOk])
      | l1Missed => rw [hpc] at hok; exact absurd hok (by simp [LeaderOk])
      | l2Hit v => rw [hpc] at hok; exact absurd hok (by simp [LeaderOk])
      | l2Missed => rw [hpc] at hok; exact absurd hok (by simp [LeaderOk])
      | waiting => rw [hpc] at hok; exact absurd hok (by simp [LeaderOk])
      | done r => rw [hpc] at hok; exact absurd hok (by simp [LeaderOk])
    · have hbi := hall i hi hil
      have hkeep : ∀ (p : CallPc), (p.beforeGuard = true ∨ p = .waiting) →
          s'.world.group = s.world.group →
          fetchCount s'.world.trace = fetchCount s.world.trace →
          s'.pcs = Function.update s.pcs i p → Coalescing K fetch N base s' := by
        intro p hp hg hcount hv
        refine Or.inr (Or.inr ⟨l, hl, by rw [hg]; exact hk, ?_, fun j hj hjl => ?_⟩)
        · have hne : l ≠ i := fun e => hil e.symm
          simpa [hv, Function.update, hne, hcount] using hok
        · by_cases hji : j = i
          · subst hji; simpa [hv] using hp
          · simpa [hv, Function.update, hji] using hall j hj hjl
      cases hpc : s.pcs i with
      | start =>
        simp only [hpc] at spec
        obtain ⟨hg, hcount, hv⟩ := spec
        rcases hv with ⟨v, hv⟩ | hv
        · exact Or.inl ⟨i, hi, by simp [hv, CallPc.served]⟩
        · exact hkeep .l1Missed (Or.inl rfl) hg hcount hv
      | l1Missed =>
        simp only [hpc] at spec
        obtain ⟨hg, hcount, hv⟩ := spec
        rcases hv with ⟨v, hv⟩ | hv
        · exact Or.inl ⟨i, hi, by simp [hv, CallPc.served]⟩
        · exact hkeep .l2Missed (Or.inl rfl) hg hcount hv
      | l2Missed =>
        simp only [hpc] at spec
        obtain ⟨hcount, hv⟩ := spec
        rcases hv with ⟨-, hg, hv⟩ | ⟨hnin, -, -⟩
        · exact hkeep .waiting (Or.inr rfl) hg hcount hv
        · exact absurd hk hnin
      | waiting =>
        simp only [hpc] at spec
        rw [spec]
        exact Or.inr (Or.inr ⟨l, hl, hk, hok, hall⟩)
      | l2Hit v =>
        rw [hpc] at hbi; exact absurd hbi (by simp [CallPc.beforeGuard])
      | leading => rw [hpc] at hbi; exact absurd hbi (by simp [CallPc.beforeGuard])
      | fetched d => rw [hpc] at hbi; exact absurd hbi (by simp [CallPc.beforeGuard])
      | l2Written d => rw [hpc] at hbi; exact absurd hbi (by simp [CallPc.beforeGuard])
      | finishing r => rw [hpc] at hbi; exact absurd hbi (by simp [CallPc.beforeGuard])
      | done r => rw [hpc] at hbi; exact absurd hbi (by simp [CallPc.beforeGuard])
/-- A schedule of the first N goroutines keeps the invariant. -/
theorem HybridCache.coalescing_run (c : HybridCache σ₁ σ₂) (K : String) (ttl : Duration)
    (fetch : Unit → String × Option GoError) (N base : Nat) (sched : List Nat)
    (hsched : ∀ i, i ∈ sched → i < N) (s s' : Process σ₁ σ₂)
    (h : c.runCalls K ttl fetch sched s = some s')
    (hJ : Coalescing K fetch N base s) : Coalescing K fetch N base s' := by
  induction sched generalizing s with
  | nil =>
    simp only [HybridCache.runCalls, Option.some.injEq] at h
    rw [← h]; exact hJ
  | cons i is ih =>
    cases h₁ : c.stepCall K ttl fetch i s with
    | none => simp [HybridCache.runCalls, h₁] at h
    | some s₁ =>
      simp only [HybridCache.runCalls, h₁] at h
      exact ih (fun j hj => hsched j (List.mem_cons_of_mem i hj)) s₁ h
        (c.coalescing_step K ttl fetch N base i (hsched i (List.mem_cons_self i is)) s s₁ h₁ hJ)

/-- A goroutine that has returned does nothing more. -/
theorem HybridCache.runCalls_done (c : HybridCache σ₁ σ₂) (K : String) (ttl : Duration)
    (fetch : Unit → String × Option GoError) (l : Nat) (s : Process σ₁ σ₂)
    (r : String × Option GoError) (hpc : s.pcs l = .done r) (k : Nat) :
    c.runCalls K ttl fetch (List.replicate k l) s = some s := by
  induction k with
  | zero => rfl
  | succ k ih =>
    simp only [List.replicate_succ, HybridCache.runCalls, HybridCache.stepCall, hpc]
    exact ih

/-- The fetch in flight leaves the guard: it and every waiter return the
result of the closure. -/
theorem HybridCache.finish_from_finishing (c : HybridCache σ₁ σ₂) (K : String)
    (ttl : Duration) (fetch : Unit → String × Option GoError) (N l : Nat)
    (s : Process σ₁ σ₂) (r : String × Option GoError) (hpc : s.pcs l = .finishing r)
    (hwait : ∀ j, j < N → j ≠ l → s.pcs j = .waiting) (k : Nat) :
    ∃ s', c.runCalls K ttl fetch (List.replicate (1 + k) l) s = some s' ∧
      (∀ j, j < N → s'.pcs j = .done (HybridCache.afterDo r)) ∧
      fetchCount s'.world.trace = fetchCount s.world.trace := by
  have hstep : c.stepCall K ttl fetch l s
      = some ⟨{ s.world with group := s.world.group.erase K },
          fun j => if j = l then .done (HybridCache.afterDo r)
            else match s.pcs j with
              | .waiting => .done (HybridCache.afterDo r)
              | p => p⟩ := by
    simp only [HybridCache.stepCall, hpc]
  refine ⟨⟨{ s.world with group := s.world.group.erase K },
          fun j => if j = l then .done (HybridCache.afterDo r)
            else match s.pcs j with
              | .waiting => .done (HybridCache.afterDo r)
              | p => p⟩, ?_, ?_, ?_⟩
  · rw [Nat.add_comm, List.replicate_succ]
    simp only [HybridCache.runCalls, hstep]
    exact c.runCalls_done K ttl fetch l _ (HybridCache.afterDo r) (by simp) k
  · intro j hj
    by_cases hjl : j = l
    · simp [hjl]
    · simp [hjl, hwait j hj hjl]
  · rfl

/-- The fetch in flight, after its write to L2, writes L1 and leaves the
guard. -/
theorem HybridCache.finish_from_l2Written (c : HybridCache σ₁ σ₂)
    (hret₁ : ∀ k v t s, ∃ p, c.local_.Set k v t s = some p)
    (K : String) (ttl : Duration) (fetch : Unit → String × Option GoError) (N l : Nat)
    (s : Process σ₁ σ₂) (d : String) (hpc : s.pcs l = .l2Written d)
    (hwait : ∀ j, j < N → j ≠ l → s.pcs j = .waiting) (k : Nat) :
    ∃ s', c.runCalls K ttl fetch (List.replicate (2 + k) l) s = some s' ∧
      (∀ j, j < N → s'.pcs j = .done (d, none)) ∧
      fetchCount s'.world.trace = fetchCount s.world.trace := by
  obtain ⟨⟨x, t⟩, hset⟩ := hret₁ K (.str d) ttl s.world.l1
  have hstep : c.stepCall K ttl fetch l s
      = some ⟨{ s.world with l1 := t }.log (.call .L1 (.set K (.str d) ttl)),
          Function.update s.pcs l (.finishing (d, none))⟩ := by
    simp only [HybridCache.stepCall, hpc, HybridCache.localSet, hset]
  obtain ⟨s', hrun, hdone, hcount⟩ := c.finish_from_finishing K ttl fetch N l
    ⟨{ s.world with l1 := t }.log (.call .L1 (.set K (.str d) ttl)),
      Function.update s.pcs l (.finishing (d, none))⟩ (d, none) (by simp)
    (fun j hj hjl => by simp [Function.update, hjl, hwait j hj hjl]) k
  refine ⟨s', ?_, hdone, ?_⟩
  · have : 2 + k = (1 + k) + 1 := by omega
    rw [this, List.replicate_succ]
    simp only [HybridCache.runCalls, hstep]
    exact hrun
  · rw [hcount]
    simp only [World.log, fetchCount_append_call]

/-- The fetch in flight, after its fetch, writes L2, writes L1 and leaves the
guard. -/
theorem HybridCache.finish_from_fetched (c : HybridCache σ₁ σ₂)
    (hret₁ : ∀ k v t s, ∃ p, c.local_.Set k v t s = some p)
    (hret₂ : ∀ k v t s, ∃ p, c.remote.Set k v t s = some p)
    (K : String) (ttl : Duration) (fetch : Unit → String × Option GoError) (N l : Nat)
    (s : Process σ₁ σ₂) (d : String) (hpc : s.pcs l = .fetched d)
    (hwait : ∀ j, j < N → j ≠ l → s.pcs j = .waiting) (k : Nat) :
    ∃ s', c.runCalls K ttl fetch (List.replicate (3 + k) l) s = some s' ∧
      (∀ j, j < N → s'.pcs j = .done (d, none)) ∧
      fetchCount s'.world.trace = fetchCount s.world.trace := by
  obtain ⟨⟨x, t⟩, hset⟩ := hret₂ K (.str d) ttl s.world.l2
  have hstep : c.stepCall K ttl fetch l s
      = some ⟨{ s.world with l2 := t }.log (.call .L2 (.set K (.str d) ttl)),
          Function.update s.pcs l (.l2Written d)⟩ := by
    simp only [HybridCache.stepCall, hpc, HybridCache.remoteSet, hset]
  obtain ⟨s', hrun, hdone, hcount⟩ := c.finish_from_l2Written hret₁ K ttl fetch N l
    ⟨{ s.world with l2 := t }.log (.call .L2 (.set K (.str d) ttl)),
      Function.update s.pcs l (.l2Written d)⟩ d (by simp)
    (fun j hj hjl => by simp [Function.update, hjl, hwait j hj hjl]) k
  refine ⟨s', ?_, hdone, ?_⟩
  · have : 3 + k = (2 + k) + 1 := by omega
    rw [this, List.replicate_succ]
    simp only [HybridCache.runCalls, hstep]
    exact hrun
  · rw [hcount]
    simp only [World.log, fetchCount_append_call]

/-- The fetch in flight, from any of its positions, runs to its end within
four steps: every goroutine returns the result of the one fetch. -/
theorem HybridCache.finish_in_flight (c : HybridCache σ₁ σ₂)
    (hret₁ : ∀ k v t s, ∃ p, c.local_.Set k v t s = some p)
    (hret₂ : ∀ k v t s, ∃ p, c.remote.Set k v t s = some p)
    (K : String) (ttl : Duration) (fetch : Unit → String × Option GoError) (N base l : Nat)
    (s : Process σ₁ σ₂) (hok : LeaderOk fetch base (s.pcs l) (fetchCount s.world.trace))
    (hwait : ∀ j, j < N → j ≠ l → s.pcs j = .waiting) :
    ∃ s', c.runCalls K ttl fetch [l, l, l, l] s = some s' ∧
      (∀ j, j < N → s'.pcs j = .done (HybridCache.afterDo (fetch ()))) ∧
      fetchCount s'.world.trace = base + 1 := by
  have h4 : [l, l, l, l] = List.replicate 4 l := rfl
  rw [h4]
  cases hpc : s.pcs l with
  | leading =>
    rw [hpc] at hok
    simp only [LeaderOk] at hok
    cases hf : fetch () with
    | mk d ef =>
      have hothers : ∀ (p : CallPc) (j : Nat), j < N → j ≠ l →
          Function.update s.pcs l p j = .waiting := by
        intro p j hj hjl
        simp [Function.update, hjl, hwait j hj hjl]
      cases ef with
      | some e =>
        have hstep : c.stepCall K ttl fetch l s
            = some ⟨s.world.log .fetch,
                Function.update s.pcs l (.finishing ("", some e))⟩ := by
          simp only [HybridCache.stepCall, hpc, hf]
        obtain ⟨s', hrun, hdone, hcount⟩ := c.finish_from_finishing K ttl fetch N l
          ⟨s.world.log .fetch, Function.update s.pcs l (.finishing ("", some e))⟩
          ("", some e) (by simp) (hothers _) 2
        refine ⟨s', ?_, ?_, ?_⟩
        · rw [List.replicate_succ]
          simp only [HybridCache.runCalls, hstep]
          exact hrun
        · intro j hj
          rw [hdone j hj]; simp [HybridCache.afterDo]
        · rw [hcount]
          simp only [World.log, fetchCount_append_fetch, hok]
      | none =>
        have hstep : c.stepCall K ttl fetch l s
            = some ⟨s.world.log .fetch, Function.update s.pcs l (.fetched d)⟩ := by
          simp only [HybridCache.stepCall, hpc, hf]
        obtain ⟨s', hrun, hdone, hcount⟩ := c.finish_from_fetched hret₁ hret₂ K ttl fetch N l
          ⟨s.world.log .fetch, Function.update s.pcs l (.fetched d)⟩ d (by simp)
          (hothers _) 0
        refine ⟨s', ?_, ?_, ?_⟩
        · rw [List.replicate_succ]
          simp only [HybridCache.runCalls, hstep]
          exact hrun
        · intro j hj
          rw [hdone j hj]; simp [HybridCache.afterDo]
        · rw [hcount]
          simp only [World.log, fetchCount_append_fetch, hok]
  | fetched d =>
    rw [hpc] at hok
    simp only [LeaderOk] at hok
    obtain ⟨s', hrun, hdone, hcount⟩ :=
      c.finish_from_fetched hret₁ hret₂ K ttl fetch N l s d hpc hwait 1
    exact ⟨s', hrun, fun j hj => by rw [hdone j hj, hok.1]; rfl, by rw [hcount, hok.2]⟩
  | l2Written d =>
    rw [hpc] at hok
    simp only [LeaderOk] at hok
    obtain ⟨s', hrun, hdone, hcount⟩ :=
      c.finish_from_l2Written hret₁ K ttl fetch N l s d hpc hwait 2
    exact ⟨s', hrun, fun j hj => by rw [hdone j hj, hok.1]; rfl, by rw [hcount, hok.2]⟩
  | finishing r =>
    rw [hpc] at hok
    simp only [LeaderOk] at hok
    obtain ⟨s', hrun, hdone, hcount⟩ :=
      c.finish_from_finishing K ttl fetch N l s r hpc hwait 3
    exact ⟨s', hrun, fun j hj => by rw [hdone j hj, hok.1], by rw [hcount, hok.2]⟩
  | start => rw [hpc] at hok; exact absurd hok (by simp [LeaderOk])
  | l1Missed => rw [hpc] at hok; exact absurd hok (by simp [LeaderOk])
  | l2Hit v => rw [hpc] at hok; exact absurd hok (by simp [LeaderOk])
  | l2Missed => rw [hpc] at hok; exact absurd hok (by simp [LeaderOk])
  | waiting => rw [hpc] at hok; exact absurd hok (by simp [LeaderOk])
  | done r => rw [hpc] at hok; exact absurd hok (by simp [LeaderOk])
theorem mem_readsSchedule (n i : Nat) (h : i ∈ readsSchedule n) : i < n := by
  induction n with
  | zero => simp [readsSchedule] at h
  | succ n ih =>
    simp only [readsSchedule, List.mem_append, List.mem_cons, List.mem_singleton,
      List.not_mem_nil, or_false, or_self] at h
    rcases h with h | h
    · exact Nat.lt_succ_of_lt (ih h)
    · omega

theorem mem_enterSchedule (n i : Nat) (h : i ∈ enterSchedule n) : i < n := by
  induction n with
  | zero => simp [enterSchedule] at h
  | succ n ih =>
    simp only [enterSchedule, List.mem_append, List.mem_singleton] at h
    rcases h with h | h
    · exact Nat.lt_succ_of_lt (ih h)
    · omega

theorem mem_guardSchedule (n i : Nat) (h : i ∈ guardSchedule n) : i < n := by
  simp only [guardSchedule, List.mem_append] at h
  rcases h with h | h
  · exact mem_readsSchedule n i h
  · exact mem_enterSchedule n i h

/-- For every N >= 1 the schedule `guardSchedule N` brings N calls on a cold
key of the key-value tiers into the guard together, without any fetch. -/
theorem guardSchedule_in_guard (K : String) (ttl : Duration)
    (fetch : Unit → String × Option GoError) (w : World Ristretto Redis) (N : Nat)
    (hN : 1 ≤ N) (h₁ : w.l1.Get K = none) (h₂ : List.lookup K w.l2 = none)
    (hk : K ∉ w.group) :
    ∃ s, kvHybrid.runCalls K ttl fetch (guardSchedule N) (Process.issued w) = some s ∧
      ∀ j, j < N → (s.pcs j).inGuard = true := by
  obtain ⟨n, rfl⟩ : ∃ n, N = n + 1 := ⟨N - 1, by omega⟩
  obtain ⟨sR, hR, -, -, hgR, -, hltR, -⟩ := reads_of_cold_key K ttl fetch w h₁ h₂ (n + 1)
  obtain ⟨sE, hE, -, h0E, hwaitE, -⟩ :=
    enter_guard kvHybrid K ttl fetch sR (by rw [hgR]; exact hk) n
      (fun j hj => hltR j (by omega))
  refine ⟨sE, ?_, fun j hj => ?_⟩
  · rw [guardSchedule, HybridCache.runCalls_append, hR]
    simpa only [Option.some_bind] using hE
  · by_cases hj0 : j = 0
    · rw [hj0, h0E]; rfl
    · rw [hwaitE j (by omega) (by omega)]; rfl

/-- C11 as stated fails for N = 2.  Two calls of GetOrSet are issued on a key
cold in both key-value tiers; the second reads both tiers (two misses)
before the first has written them, and enters the guard after the fetch of
the first has completed: the guard holds no record any more and fetch is
invoked a second time.  Both calls return R1, and fetch ran twice. -/
theorem getOrSet_two_fetches_counterexample :
    ∃ s, kvHybrid.runCalls "report:2024" time.Minute fetchR1 lateEntrySchedule
        (Process.issued emptyWorld) = some s ∧
      s.pcs 0 = .done ("R1", none) ∧ s.pcs 1 = .done ("R1", none) ∧
      fetchCount s.world.trace = 2 :=
  ⟨_, rfl, rfl, rfl, by decide⟩

/-- C11, amended.  For every N >= 1, over any two tiers whose Set returns:
N calls of GetOrSet(K, ttl, fetch) are issued with no fetch for K in flight
and interleave in any way; whenever all N calls are inside the guard
together (each missed both tiers and entered the guard before the fetch of
the first entrant has completed), the fetch in flight completes within four
steps of its goroutine, after which all N calls have returned the same
result (the fetched value with nil, or the empty string with the error of
fetch) and fetch has been invoked exactly once since the calls were issued. -/
theorem getOrSet_coalesced (c : HybridCache σ₁ σ₂)
    (hret₁ : ∀ k v t s, ∃ p, c.local_.Set k v t s = some p)
    (hret₂ : ∀ k v t s, ∃ p, c.remote.Set k v t s = some p)
    (K : String) (ttl : Duration) (fetch : Unit → String × Option GoError)
    (w : World σ₁ σ₂) (hk : K ∉ w.group) (N : Nat) (hN : 1 ≤ N)
    (sched : List Nat) (hsched : ∀ i, i ∈ sched → i < N) (s : Process σ₁ σ₂)
    (hrun : c.runCalls K ttl fetch sched (Process.issued w) = some s)
    (hin : ∀ j, j < N → (s.pcs j).inGuard = true) :
    ∃ l s', l < N ∧ c.runCalls K ttl fetch [l, l, l, l] s = some s' ∧
      (∀ j, j < N → s'.pcs j = .done (HybridCache.afterDo (fetch ()))) ∧
      fetchCount s'.world.trace = fetchCount w.trace + 1 := by
  have hJ₀ : Coalescing K fetch N (fetchCount w.trace) (Process.issued w) :=
    Or.inr (Or.inl ⟨hk, rfl, fun _ _ => rfl⟩)
  have hJ := c.coalescing_run K ttl fetch N (fetchCount w.trace) sched hsched _ s hrun hJ₀
  have hns : ∀ p : CallPc, p.inGuard = true → p.served = false ∧ p.beforeGuard = false := by
    intro p hp
    cases p <;> simp_all [CallPc.inGuard, CallPc.served, CallPc.beforeGuard]
  rcases hJ with ⟨j, hj, hp⟩ | ⟨-, -, hall⟩ | ⟨l, hl, -, hok, hall⟩
  · rw [(hns _ (hin j hj)).1] at hp
    exact absurd hp (by decide)
  · have h0 := hall 0 (by omega)
    rw [(hns _ (hin 0 (by omega))).2] at h0
    exact absurd h0 (by decide)
  · have hwait : ∀ j, j < N → j ≠ l → s.pcs j = .waiting := by
      intro j hj hjl
      rcases hall j hj hjl with hb | hw
      · rw [(hns _ (hin j hj)).2] at hb
        exact absurd hb (by decide)
      · exact hw
    obtain ⟨s', hrun', hdone, hcount⟩ :=
      c.finish_in_flight hret₁ hret₂ K ttl fetch N (fetchCount w.trace) l s hok hwait
    exact ⟨l, s', hl, hrun', hdone, hcount⟩

/-- Witness of the amended C11: three calls on the cold key report:2024 of
the key-value tiers, brought into the guard together. -/
theorem getOrSet_coalesced_witness :
    ∃ s l s', kvHybrid.runCalls "report:2024" time.Minute fetchR1 (guardSchedule 3)
        (Process.issued emptyWorld) = some s ∧
      l < 3 ∧ kvHybrid.runCalls "report:2024" time.Minute fetchR1 [l, l, l, l] s = some s' ∧
      (∀ j, j < 3 → s'.pcs j = .done (HybridCache.afterDo (fetchR1 ()))) ∧
      fetchCount s'.world.trace = fetchCount emptyWorld.trace + 1 := by
  obtain ⟨s, hrun, hin⟩ := guardSchedule_in_guard "report:2024" time.Minute fetchR1
    emptyWorld 3 (by decide) rfl rfl (by simp [emptyWorld, World.init])
  obtain ⟨l, s', h⟩ := getOrSet_coalesced kvHybrid (fun _ _ _ _ => ⟨_, rfl⟩)
    (fun _ _ _ _ => ⟨_, rfl⟩) "report:2024" time.Minute fetchR1 emptyWorld
    (by simp [emptyWorld, World.init]) 3 (by decide) (guardSchedule 3)
    (mem_guardSchedule 3) s hrun hin
  exact ⟨s, l, s', hrun, h⟩

/-! ## HybridCache.Exists -/

/-- L1 reports the key: true with a nil error, L2 is not asked. -/
theorem HybridCache.exists_of_l1_true (c : HybridCache σ₁ σ₂) (K : String) (w : World σ₁ σ₂)
    {e : Option GoError} {s₁ : σ₁} (h₁ : c.local_.Exists K w.l1 = some ((true, e), s₁)) :
    c.Exists K w = some ((true, none),
      { w with l1 := s₁, trace := w.trace ++ [.call .L1 (.exists_ K)] }) := by
  simp [HybridCache.Exists, HybridCache.localExists, h₁, World.log]

/-- L1 does not report the key: the result of L2's Exists. -/
theorem HybridCache.exists_of_l1_false (c : HybridCache σ₁ σ₂) (K : String) (w : World σ₁ σ₂)
    {e : Option GoError} {s₁ : σ₁} (h₁ : c.local_.Exists K w.l1 = some ((false, e), s₁)) :
    c.Exists K w = (c.remote.Exists K w.l2).map (fun p =>
      (p.1, { w with l1 := s₁, l2 := p.2,
                     trace := w.trace ++ [.call .L1 (.exists_ K), .call .L2 (.exists_ K)] })) := by
  cases h₂ : c.remote.Exists K w.l2 with
  | none =>
    simp [HybridCache.Exists, HybridCache.localExists, HybridCache.remoteExists, h₁, h₂,
      World.log]
  | some p =>
    simp [HybridCache.Exists, HybridCache.localExists, HybridCache.remoteExists, h₁, h₂,
      World.log]

/-- C21. On the two key-value tiers, for every key, every value (a string or
not), every ttl > 0 and every state of both tiers: once
HybridCache.Set(K, V, ttl) has returned nil, HybridCache.Exists(K) returns
(true, nil), straight after the Set and after any progress of the goroutine
that processes the buffer of L1, whatever the policy admits or evicts.  When
L1 did not hold K before the Set, its write only waits in the buffer (or was
dropped), L1 reports false and the answer is the one of L2.  In every world
and over any L2, Exists returns (true, nil) when L1 holds K, without asking
L2; when L1 does not hold K its result is exactly the result of L2's Exists
on the state of L2; and over the key-value L2 it is (true, nil) when L2 holds
K. -/
theorem hybrid_exists_after_set (remote : Cache σ₂) (K : String) (V : GoValue)
    (ttl : Duration) (w w' : World Ristretto Redis) (_httl : 0 < ttl)
    (hset : kvHybrid.Set K V ttl w = some (none, w')) :
    (∀ turns : List (Bool × List String),
      (kvHybrid.Exists K { w' with l1 := w'.l1.background turns }).map Prod.fst
        = some (true, none)) ∧
    (w.l1.Get K = none →
      ∃ w'', kvHybrid.Exists K w' = some ((true, none), w'') ∧
        w''.trace = w'.trace ++ [.call .L1 (.exists_ K), .call .L2 (.exists_ K)]) ∧
    (∀ W : World Ristretto σ₂, W.l1.Get K ≠ none →
      HybridCache.Exists ⟨RistrettoCache, remote⟩ K W
        = some ((true, none), W.log (.call .L1 (.exists_ K)))) ∧
    (∀ W : World Ristretto σ₂, W.l1.Get K = none →
      (HybridCache.Exists ⟨RistrettoCache, remote⟩ K W).map Prod.fst
        = (remote.Exists K W.l2).map Prod.fst) ∧
    (∀ W : World Ristretto Redis, List.lookup K W.l2 ≠ none →
      (kvHybrid.Exists K W).map Prod.fst = some (true, none)) := by
  have hhold : ∀ {σ : Type} (r : Cache σ) (W : World Ristretto σ), W.l1.Get K ≠ none →
      HybridCache.Exists ⟨RistrettoCache, r⟩ K W
        = some ((true, none), W.log (.call .L1 (.exists_ K))) := by
    intro σ r W hW
    have hsome : (W.l1.Get K).isSome = true := Option.isSome_iff_ne_none.mpr hW
    have hE : (⟨RistrettoCache, r⟩ : HybridCache Ristretto σ).local_.Exists K W.l1
        = some ((true, none), W.l1) := by
      simp [RistrettoCache, RistrettoCache.Exists, hsome]
    exact HybridCache.exists_of_l1_true _ K W hE
  have hmiss : ∀ {σ : Type} (r : Cache σ) (W : World Ristretto σ), W.l1.Get K = none →
      (HybridCache.Exists ⟨RistrettoCache, r⟩ K W).map Prod.fst
        = (r.Exists K W.l2).map Prod.fst := by
    intro σ r W hW
    have hE : (⟨RistrettoCache, r⟩ : HybridCache Ristretto σ).local_.Exists K W.l1
        = some ((false, none), W.l1) := by
      simp [RistrettoCache, RistrettoCache.Exists, hW]
    rw [HybridCache.exists_of_l1_false _ K W hE]
    cases r.Exists K W.l2 <;> rfl
  have hl2 : ∀ W : World Ristretto Redis, List.lookup K W.l2 ≠ none →
      (kvHybrid.Exists K W).map Prod.fst = some (true, none) := by
    intro W hW
    by_cases h1 : W.l1.Get K = none
    · rw [show kvHybrid = ⟨RistrettoCache, RedisCache⟩ from rfl, hmiss RedisCache W h1]
      have : (List.lookup K W.l2).isSome = true := Option.isSome_iff_ne_none.mpr hW
      simp [RedisCache, RedisCache.Exists, this]
    · rw [show kvHybrid = ⟨RistrettoCache, RedisCache⟩ from rfl, hhold RedisCache W h1]
      rfl
  obtain ⟨hl1, hheld, _⟩ := kvHybrid_set K V ttl w w' hset
  refine ⟨fun turns => hl2 _ ?_, fun hk => ?_, hhold remote, hmiss remote, hl2⟩
  · show List.lookup K w'.l2 ≠ none
    rw [hheld]; simp
  · have hnone : w'.l1.Get K = none := by
      rw [hl1]; exact (Ristretto.get_setWithTTL_of_new _ _ _ _ hk).2
    have hE : kvHybrid.local_.Exists K w'.l1 = some ((false, none), w'.l1) := by
      simp [kvHybrid, RistrettoCache, RistrettoCache.Exists, hnone]
    have hR : kvHybrid.remote.Exists K w'.l2 = some ((true, none), w'.l2) := by
      simp [kvHybrid, RedisCache, RedisCache.Exists, hheld]
    exact ⟨_, by rw [HybridCache.exists_of_l1_false _ K w' hE, hR]; rfl, rfl⟩

/-- Witness of C21 on the key-value tiers: user:42 set for five seconds, then
Exists while the write waits in the buffer of L1 (L2 answers) and after it
was admitted (L1 answers); and a world where only L2 holds the key. -/
theorem hybrid_exists_after_set_witness :
    (kvHybrid.Exists "user:42" user42Queued).map Prod.fst = some (true, none) ∧
    (kvHybrid.Exists "user:42" user42World).map Prod.fst = some (true, none) ∧
    (∃ w'', kvHybrid.Exists "user:42" user42Queued = some ((true, none), w'') ∧
      w''.trace = user42Queued.trace ++
        [.call .L1 (.exists_ "user:42"), .call .L2 (.exists_ "user:42")]) ∧
    kvHybrid.Exists "user:42" user42World
      = some ((true, none), user42World.log (.call .L1 (.exists_ "user:42"))) ∧
    (kvHybrid.Exists "user:42" l2OnlyWorld).map Prod.fst = some (true, none) :=
  have h := hybrid_exists_after_set RedisCache "user:42" (.str "a") (5 * time.Second)
    emptyWorld user42Queued (by decide) (by rfl)
  ⟨h.1 [], h.1 [(true, [])], h.2.1 rfl, h.2.2.1 user42World (by decide),
    h.2.2.2.2 l2OnlyWorld (by decide)⟩

/-! ## Two calls of GetOrSet, one after the other -/

/-- Double miss with no fetch in flight, over tiers whose Set returns: the
call returns what its fetch gives, fetch is invoked once, and the guard is
left as it was. -/
theorem HybridCache.getOrSet_of_double_miss (c : HybridCache σ₁ σ₂)
    (hret₁ : ∀ k v t s, ∃ p, c.local_.Set k v t s = some p)
    (hret₂ : ∀ k v t s, ∃ p, c.remote.Set k v t s = some p)
    (K : String) (ttl : Duration) (fetch : Unit → String × Option GoError) (w : World σ₁ σ₂)
    {v₁ v₂ : String} {e₁ e₂ : GoError} {s₁ : σ₁} {s₂ : σ₂}
    (hk : K ∉ w.group)
    (h₁ : c.local_.Get K w.l1 = some ((v₁, some e₁), s₁))
    (h₂ : c.remote.Get K w.l2 = some ((v₂, some e₂), s₂)) :
    ∃ w', c.GetOrSet K ttl fetch w = some (HybridCache.afterDo (fetch ()), w') ∧
      fetchCount w'.trace = fetchCount w.trace + 1 ∧ w'.group = w.group := by
  cases hf : fetch () with
  | mk data ef =>
    cases ef with
    | some e =>
      refine ⟨_, c.getOrSet_of_fetch_err K ttl fetch w hk h₁ h₂ hf, ?_, rfl⟩
      simp [fetchCount, List.count_append, List.count_cons]
    | none =>
      obtain ⟨⟨x₂, t₂⟩, h₃⟩ := hret₂ K (.str data) ttl s₂
      obtain ⟨⟨x₁, t₁⟩, h₄⟩ := hret₁ K (.str data) ttl s₁
      refine ⟨_, c.getOrSet_of_fetch_ok K ttl fetch w hk h₁ h₂ hf h₃ h₄, ?_, rfl⟩
      simp [fetchCount, List.count_append, List.count_cons]

/-- C22. The guard keeps no record of a key once its fetch has completed.
Over tiers whose Set returns, with no fetch for K in flight: a call
GetOrSet(K, ttl, fetch1) that misses both tiers returns what fetch1 gives,
invokes fetch1 once and leaves the guard without a record for K; and a
second call GetOrSet(K, ttl, fetch2) on the world the first one left, when
it misses both tiers again, invokes fetch2 once and returns what fetch2
gives, not the result of the first call. -/
theorem getOrSet_sequential (c : HybridCache σ₁ σ₂)
    (hret₁ : ∀ k v t s, ∃ p, c.local_.Set k v t s = some p)
    (hret₂ : ∀ k v t s, ∃ p, c.remote.Set k v t s = some p)
    (K : String) (ttl : Duration) (fetch₁ fetch₂ : Unit → String × Option GoError)
    (w : World σ₁ σ₂) (v₁ v₂ : String) (e₁ e₂ : GoError) (s₁ : σ₁) (s₂ : σ₂)
    (hk : K ∉ w.group)
    (h₁ : c.local_.Get K w.l1 = some ((v₁, some e₁), s₁))
    (h₂ : c.remote.Get K w.l2 = some ((v₂, some e₂), s₂)) :
    ∃ w₁, c.GetOrSet K ttl fetch₁ w = some (HybridCache.afterDo (fetch₁ ()), w₁) ∧
      fetchCount w₁.trace = fetchCount w.trace + 1 ∧ K ∉ w₁.group ∧
      ∀ (u₁ u₂ : String) (d₁ d₂ : GoError) (t₁ : σ₁) (t₂ : σ₂),
        c.local_.Get K w₁.l1 = some ((u₁, some d₁), t₁) →
        c.remote.Get K w₁.l2 = some ((u₂, some d₂), t₂) →
        ∃ w₂, c.GetOrSet K ttl fetch₂ w₁ = some (HybridCache.afterDo (fetch₂ ()), w₂) ∧
          fetchCount w₂.trace = fetchCount w₁.trace + 1 ∧ K ∉ w₂.group := by
  obtain ⟨w₁, hcall, hcount, hg⟩ :=
    c.getOrSet_of_double_miss hret₁ hret₂ K ttl fetch₁ w hk h₁ h₂
  have hk₁ : K ∉ w₁.group := by rw [hg]; exact hk
  refine ⟨w₁, hcall, hcount, hk₁, fun u₁ u₂ d₁ d₂ t₁ t₂ g₁ g₂ => ?_⟩
  obtain ⟨w₂, hcall₂, hcount₂, hg₂⟩ :=
    c.getOrSet_of_double_miss hret₁ hret₂ K ttl fetch₂ w₁ hk₁ g₁ g₂
  exact ⟨w₂, hcall₂, hcount₂, by rw [hg₂]; exact hk₁⟩

/-- Witness of C22 on the empty key-value tiers: the first fetch fails and
nothing is cached, the second call fetches again and returns R1. -/
theorem getOrSet_sequential_witness :
    ∃ w₁ w₂, kvHybrid.GetOrSet "report:2024" time.Minute fetchFail emptyWorld
        = some (("", some (GoError.errorsNew "db unavailable")), w₁) ∧
      fetchCount w₁.trace = 1 ∧
      kvHybrid.GetOrSet "report:2024" time.Minute fetchR1 w₁ = some (("R1", none), w₂) ∧
      fetchCount w₂.trace = 2 := by
  obtain ⟨w₁, hcall, hcount, -, hnext⟩ := getOrSet_sequential kvHybrid
    (fun _ _ _ _ => ⟨_, rfl⟩) (fun _ _ _ _ => ⟨_, rfl⟩) "report:2024" time.Minute
    fetchFail fetchR1 emptyWorld "" "" (.errorsNew "redis: nil") .redisNil emptyWorld.l1 []
    (by simp [emptyWorld, World.init]) rfl rfl
  have hw₁ : w₁ = { emptyWorld with trace := emptyWorld.trace ++
      [.call .L1 (.get "report:2024"), .call .L2 (.get "report:2024"), .fetch] } := by
    have h : kvHybrid.GetOrSet "report:2024" time.Minute fetchFail emptyWorld
        = some (("", some (GoError.errorsNew "db unavailable")),
            { emptyWorld with trace := emptyWorld.trace ++
              [.call .L1 (.get "report:2024"), .call .L2 (.get "report:2024"), .fetch] }) := rfl
    rw [h] at hcall
    simp only [Option.some.injEq, Prod.mk.injEq] at hcall
    exact hcall.2.symm
  obtain ⟨w₂, hcall₂, hcount₂, -⟩ :=
    hnext "" "" (.errorsNew "redis: nil") .redisNil emptyWorld.l1 []
    (by rw [hw₁]; rfl) (by rw [hw₁]; rfl)
  refine ⟨w₁, w₂, hcall, ?_, hcall₂, ?_⟩
  · rw [hcount]; rfl
  · rw [hcount₂, hcount]; rfl

/-! ## RedisCache.GetOrSet -/

/-- C23. RedisCache.GetOrSet(K, ttl, fetch), given what its Get(K) returns.
On a hit it returns the cached value and issues the read alone.  On an error
other than redis.Nil it returns the empty string with that error unmodified
and issues the read alone: no fetch, no write.  On redis.Nil, with no fetch
for K in flight, it invokes fetch once: when fetch fails it returns the
error of fetch and writes nothing; when fetch succeeds it writes the data
under K with the caller's ttl and returns it, whatever the write returned. -/
theorem redis_getOrSet_branches (c : Cache σ₂) (K : String) (ttl : Duration)
    (fetch : Unit → String × Option GoError) (w : World σ₁ σ₂)
    (v : String) (e : Option GoError) (s : σ₂)
    (hget : c.Get K w.l2 = some ((v, e), s)) :
    (e = none → RedisCache.GetOrSet c K ttl fetch w
        = some ((v, none), { w with l2 := s, trace := w.trace ++ [.call .L2 (.get K)] })) ∧
    (∀ x, e = some x → x ≠ GoError.redisNil → RedisCache.GetOrSet c K ttl fetch w
        = some (("", some x),
            { w with l2 := s, trace := w.trace ++ [.call .L2 (.get K)] })) ∧
    (e = some GoError.redisNil → K ∉ w.group →
      (∀ d x, fetch () = (d, some x) → RedisCache.GetOrSet c K ttl fetch w
        = some (("", some x),
            { w with l2 := s, trace := w.trace ++ [.call .L2 (.get K), .fetch] })) ∧
      (∀ d, fetch () = (d, none) → ∀ y t, c.Set K (.str d) ttl s = some (y, t) →
        RedisCache.GetOrSet c K ttl fetch w
          = some ((d, none),
              { w with l2 := t, trace := w.trace ++ [.call .L2 (.get K), .fetch,
                .call .L2 (.set K (.str d) ttl)] }))) := by
  refine ⟨?_, ?_, ?_⟩
  · rintro rfl
    simp [RedisCache.GetOrSet, World.onRemote, hget, World.log]
  · rintro x rfl hx
    simp [RedisCache.GetOrSet, World.onRemote, hget, World.log, hx]
  · rintro rfl hk
    refine ⟨?_, ?_⟩
    · intro d x hf
      simp [RedisCache.GetOrSet, World.onRemote, hget, World.log, Group.Do, hk,
        RedisCache.fill, hf]
    · intro d hf y t hset
      simp [RedisCache.GetOrSet, World.onRemote, hget, World.log, Group.Do, hk,
        RedisCache.fill, hf, hset]

/-- Witness of C23: a hit and a miss on the key-value store, and a store that
is unreachable. -/
theorem redis_getOrSet_branches_witness :
    (RedisCache.GetOrSet RedisCache "user:42" time.Minute fetchR1 l2OnlyWorld).map Prod.fst
      = some ("a", none) ∧
    RedisCache.GetOrSet (downCache (.upstream "connection refused")) "user:42" time.Minute
        fetchR1 (World.init () ())
      = some (("", some (GoError.upstream "connection refused")),
          { World.init () () with trace := [.call .L2 (.get "user:42")] }) ∧
    RedisCache.GetOrSet RedisCache "report:2024" time.Minute fetchR1 emptyWorld
      = some (("R1", none),
          { emptyWorld with
            l2 := [("report:2024", "R1", time.Minute)]
            trace := [.call .L2 (.get "report:2024"), .fetch,
              .call .L2 (.set "report:2024" (.str "R1") time.Minute)] }) :=
  ⟨by
      rw [(redis_getOrSet_branches RedisCache "user:42" time.Minute fetchR1 l2OnlyWorld
        "a" none l2OnlyWorld.l2 rfl).1 rfl]
      rfl,
   (redis_getOrSet_branches (downCache (.upstream "connection refused")) "user:42"
      time.Minute fetchR1 (World.init () ()) "" (some (.upstream "connection refused")) ()
      rfl).2.1 _ rfl (by decide),
   ((redis_getOrSet_branches RedisCache "report:2024" time.Minute fetchR1 emptyWorld
      "" (some .redisNil) [] rfl).2.2 rfl (by simp [emptyWorld, World.init])).2
      "R1" rfl none [("report:2024", "R1", time.Minute)] rfl⟩

/-! ## RedisValidator.Validate -/

/-- C27 as stated fails.  With an empty cache, no code is stored under
verify:login:user@example.com, and Validate accepts the supplied code
123456. -/
theorem validate_mock_code_counterexample :
    RedisCache.Get "verify:login:user@example.com" []
      = some (("", some GoError.redisNil), []) ∧
    RedisValidator.Validate RedisCache "user@example.com" "123456" "login" []
      = some (true, []) :=
  ⟨rfl, by decide⟩

/-- C27, amended.  RedisValidator.Validate(target, code, purpose), given what
the cache returns for the key verify:{purpose}:{target}.  The mock code
123456 is accepted whatever the cache holds.  Every other supplied code is
accepted only if the cache returns a non-empty stored code with a nil error
and that stored code equals the supplied one (the key is then deleted); in
every other case Validate returns false and leaves the cache as the read
left it. -/
theorem validate_result {σ : Type} (cache : Cache σ) (target code purpose : String) (s : σ)
    (stored : String) (err : Option GoError) (s₁ : σ)
    (hget : cache.Get ("verify:" ++ purpose ++ ":" ++ target) s = some ((stored, err), s₁)) :
    (code = "123456" →
      RedisValidator.Validate cache target code purpose s = some (true, s₁)) ∧
    (code ≠ "123456" →
      (err = none ∧ stored ≠ "" ∧ stored = code →
        ∀ y t, cache.Del ("verify:" ++ purpose ++ ":" ++ target) s₁ = some (y, t) →
          RedisValidator.Validate cache target code purpose s = some (true, t)) ∧
      (¬ (err = none ∧ stored ≠ "" ∧ stored = code) →
        RedisValidator.Validate cache target code purpose s = some (false, s₁))) := by
  refine ⟨fun hc => ?_, fun hc => ⟨?_, ?_⟩⟩
  · simp [RedisValidator.Validate, hget, hc]
  · rintro ⟨he, hne, heq⟩ y t hdel
    simp [RedisValidator.Validate, hget, hc, he, hne, heq, hdel]
    subst heq
    simp [hne, hdel]
  · intro hnot
    simp only [RedisValidator.Validate, hget, hc, if_false]
    by_cases h1 : err ≠ none ∨ stored = ""
    · simp [h1]
    · simp only [h1, if_false]
      have he : err = none := by
        by_contra h; exact h1 (Or.inl h)
      have hs : stored ≠ "" := fun h => h1 (Or.inr h)
      have hneq : stored ≠ code := fun h => hnot ⟨he, hs, h⟩
      simp [hneq]

/-- Witness of the amended C27: the stored code 481516 is accepted once and
deleted, another code is refused, the mock code is accepted with nothing
stored. -/
theorem validate_result_witness :
    RedisValidator.Validate RedisCache "user@example.com" "481516" "login"
        [("verify:login:user@example.com", "481516", 5 * time.Minute)]
      = some (true, []) ∧
    RedisValidator.Validate RedisCache "user@example.com" "000000" "login"
        [("verify:login:user@example.com", "481516", 5 * time.Minute)]
      = some (false, [("verify:login:user@example.com", "481516", 5 * time.Minute)]) ∧
    RedisValidator.Validate RedisCache "user@example.com" "123456" "login" []
      = some (true, []) :=
  ⟨((validate_result RedisCache "user@example.com" "481516" "login"
      [("verify:login:user@example.com", "481516", 5 * time.Minute)] "481516" none
      [("verify:login:user@example.com", "481516", 5 * time.Minute)] (by decide)).2
      (by decide)).1 ⟨rfl, by decide, rfl⟩ none [] (by decide),
   ((validate_result RedisCache "user@example.com" "000000" "login"
      [("verify:login:user@example.com", "481516", 5 * time.Minute)] "481516" none
      [("verify:login:user@example.com", "481516", 5 * time.Minute)] (by decide)).2
      (by decide)).2 (by decide),
   (validate_result RedisCache "user@example.com" "123456" "login" []
      "" (some .redisNil) [] (by decide)).1 rfl⟩

/-! ## Values that are not strings in L1 -/

/-- C28, the code at the failing input.  Set("k", 42, 1m) through the
coordinator returns nil and hands the integer to L1 as it is, and L2 holds
the key.  Once the goroutine of the library has processed the buffer and
admitted the item, the table of L1 holds the integer, and
RistrettoCache.Get("k") does not return (the assertion of the stored value
to string panics), and neither do HybridCache.Get("k") and
HybridCache.GetOrSet("k", ...), which hit L1 first, although L2 holds the
key.  On an L1 that already holds "k", the Set updates the table at once and
the Get straight after it panics. -/
theorem ristretto_get_panics_on_non_string :
    (∃ w', kvHybrid.Set "k" (.int 42) time.Minute emptyWorld = some (none, w') ∧
      w'.l1 = ⟨[], [.itemNew "k" { value := .int 42, ttl := time.Minute }]⟩ ∧
      (List.lookup "k" w'.l2).isSome = true ∧
      (w'.l1.background [(true, [])]).storedItems
        = [("k", { value := .int 42, ttl := time.Minute })] ∧
      RistrettoCache.Get "k" (w'.l1.background [(true, [])]) = none ∧
      kvHybrid.Get "k" { w' with l1 := w'.l1.background [(true, [])] } = none ∧
      kvHybrid.GetOrSet "k" time.Minute fetchR1
        { w' with l1 := w'.l1.background [(true, [])] } = none) ∧
    (∃ w', kvHybrid.Set "k" (.int 42) time.Minute
        (World.init (.ofTable [("k", { value := .str "old", ttl := time.Minute })]) [])
          = some (none, w') ∧
      RistrettoCache.Get "k" w'.l1 = none ∧
      kvHybrid.Get "k" w' = none ∧
      kvHybrid.GetOrSet "k" time.Minute fetchR1 w' = none) :=
  ⟨⟨_, rfl, rfl, rfl, rfl, rfl, rfl, rfl⟩, ⟨_, rfl, rfl, rfl, rfl⟩⟩

/-! ## A failed start of the listener -/

/-- C29, the code at the failing input.  Whatever the other lifecycle fields
of an invalidator that is not running, a Start whose subscription is not
confirmed returns the error and leaves the running flag set, with no
confirmation and no listen loop added; a later Start on that invalidator
returns nil without subscribing, whatever the store would answer. -/
theorem failed_start_keeps_running (e : GoError) (recv : Option GoError)
    (sub conf lis canc : Bool) :
    L1Invalidator.Start (some e)
        { isRunning := false, subscribed := sub, confirmed := conf, listening := lis,
          cancelled := canc }
      = (some e, { isRunning := true, subscribed := true, confirmed := false,
                   listening := lis, cancelled := canc }) ∧
    L1Invalidator.Start recv
        { isRunning := true, subscribed := true, confirmed := false, listening := lis,
          cancelled := canc }
      = (none, { isRunning := true, subscribed := true, confirmed := false,
                 listening := lis, cancelled := canc }) :=
  ⟨rfl, rfl⟩

/-! ## The Feistel cipher is a bijection on the 32-bit integers -/

theorem FeistelCipher.decRound_encRound (sha256 : Bytes → Bytes) (fc : FeistelCipher)
    (lr : Nat × Nat) (i : Nat) :
    fc.decRound sha256 (fc.encRound sha256 lr i) i = lr := by
  obtain ⟨l, r⟩ := lr
  simp only [FeistelCipher.decRound, FeistelCipher.encRound, Nat.xor_cancel_right]

theorem FeistelCipher.encRound_decRound (sha256 : Bytes → Bytes) (fc : FeistelCipher)
    (lr : Nat × Nat) (i : Nat) :
    fc.encRound sha256 (fc.decRound sha256 lr i) i = lr := by
  obtain ⟨l, r⟩ := lr
  simp only [FeistelCipher.decRound, FeistelCipher.encRound, Nat.xor_cancel_right]

theorem FeistelCipher.encRound_lt (sha256 : Bytes → Bytes) (fc : FeistelCipher)
    (lr : Nat × Nat) (i : Nat) (h : lr.1 < 65536 ∧ lr.2 < 65536) :
    (fc.encRound sha256 lr i).1 < 65536 ∧ (fc.encRound sha256 lr i).2 < 65536 := by
  refine ⟨h.2, ?_⟩
  have hf : fc.roundFunc sha256 lr.2 i % 65536 < 2 ^ 16 := Nat.mod_lt _ (by norm_num)
  have hl : lr.1 < 2 ^ 16 := h.1
  exact Nat.xor_lt_two_pow hl hf

theorem FeistelCipher.decRound_lt (sha256 : Bytes → Bytes) (fc : FeistelCipher)
    (lr : Nat × Nat) (i : Nat) (h : lr.1 < 65536 ∧ lr.2 < 65536) :
    (fc.decRound sha256 lr i).1 < 65536 ∧ (fc.decRound sha256 lr i).2 < 65536 := by
  refine ⟨?_, h.1⟩
  have hf : fc.roundFunc sha256 lr.1 i % 65536 < 2 ^ 16 := Nat.mod_lt _ (by norm_num)
  have hr : lr.2 < 2 ^ 16 := h.2
  exact Nat.xor_lt_two_pow hr hf

theorem FeistelCipher.encLoop_lt (sha256 : Bytes → Bytes) (fc : FeistelCipher)
    (is : List Nat) (lr : Nat × Nat) (h : lr.1 < 65536 ∧ lr.2 < 65536) :
    (is.foldl (fc.encRound sha256) lr).1 < 65536 ∧
      (is.foldl (fc.encRound sha256) lr).2 < 65536 := by
  induction is generalizing lr with
  | nil => exact h
  | cons i is ih => exact ih _ (fc.encRound_lt sha256 lr i h)

theorem FeistelCipher.decLoop_lt (sha256 : Bytes → Bytes) (fc : FeistelCipher)
    (is : List Nat) (lr : Nat × Nat) (h : lr.1 < 65536 ∧ lr.2 < 65536) :
    (is.foldl (fc.decRound sha256) lr).1 < 65536 ∧
      (is.foldl (fc.decRound sha256) lr).2 < 65536 := by
  induction is generalizing lr with
  | nil => exact h
  | cons i is ih => exact ih _ (fc.decRound_lt sha256 lr i h)

/-- The decrypt rounds, run in the reverse order, undo the encrypt rounds. -/
theorem FeistelCipher.decLoop_encLoop (sha256 : Bytes → Bytes) (fc : FeistelCipher)
    (is : List Nat) (lr : Nat × Nat) :
    is.reverse.foldl (fc.decRound sha256) (is.foldl (fc.encRound sha256) lr) = lr := by
  induction is using List.reverseRecOn generalizing lr with
  | nil => rfl
  | append_singleton is i ih =>
    simp only [List.foldl_append, List.foldl_cons, List.foldl_nil, List.reverse_append,
      List.reverse_cons, List.reverse_nil, List.nil_append, List.singleton_append,
      FeistelCipher.decRound_encRound]
    exact ih lr

/-- The encrypt rounds undo the decrypt rounds run in the reverse order. -/
theorem FeistelCipher.encLoop_decLoop (sha256 : Bytes → Bytes) (fc : FeistelCipher)
    (is : List Nat) (lr : Nat × Nat) :
    is.foldl (fc.encRound sha256) (is.reverse.foldl (fc.decRound sha256) lr) = lr := by
  induction is using List.reverseRecOn generalizing lr with
  | nil => rfl
  | append_singleton is i ih =>
    simp only [List.foldl_append, List.foldl_cons, List.foldl_nil, List.reverse_append,
      List.reverse_cons, List.reverse_nil, List.nil_append, List.singleton_append]
    rw [ih, FeistelCipher.encRound_decRound]

/-- Packing two uint16 halves into a uint32 and splitting them again. -/
theorem pack_halves (l r : Nat) (hl : l < 65536) (hr : r < 65536) :
    (l <<< 16) ||| r = 65536 * l + r ∧ ((l <<< 16) ||| r) < 4294967296 ∧
    (((l <<< 16) ||| r) >>> 16) % 65536 = l ∧ (((l <<< 16) ||| r) &&& 0xFFFF) % 65536 = r := by
  have hpack : (l <<< 16) ||| r = 65536 * l + r := by
    have h := Nat.mul_add_lt_is_or (show r < 2 ^ 16 from hr) l
    rw [Nat.shiftLeft_eq, Nat.mul_comm]
    exact h.symm
  have hand : ∀ x : Nat, x &&& 0xFFFF = x % 65536 := fun x =>
    Nat.and_pow_two_sub_one_eq_mod x 16
  refine ⟨hpack, ?_, ?_, ?_⟩
  · rw [hpack]; omega
  · rw [hpack, Nat.shiftRight_eq_div_pow]; omega
  · rw [hpack, hand]; omega

theorem split_pack (id : Nat) (h : id < 4294967296) :
    (id >>> 16) % 65536 < 65536 ∧ (id &&& 0xFFFF) % 65536 < 65536 ∧
    (((id >>> 16) % 65536) <<< 16) ||| ((id &&& 0xFFFF) % 65536) = id := by
  have hand : id &&& 0xFFFF = id % 65536 := Nat.and_pow_two_sub_one_eq_mod id 16
  have h1 : (id >>> 16) % 65536 < 65536 := Nat.mod_lt _ (by norm_num)
  have h2 : (id &&& 0xFFFF) % 65536 < 65536 := Nat.mod_lt _ (by norm_num)
  refine ⟨h1, h2, ?_⟩
  rw [(pack_halves _ _ h1 h2).1, hand, Nat.shiftRight_eq_div_pow]
  omega

theorem FeistelCipher.encrypt_lt (sha256 : Bytes → Bytes) (fc : FeistelCipher) (id : Nat) :
    fc.Encrypt sha256 id < 4294967296 := by
  have h := fc.encLoop_lt sha256 (List.range fc.rounds)
    ((id >>> 16) % 65536, (id &&& 0xFFFF) % 65536)
    ⟨Nat.mod_lt _ (by norm_num), Nat.mod_lt _ (by norm_num)⟩
  exact (pack_halves _ _ h.1 h.2).2.1

theorem FeistelCipher.decrypt_lt (sha256 : Bytes → Bytes) (fc : FeistelCipher) (id : Nat) :
    fc.Decrypt sha256 id < 4294967296 := by
  have h := fc.decLoop_lt sha256 (List.range fc.rounds).reverse
    ((id >>> 16) % 65536, (id &&& 0xFFFF) % 65536)
    ⟨Nat.mod_lt _ (by norm_num), Nat.mod_lt _ (by norm_num)⟩
  exact (pack_halves _ _ h.1 h.2).2.1

theorem FeistelCipher.decrypt_encrypt (sha256 : Bytes → Bytes) (fc : FeistelCipher)
    (id : Nat) (h : id < 4294967296) : fc.Decrypt sha256 (fc.Encrypt sha256 id) = id := by
  have hb := fc.encLoop_lt sha256 (List.range fc.rounds)
    ((id >>> 16) % 65536, (id &&& 0xFFFF) % 65536)
    ⟨Nat.mod_lt _ (by norm_num), Nat.mod_lt _ (by norm_num)⟩
  obtain ⟨-, -, h3, h4⟩ := pack_halves _ _ hb.1 hb.2
  unfold FeistelCipher.Decrypt
  simp only []
  rw [show fc.Encrypt sha256 id
      = ((List.range fc.rounds).foldl (fc.encRound sha256)
          ((id >>> 16) % 65536, (id &&& 0xFFFF) % 65536)).1 <<< 16 |||
        ((List.range fc.rounds).foldl (fc.encRound sha256)
          ((id >>> 16) % 65536, (id &&& 0xFFFF) % 65536)).2 from rfl, h3, h4,
    FeistelCipher.decLoop_encLoop]
  exact (split_pack id h).2.2

theorem FeistelCipher.encrypt_decrypt (sha256 : Bytes → Bytes) (fc : FeistelCipher)
    (id : Nat) (h : id < 4294967296) : fc.Encrypt sha256 (fc.Decrypt sha256 id) = id := by
  have hb := fc.decLoop_lt sha256 (List.range fc.rounds).reverse
    ((id >>> 16) % 65536, (id &&& 0xFFFF) % 65536)
    ⟨Nat.mod_lt _ (by norm_num), Nat.mod_lt _ (by norm_num)⟩
  obtain ⟨-, -, h3, h4⟩ := pack_halves _ _ hb.1 hb.2
  unfold FeistelCipher.Encrypt
  simp only []
  rw [show fc.Decrypt sha256 id
      = ((List.range fc.rounds).reverse.foldl (fc.decRound sha256)
          ((id >>> 16) % 65536, (id &&& 0xFFFF) % 65536)).1 <<< 16 |||
        ((List.range fc.rounds).reverse.foldl (fc.decRound sha256)
          ((id >>> 16) % 65536, (id &&& 0xFFFF) % 65536)).2 from rfl, h3, h4,
    FeistelCipher.encLoop_decLoop]
  exact (split_pack id h).2.2
/-- C24. For every key, every number of rounds and every hash function
behind the round function, and for every uint32 id: Encrypt(id) and
Decrypt(id) are uint32 values, Decrypt(Encrypt(id)) = id and
Encrypt(Decrypt(id)) = id; so Encrypt is one-to-one on the 32-bit integers
and every 32-bit integer is the image of one. -/
theorem feistel_bijection (sha256 : Bytes → Bytes) (fc : FeistelCipher) (id : Nat)
    (h : id < 4294967296) :
    fc.Encrypt sha256 id < 4294967296 ∧ fc.Decrypt sha256 id < 4294967296 ∧
    fc.Decrypt sha256 (fc.Encrypt sha256 id) = id ∧
    fc.Encrypt sha256 (fc.Decrypt sha256 id) = id ∧
    (∀ other, other < 4294967296 → fc.Encrypt sha256 other = fc.Encrypt sha256 id →
      other = id) ∧
    (∃ x, x < 4294967296 ∧ fc.Encrypt sha256 x = id) := by
  refine ⟨fc.encrypt_lt sha256 id, fc.decrypt_lt sha256 id, fc.decrypt_encrypt sha256 id h,
    fc.encrypt_decrypt sha256 id h, fun other ho heq => ?_,
    ⟨fc.Decrypt sha256 id, fc.decrypt_lt sha256 id, fc.encrypt_decrypt sha256 id h⟩⟩
  rw [← fc.decrypt_encrypt sha256 other ho, heq, fc.decrypt_encrypt sha256 id h]

/-- Witness of C24: the cipher of the package with the stand-in hash, on the
id 12345678, which it sends to 2560049726. -/
theorem feistel_bijection_witness :
    cipher.Encrypt sumHash 12345678 = 2560049726 ∧
    cipher.Decrypt sumHash 2560049726 = 12345678 ∧
    cipher.Decrypt sumHash (cipher.Encrypt sumHash 12345678) = 12345678 ∧
    cipher.Encrypt sumHash (cipher.Decrypt sumHash 12345678) = 12345678 :=
  have h := feistel_bijection sumHash cipher 12345678 (by decide)
  ⟨by decide, by decide, h.2.2.1, h.2.2.2.1⟩

/-! ## Cycle walking -/

/-- A map of the numbers below `U` that has an inverse there brings every such
number back to itself after some positive number of applications. -/
theorem exists_iterate_eq_self (U : Nat) (f g : Nat → Nat)
    (hf : ∀ x, x < U → f x < U) (hg : ∀ x, x < U → g x < U)
    (hgf : ∀ x, x < U → g (f x) = x) (hfg : ∀ x, x < U → f (g x) = x)
    (x : Nat) (hx : x < U) : ∃ k, 0 < k ∧ f^[k] x = x := by
  let σ : Equiv.Perm (Fin U) :=
    { toFun := fun a => ⟨f a.1, hf a.1 a.2⟩
      invFun := fun a => ⟨g a.1, hg a.1 a.2⟩
      left_inv := fun a => Fin.ext (hgf a.1 a.2)
      right_inv := fun a => Fin.ext (hfg a.1 a.2) }
  have hiter : ∀ (n : Nat) (a : Fin U), ((⇑σ)^[n] a).1 = f^[n] a.1 := by
    intro n
    induction n with
    | zero => intro a; rfl
    | succ n ih =>
      intro a
      rw [Function.iterate_succ_apply, Function.iterate_succ_apply, ih]
      rfl
  refine ⟨orderOf σ, orderOf_pos σ, ?_⟩
  have h1 : (⇑σ)^[orderOf σ] ⟨x, hx⟩ = ⟨x, hx⟩ := by
    rw [Equiv.Perm.iterate_eq_pow, pow_orderOf_eq_one]
    rfl
  have h2 := hiter (orderOf σ) ⟨x, hx⟩
  rw [h1] at h2
  exact h2.symm

theorem iterate_lt (U : Nat) (f : Nat → Nat) (hf : ∀ x, x < U → f x < U)
    (n x : Nat) (hx : x < U) : f^[n] x < U := by
  induction n generalizing x with
  | zero => exact hx
  | succ n ih =>
    rw [Function.iterate_succ_apply]
    exact ih (f x) (hf x hx)

/-- Applying the inverse `j` times undoes `j` of the applications. -/
theorem iterate_inverse (U : Nat) (f g : Nat → Nat) (hf : ∀ x, x < U → f x < U)
    (hgf : ∀ x, x < U → g (f x) = x) (j n x : Nat) (hx : x < U) :
    g^[j] (f^[j + n] x) = f^[n] x := by
  induction j with
  | zero => simp
  | succ j ih =>
    rw [Function.iterate_succ_apply, show j + 1 + n = (j + n) + 1 by omega,
      Function.iterate_succ_apply', hgf _ (iterate_lt U f hf (j + n) x hx)]
    exact ih

/-- The loop returns the first iterate that lies in the range, whenever the
fuel reaches it. -/
theorem cycleWalk_eq (step : Nat → Nat) (min max : Int) (k x : Nat)
    (hout : ∀ j, 0 < j → j < k + 1 →
      ¬ ((step^[j] x : Int) ≥ min ∧ (step^[j] x : Int) ≤ max))
    (hin : (step^[k + 1] x : Int) ≥ min ∧ (step^[k + 1] x : Int) ≤ max)
    (fuel : Nat) (hfuel : k + 1 ≤ fuel) :
    cycleWalk step min max fuel x = some (step^[k + 1] x : Int) := by
  induction k generalizing x fuel with
  | zero =>
    obtain ⟨n, rfl⟩ : ∃ n, fuel = n + 1 := ⟨fuel - 1, by omega⟩
    have hin' : (step x : Int) ≥ min ∧ (step x : Int) ≤ max := hin
    simp only [cycleWalk, hin', and_self, if_true]
    rfl
  | succ k ih =>
    obtain ⟨n, rfl⟩ : ∃ n, fuel = n + 1 := ⟨fuel - 1, by omega⟩
    have h1 : ¬ ((step x : Int) ≥ min ∧ (step x : Int) ≤ max) := hout 1 (by omega) (by omega)
    simp only [cycleWalk, h1, if_false]
    rw [show step^[k + 1 + 1] x = step^[k + 1] (step x) from
      Function.iterate_succ_apply step (k + 1) x]
    refine ih (step x) (fun j hj hjk => ?_) ?_ n (by omega)
    · rw [← Function.iterate_succ_apply step j x]
      exact hout (j + 1) (by omega) (by omega)
    · rw [← Function.iterate_succ_apply step (k + 1) x]
      exact hin

/-- Cycle walking with a map that has an inverse on the numbers below `U`,
started inside the range: the loop ends within some number of rounds, its
result lies in the range, and cycle walking back with the inverse ends
within the same number of rounds on the value started from. -/
theorem cycleWalk_roundtrip (U : Nat) (f g : Nat → Nat)
    (hf : ∀ x, x < U → f x < U) (hg : ∀ x, x < U → g x < U)
    (hgf : ∀ x, x < U → g (f x) = x) (hfg : ∀ x, x < U → f (g x) = x)
    (min max : Int) (x : Nat) (hx : x < U) (hmin : min ≤ (x : Int)) (hmax : (x : Int) ≤ max) :
    ∃ (n y : Nat), 0 < n ∧ y < U ∧ min ≤ (y : Int) ∧ (y : Int) ≤ max ∧
      (∀ fuel, n ≤ fuel → cycleWalk f min max fuel x = some (y : Int)) ∧
      (∀ fuel, n ≤ fuel → cycleWalk g min max fuel y = some (x : Int)) := by
  obtain ⟨k, hk, hper⟩ := exists_iterate_eq_self U f g hf hg hgf hfg x hx
  have hex : ∃ m, 0 < m ∧ (f^[m] x : Int) ≥ min ∧ (f^[m] x : Int) ≤ max :=
    ⟨k, hk, by rw [hper]; exact hmin, by rw [hper]; exact hmax⟩
  classical
  have hspec := Nat.find_spec hex
  have hminimal := fun m (hm : m < Nat.find hex) => Nat.find_min hex hm
  obtain ⟨n, hn⟩ : ∃ n, Nat.find hex = n + 1 := ⟨Nat.find hex - 1, by omega⟩
  rw [hn] at hspec hminimal
  refine ⟨n + 1, f^[n + 1] x, by omega, iterate_lt U f hf (n + 1) x hx, hspec.2.1, hspec.2.2,
    ?_, ?_⟩
  · intro fuel hfuel
    exact cycleWalk_eq f min max n x
      (fun j hj hjn h => hminimal j hjn ⟨hj, h.1, h.2⟩) ⟨hspec.2.1, hspec.2.2⟩ fuel hfuel
  · intro fuel hfuel
    have hback : ∀ j, j ≤ n + 1 → g^[j] (f^[n + 1] x) = f^[n + 1 - j] x := by
      intro j hj
      have h := iterate_inverse U f g hf hgf j (n + 1 - j) x hx
      rw [show j + (n + 1 - j) = n + 1 by omega] at h
      exact h
    have hfin : g^[n + 1] (f^[n + 1] x) = x := by
      have h := hback (n + 1) (Nat.le_refl _)
      simpa using h
    have h := cycleWalk_eq g min max n (f^[n + 1] x)
      (fun j hj hjn hr => by
        rw [hback j (by omega)] at hr
        exact hminimal (n + 1 - j) (by omega) ⟨by omega, hr.1, hr.2⟩)
      (by rw [hfin]; exact ⟨hmin, hmax⟩) fuel hfuel
    rw [hfin] at h
    exact h
theorem uint32_of_range (v : Int) (h0 : 0 ≤ v) (h1 : v < 4294967296) :
    uint32 v < 4294967296 ∧ ((uint32 v : Nat) : Int) = v := by
  unfold uint32
  rw [Int.emod_eq_of_lt h0 h1]
  exact ⟨by omega, Int.toNat_of_nonneg h0⟩

theorem uint32_natCast (y : Nat) (h : y < 4294967296) : uint32 (y : Int) = y := by
  unfold uint32
  rw [Int.emod_eq_of_lt (Int.ofNat_nonneg y) (by exact_mod_cast h)]
  exact Int.toNat_ofNat y

/-- C25. For every hash function behind the cipher and all
0 <= min <= val <= max < 2^32: the loop of EncryptRange(val, min, max) ends
within some number n of cipher applications, its result y lies in
[min, max], and the loop of DecryptRange(y, min, max) ends within n
applications on val (every amount of fuel from n on gives these results). -/
theorem encryptRange_roundtrip (sha256 : Bytes → Bytes) (val min max : Int)
    (h0 : 0 ≤ min) (h1 : min ≤ val) (h2 : val ≤ max) (h3 : max < 4294967296) :
    ∃ (n : Nat) (y : Int), min ≤ y ∧ y ≤ max ∧
      (∀ fuel, n ≤ fuel → EncryptRange sha256 fuel val min max = some y) ∧
      (∀ fuel, n ≤ fuel → DecryptRange sha256 fuel y min max = some val) := by
  obtain ⟨hx, hxv⟩ := uint32_of_range val (by omega) (by omega)
  obtain ⟨n, y, -, hy, hymin, hymax, henc, hdec⟩ :=
    cycleWalk_roundtrip 4294967296 (cipher.Encrypt sha256) (cipher.Decrypt sha256)
      (fun x _ => cipher.encrypt_lt sha256 x) (fun x _ => cipher.decrypt_lt sha256 x)
      (cipher.decrypt_encrypt sha256) (cipher.encrypt_decrypt sha256)
      min max (uint32 val) hx (by rw [hxv]; exact h1) (by rw [hxv]; exact h2)
  refine ⟨n, (y : Int), hymin, hymax, fun fuel hfuel => henc fuel hfuel, fun fuel hfuel => ?_⟩
  have h := hdec fuel hfuel
  rw [hxv] at h
  unfold DecryptRange
  rw [uint32_natCast y hy]
  exact h

/-- Witness of C25 with the stand-in hash: 10000001 within the user range is
sent to 57983706 and comes back. -/
theorem encryptRange_roundtrip_witness :
    (∃ (n : Nat) (y : Int), (10000000 : Int) ≤ y ∧ y ≤ 99999999 ∧
      (∀ fuel, n ≤ fuel → EncryptRange sumHash fuel 10000001 10000000 99999999 = some y) ∧
      (∀ fuel, n ≤ fuel → DecryptRange sumHash fuel y 10000000 99999999 = some 10000001)) ∧
    EncryptRange sumHash 5 10000001 10000000 99999999 = some 57983706 ∧
    DecryptRange sumHash 5 57983706 10000000 99999999 = some 10000001 :=
  ⟨encryptRange_roundtrip sumHash 10000001 10000000 99999999
    (by decide) (by decide) (by decide) (by decide), by decide, by decide⟩

/-- C26. For every hash function behind the cipher and every id with
0 <= id <= MaxUserID - MinUserID: EncodeUserID(id) returns, within some
number n of cipher applications, a public ID in [10000000, 99999999], and
DecodeUserID of that public ID returns id within n applications. -/
theorem encodeUserID_roundtrip (sha256 : Bytes → Bytes) (id : Int)
    (h0 : 0 ≤ id) (h1 : id ≤ MaxUserID - MinUserID) :
    ∃ (n : Nat) (pub : Int), 10000000 ≤ pub ∧ pub ≤ 99999999 ∧
      (∀ fuel, n ≤ fuel → EncodeUserID sha256 fuel id = some pub) ∧
      (∀ fuel, n ≤ fuel → DecodeUserID sha256 fuel pub = some id) := by
  have hMin : MinUserID = 10000000 := rfl
  have hMax : MaxUserID = 99999999 := rfl
  rw [hMin, hMax] at h1
  obtain ⟨n, pub, hlo, hhi, henc, hdec⟩ :=
    encryptRange_roundtrip sha256 (id + 10000000) 10000000 99999999
      (by omega) (by omega) (by omega) (by omega)
  refine ⟨n, pub, hlo, hhi, fun fuel hfuel => ?_, fun fuel hfuel => ?_⟩
  · have hno : ¬ (id + 10000000 > 99999999) := by omega
    simp only [EncodeUserID, hMin, hMax, hno, if_false]
    exact henc fuel hfuel
  · have hno : ¬ (pub < 10000000 ∨ pub > 99999999) := by omega
    simp only [DecodeUserID, hMin, hMax, hno, if_false, hdec fuel hfuel, Option.map_some',
      Option.some.injEq]
    omega

/-- Witness of C26 with the stand-in hash: the internal id 1 becomes the
public ID 57983706, which decodes to 1. -/
theorem encodeUserID_roundtrip_witness :
    (∃ (n : Nat) (pub : Int), 10000000 ≤ pub ∧ pub ≤ 99999999 ∧
      (∀ fuel, n ≤ fuel → EncodeUserID sumHash fuel 1 = some pub) ∧
      (∀ fuel, n ≤ fuel → DecodeUserID sumHash fuel pub = some 1)) ∧
    EncodeUserID sumHash 5 1 = some 57983706 ∧
    DecodeUserID sumHash 5 57983706 = some 1 :=
  ⟨encodeUserID_roundtrip sumHash 1 (by decide) (by decide), by decide, by decide⟩

/-- C30. For every hash function behind the cipher and all
0 <= min <= val <= max < 2^32, the loops of EncryptRange(val, min, max) and
of DecryptRange(val, min, max) both return within some finite number n of
cipher applications: with n rounds of fuel, and with any larger amount,
each returns a value, which lies in [min, max]. -/
theorem range_loops_terminate (sha256 : Bytes → Bytes) (val min max : Int)
    (h0 : 0 ≤ min) (h1 : min ≤ val) (h2 : val ≤ max) (h3 : max < 4294967296) :
    ∃ (n : Nat) (e d : Int), min ≤ e ∧ e ≤ max ∧ min ≤ d ∧ d ≤ max ∧
      ∀ fuel, n ≤ fuel →
        EncryptRange sha256 fuel val min max = some e ∧
        DecryptRange sha256 fuel val min max = some d := by
  obtain ⟨hx, hxv⟩ := uint32_of_range val (by omega) (by omega)
  obtain ⟨n₁, e, -, -, hemin, hemax, henc, -⟩ :=
    cycleWalk_roundtrip 4294967296 (cipher.Encrypt sha256) (cipher.Decrypt sha256)
      (fun x _ => cipher.encrypt_lt sha256 x) (fun x _ => cipher.decrypt_lt sha256 x)
      (cipher.decrypt_encrypt sha256) (cipher.encrypt_decrypt sha256)
      min max (uint32 val) hx (by rw [hxv]; exact h1) (by rw [hxv]; exact h2)
  obtain ⟨n₂, d, -, -, hdmin, hdmax, hdec, -⟩ :=
    cycleWalk_roundtrip 4294967296 (cipher.Decrypt sha256) (cipher.Encrypt sha256)
      (fun x _ => cipher.decrypt_lt sha256 x) (fun x _ => cipher.encrypt_lt sha256 x)
      (cipher.encrypt_decrypt sha256) (cipher.decrypt_encrypt sha256)
      min max (uint32 val) hx (by rw [hxv]; exact h1) (by rw [hxv]; exact h2)
  exact ⟨Nat.max n₁ n₂, (e : Int), (d : Int), hemin, hemax, hdmin, hdmax, fun fuel hfuel =>
    ⟨henc fuel (le_trans (Nat.le_max_left n₁ n₂) hfuel),
     hdec fuel (le_trans (Nat.le_max_right n₁ n₂) hfuel)⟩⟩

/-- Witness of C30 with the stand-in hash: from 10000001 both loops return
within five cipher applications. -/
theorem range_loops_terminate_witness :
    (∃ (n : Nat) (e d : Int), (10000000 : Int) ≤ e ∧ e ≤ 99999999 ∧
      (10000000 : Int) ≤ d ∧ d ≤ 99999999 ∧
      ∀ fuel, n ≤ fuel →
        EncryptRange sumHash fuel 10000001 10000000 99999999 = some e ∧
        DecryptRange sumHash fuel 10000001 10000000 99999999 = some d) ∧
    EncryptRange sumHash 5 10000001 10000000 99999999 = some 57983706 ∧
    DecryptRange sumHash 3 10000001 10000000 99999999 = some 57950810 ∧
    EncryptRange sumHash 4 10000001 10000000 99999999 = none :=
  ⟨range_loops_terminate sumHash 10000001 10000000 99999999
    (by decide) (by decide) (by decide) (by decide), by decide, by decide, by decide⟩

end NuwaKit
